import Mathlib

/-!
# go-rwpql: reader / writer / priority queue locks

Shallow embedding of `rwpql/rwpql.go` (the ticket lock `RWPQL`) and
`rwpql/abrwpql.go` (the array-based lock `ABRWPQL`).

Every atomic operation of the source (`Load`, `Store`, `CAS`, `Inc`, `Dec`
on one of the `atomic.Uint32` fields, and every read or write of a ring slot)
is one step of the calling thread.  A thread is a program counter naming the
next atomic operation of the call it is executing, together with the local
variable `ticket`.  A system is the shared lock plus the threads; a schedule
picks the thread that takes the next step.  `time.Sleep` is a step of its own
(it touches nothing), so that a call "returns without waiting" exactly when it
reaches its `return` without executing a `time.Sleep`.

The calls to `Log` only feed the diagnostic logger and are left out of the
lock model.  `uint32` values are natural numbers reduced modulo `2^32`.
-/

/-- Modelled from the spec: the lock-state constants `OPEN`, `RLOCKED`,
`LOCKED`, `PRIORITY_LOCKED` and `PRIORITY_LOCK_RESERVED` used by both locks
(their declaration is not among the sources).  The spec's `LockState` is an
enum of five values; they are taken to be pairwise distinct. -/
inductive LockState
  | OPEN
  | RLOCKED
  | LOCKED
  | PRIORITY_LOCKED
  | PRIORITY_LOCK_RESERVED
  deriving DecidableEq

/-- Result of `atomic.Uint32.Inc`: the new value, with `uint32` wrap-around. -/
def inc32 (v : Nat) : Nat := (v + 1) % 4294967296

/-- Result of `atomic.Uint32.Dec` (and of `x - 1` on `uint32`): the new value,
with `uint32` wrap-around. -/
def dec32 (v : Nat) : Nat :=
  if v % 4294967296 = 0 then 4294967295 else v % 4294967296 - 1

/-- Subtraction `a - b` on `uint32`. -/
def sub32 (a b : Nat) : Nat :=
  if b % 4294967296 ≤ a % 4294967296 then a % 4294967296 - b % 4294967296
  else 4294967296 - (b % 4294967296 - a % 4294967296)

/-- The three acquiring calls a caller can start when it holds nothing. -/
inductive Op
  | RLock
  | Lock
  | PLock
  deriving DecidableEq

/-- How a call ends when no other caller takes a step: it returns (with the
lock and the caller as they are then), it reaches a `time.Sleep` (it has to
wait for another caller), it panics, or the steps allowed were used up. -/
inductive Outcome (L C : Type)
  | returned (l : L) (c : C)
  | blocked
  | panicked
  | unfinished

/-! ## The unbounded lock `RWPQL` (`rwpql/rwpql.go`) -/

/-- The struct `RWPQL` (rwpql.go 8-15); the atomics are their current values. -/
structure RWPQL where
  sleep_ns : Int
  lockState : LockState
  ticket : Nat
  dequeueCount : Nat
  nReaders : Nat
  priorityWaiting : Nat
  deriving DecidableEq

/-- `NewRWPQL` (rwpql.go 17-25). -/
def NewRWPQL (sleep_ns : Int) : RWPQL :=
  { sleep_ns := sleep_ns
    lockState := LockState.OPEN
    ticket := 0
    dequeueCount := 0
    nReaders := 0
    priorityWaiting := 0 }

namespace RWPQL

/-- Program points of a caller of `RWPQL`.  `idle`, `holdR`, `holdW`, `holdP`
are the points between calls (nothing held; `RLock` returned; `Lock` returned;
`PLock` returned).  Every other point names the next atomic operation (or
`time.Sleep`) of the call in progress, by the line of rwpql.go it is on. -/
inductive PC
  | idle
  | holdR
  | holdW
  | holdP
  | rl_draw       -- 29  ticket := l.ticket.Inc() - 1
  | rl_adm        -- 32  l.dequeueCount.Load() != ticket
  | rl_adm_sleep  -- 33  time.Sleep
  | rl_cas1       -- 35  l.lockState.CAS(OPEN, RLOCKED)
  | rl_cas2       -- 35  l.lockState.CAS(RLOCKED, RLOCKED)
  | rl_cas_sleep  -- 36  time.Sleep
  | rl_pw         -- 38  l.priorityWaiting.Load() > 0
  | rl_yield      -- 40  l.lockState.Store(PRIORITY_LOCK_RESERVED); continue
  | rl_dq         -- 43  l.dequeueCount.Inc()
  | rl_nr         -- 44  l.nReaders.Inc(); return
  | lk_draw       -- 53  ticket := l.ticket.Inc() - 1
  | lk_adm        -- 56  l.dequeueCount.Load() != ticket
  | lk_adm_sleep  -- 57  time.Sleep
  | lk_cas        -- 59  l.lockState.CAS(OPEN, LOCKED)
  | lk_cas_sleep  -- 60  time.Sleep
  | lk_pw         -- 62  l.priorityWaiting.Load() > 0; else return ticket
  | lk_yield      -- 64  l.lockState.Store(PRIORITY_LOCK_RESERVED); continue
  | pl_inc        -- 75  l.priorityWaiting.Inc()
  | pl_cas1       -- 77  l.lockState.CAS(OPEN, LOCKED)
  | pl_cas2       -- 78  l.lockState.CAS(PRIORITY_LOCK_RESERVED, LOCKED)
  | pl_sleep      -- 79  time.Sleep
  | pl_dec        -- 82  l.priorityWaiting.Dec(); return
  | ru_dec        -- 86  nReadersRemaining := l.nReaders.Dec()
  | ru_store      -- 91  l.lockState.Store(OPEN); return
  | ul_store      -- 98  l.lockState.Store(OPEN)
  | ul_inc        -- 99  l.dequeueCount.Inc(); return
  | pu_store      -- 105 l.lockState.Store(OPEN); return
  deriving DecidableEq

/-- A caller: its program point, the local variable `ticket` of `RLock` /
`Lock` (kept after `Lock` returns it, to be passed to `Unlock`), and the value
its last `l.priorityWaiting.Load()` yielded. -/
structure Local where
  pc : PC
  ticket : Nat
  pw : Nat
  deriving DecidableEq

/-- One step of `RLock` (rwpql.go 27-49). -/
def RLock (l : RWPQL) (c : Local) : RWPQL × Local :=
  match c.pc with
  | .rl_draw =>
    ({ l with ticket := inc32 l.ticket },
     { c with pc := .rl_adm, ticket := dec32 (inc32 l.ticket) })
  | .rl_adm =>
    if l.dequeueCount ≠ c.ticket then (l, { c with pc := .rl_adm_sleep })
    else (l, { c with pc := .rl_cas1 })
  | .rl_adm_sleep => (l, { c with pc := .rl_adm })
  | .rl_cas1 =>
    if l.lockState = .OPEN then ({ l with lockState := .RLOCKED }, { c with pc := .rl_pw })
    else (l, { c with pc := .rl_cas2 })
  | .rl_cas2 =>
    if l.lockState = .RLOCKED then ({ l with lockState := .RLOCKED }, { c with pc := .rl_pw })
    else (l, { c with pc := .rl_cas_sleep })
  | .rl_cas_sleep => (l, { c with pc := .rl_cas1 })
  | .rl_pw =>
    if l.priorityWaiting > 0 then (l, { c with pc := .rl_yield, pw := l.priorityWaiting })
    else (l, { c with pc := .rl_dq, pw := l.priorityWaiting })
  | .rl_yield => ({ l with lockState := .PRIORITY_LOCK_RESERVED }, { c with pc := .rl_adm })
  | .rl_dq => ({ l with dequeueCount := inc32 l.dequeueCount }, { c with pc := .rl_nr })
  | .rl_nr => ({ l with nReaders := inc32 l.nReaders }, { c with pc := .holdR })
  | _ => (l, c)

/-- One step of `Lock` (rwpql.go 51-71). -/
def Lock (l : RWPQL) (c : Local) : RWPQL × Local :=
  match c.pc with
  | .lk_draw =>
    ({ l with ticket := inc32 l.ticket },
     { c with pc := .lk_adm, ticket := dec32 (inc32 l.ticket) })
  | .lk_adm =>
    if l.dequeueCount ≠ c.ticket then (l, { c with pc := .lk_adm_sleep })
    else (l, { c with pc := .lk_cas })
  | .lk_adm_sleep => (l, { c with pc := .lk_adm })
  | .lk_cas =>
    if l.lockState = .OPEN then ({ l with lockState := .LOCKED }, { c with pc := .lk_pw })
    else (l, { c with pc := .lk_cas_sleep })
  | .lk_cas_sleep => (l, { c with pc := .lk_cas })
  | .lk_pw =>
    if l.priorityWaiting > 0 then (l, { c with pc := .lk_yield, pw := l.priorityWaiting })
    else (l, { c with pc := .holdW, pw := l.priorityWaiting })
  | .lk_yield => ({ l with lockState := .PRIORITY_LOCK_RESERVED }, { c with pc := .lk_adm })
  | _ => (l, c)

/-- One step of `PLock` (rwpql.go 73-83). -/
def PLock (l : RWPQL) (c : Local) : RWPQL × Local :=
  match c.pc with
  | .pl_inc => ({ l with priorityWaiting := inc32 l.priorityWaiting }, { c with pc := .pl_cas1 })
  | .pl_cas1 =>
    if l.lockState = .OPEN then ({ l with lockState := .LOCKED }, { c with pc := .pl_dec })
    else (l, { c with pc := .pl_cas2 })
  | .pl_cas2 =>
    if l.lockState = .PRIORITY_LOCK_RESERVED then
      ({ l with lockState := .LOCKED }, { c with pc := .pl_dec })
    else (l, { c with pc := .pl_sleep })
  | .pl_sleep => (l, { c with pc := .pl_cas1 })
  | .pl_dec => ({ l with priorityWaiting := dec32 l.priorityWaiting }, { c with pc := .holdP })
  | _ => (l, c)

/-- One step of `RUnlock` (rwpql.go 85-93). -/
def RUnlock (l : RWPQL) (c : Local) : RWPQL × Local :=
  match c.pc with
  | .ru_dec =>
    if dec32 l.nReaders = 0 then
      ({ l with nReaders := dec32 l.nReaders }, { c with pc := .ru_store })
    else ({ l with nReaders := dec32 l.nReaders }, { c with pc := .idle })
  | .ru_store => ({ l with lockState := .OPEN }, { c with pc := .idle })
  | _ => (l, c)

/-- One step of `Unlock` (rwpql.go 95-100); the parameter `ticket` is only
logged. -/
def Unlock (l : RWPQL) (c : Local) : RWPQL × Local :=
  match c.pc with
  | .ul_store => ({ l with lockState := .OPEN }, { c with pc := .ul_inc })
  | .ul_inc => ({ l with dequeueCount := inc32 l.dequeueCount }, { c with pc := .idle })
  | _ => (l, c)

/-- One step of `PUnlock` (rwpql.go 102-106). -/
def PUnlock (l : RWPQL) (c : Local) : RWPQL × Local :=
  match c.pc with
  | .pu_store => ({ l with lockState := .OPEN }, { c with pc := .idle })
  | _ => (l, c)

/-- First program point of an acquiring call. -/
def entry : Op → PC
  | .RLock => .rl_draw
  | .Lock => .lk_draw
  | .PLock => .pl_inc

/-- One step of a caller.  Between calls the caller follows the protocol:
holding nothing it starts the call `op`; after `RLock` it calls `RUnlock`,
after `Lock` it calls `Unlock` with the ticket `Lock` returned, after `PLock`
it calls `PUnlock`.  Inside a call it executes the next atomic operation. -/
def tstep (op : Op) (l : RWPQL) (c : Local) : RWPQL × Local :=
  match c.pc with
  | .idle => (l, { c with pc := entry op })
  | .holdR => (l, { c with pc := .ru_dec })
  | .holdW => (l, { c with pc := .ul_store })
  | .holdP => (l, { c with pc := .pu_store })
  | .rl_draw | .rl_adm | .rl_adm_sleep | .rl_cas1 | .rl_cas2 | .rl_cas_sleep
  | .rl_pw | .rl_yield | .rl_dq | .rl_nr => RLock l c
  | .lk_draw | .lk_adm | .lk_adm_sleep | .lk_cas | .lk_cas_sleep | .lk_pw | .lk_yield =>
    Lock l c
  | .pl_inc | .pl_cas1 | .pl_cas2 | .pl_sleep | .pl_dec => PLock l c
  | .ru_dec | .ru_store => RUnlock l c
  | .ul_store | .ul_inc => Unlock l c
  | .pu_store => PUnlock l c

/-- The caller is between calls. -/
def PC.between : PC → Bool
  | .idle | .holdR | .holdW | .holdP => true
  | _ => false

/-- The caller is at a `time.Sleep`. -/
def PC.sleeping : PC → Bool
  | .rl_adm_sleep | .rl_cas_sleep | .lk_adm_sleep | .lk_cas_sleep | .pl_sleep => true
  | _ => false

/-- The call a caller `c` (between calls) makes next, run with no other caller
taking steps, for at most `fuel` steps. -/
def call (op : Op) : Nat → RWPQL → Local → Outcome RWPQL Local
  | 0, _, _ => .unfinished
  | fuel + 1, l, c =>
    if (tstep op l c).2.pc.sleeping then .blocked
    else if (tstep op l c).2.pc.between then .returned (tstep op l c).1 (tstep op l c).2
    else call op fuel (tstep op l c).1 (tstep op l c).2

/-- `n` calls one after another, each by a caller starting as `c` and each run
to its return before the next starts: the final lock and the callers as they
returned, or `none` if one of the calls did not return within `fuel` steps. -/
def calls (op : Op) (fuel : Nat) (c : Local) : Nat → RWPQL → Option (RWPQL × List Local)
  | 0, l => some (l, [])
  | n + 1, l =>
    match calls op fuel c n l with
    | none => none
    | some (l1, cs) =>
      match call op fuel l1 c with
      | .returned l2 c2 => some (l2, cs ++ [c2])
      | _ => none

/-- A caller holding nothing. -/
def idleCaller : Local := { pc := .idle, ticket := 0, pw := 0 }

/-- A caller for which `RLock` has returned. -/
def reader : Local := { pc := .holdR, ticket := 0, pw := 0 }

/-- The lock together with its callers.  `drawn` and `admitted` are history
variables that no step reads: the number of tickets drawn so far, and the
tickets whose holder passed the admission check `dequeueCount == ticket`, in
the order in which the checks were passed. -/
structure Sys where
  l : RWPQL
  th : Nat → Local
  drawn : Nat
  admitted : List Nat

/-- The fresh system: `NewRWPQL`, every caller holding nothing. -/
def Sys.init (sleep_ns : Int) : Sys :=
  { l := NewRWPQL sleep_ns
    th := fun _ => { pc := .idle, ticket := 0, pw := 0 }
    drawn := 0
    admitted := [] }

/-- Caller `i` takes one step (starting the call `op` if it holds nothing). -/
def Sys.step (s : Sys) (i : Nat) (op : Op) : Sys :=
  { l := (tstep op s.l (s.th i)).1
    th := Function.update s.th i (tstep op s.l (s.th i)).2
    drawn :=
      if (s.th i).pc = .rl_draw ∨ (s.th i).pc = .lk_draw then s.drawn + 1 else s.drawn
    admitted :=
      if ((s.th i).pc = .rl_adm ∨ (s.th i).pc = .lk_adm) ∧ s.l.dequeueCount = (s.th i).ticket
      then s.admitted ++ [(s.th i).ticket] else s.admitted }

/-- Run a schedule: each entry names the caller taking the next step. -/
def Sys.run (s : Sys) (sched : List (Nat × Op)) : Sys :=
  sched.foldl (fun s a => s.step a.1 a.2) s

/-- States reachable from `NewRWPQL` under some schedule. -/
def Reachable (s : Sys) : Prop :=
  ∃ (sleep_ns : Int) (sched : List (Nat × Op)), s = (Sys.init sleep_ns).run sched

/-- The caller holds exclusive access: `Lock` or `PLock` returned and the
matching unlock has not been invoked. -/
def Local.holdsExclusive (c : Local) : Prop := c.pc = .holdW ∨ c.pc = .holdP

/-- The caller holds read access: `RLock` returned and `RUnlock` has not been
invoked. -/
def Local.holdsRead (c : Local) : Prop := c.pc = .holdR

instance (c : Local) : Decidable c.holdsExclusive := by
  unfold Local.holdsExclusive; infer_instance

instance (c : Local) : Decidable c.holdsRead := by
  unfold Local.holdsRead; infer_instance

/-- Mutual exclusion in a state: at most one caller holds exclusive access and
no caller holds read access while one holds exclusive access. -/
def MutualExclusion (s : Sys) : Prop :=
  (∀ i j, (s.th i).holdsExclusive → (s.th j).holdsExclusive → i = j) ∧
  (∀ i j, (s.th i).holdsExclusive → ¬ (s.th j).holdsRead)

/-- `k` consecutive steps of caller `i`. -/
def solo (i : Nat) (op : Op) (k : Nat) : List (Nat × Op) := List.replicate k (i, op)

/-- A schedule of three callers.  Caller 0 completes `RLock`; caller 1 runs
`RLock` up to (not including) `l.nReaders.Inc()`; caller 0 completes
`RUnlock`, which stores `OPEN`; caller 2 completes `Lock`; caller 1 finishes
`RLock`. -/
def raceSchedule : List (Nat × Op) :=
  solo 0 .RLock 7 ++ solo 1 .RLock 7 ++ solo 0 .RLock 3 ++ solo 2 .Lock 5 ++ solo 1 .RLock 1

/-- The schedule `raceSchedule` followed by caller 1's `RUnlock` (which stores
`OPEN` while caller 2 still holds) and a complete `PLock` of caller 3. -/
def raceSchedule2 : List (Nat × Op) :=
  raceSchedule ++ solo 1 .RLock 3 ++ solo 3 .PLock 4

end RWPQL

/-! ## The array-based lock `ABRWPQL` (`rwpql/abrwpql.go`) -/

/-- The struct `ABRWPQL` (abrwpql.go 8-18).  `arr` is the ring of turn flags;
`queue_sz` is a Go `int`, here a natural number (`make` panics on a negative
size). -/
structure ABRWPQL where
  arr : List Nat
  queue_sz : Nat
  sleep_ns : Int
  lockState : LockState
  ticket : Nat
  dequeueCount : Nat
  nReaders : Nat
  priorityWaiting : Nat
  deriving DecidableEq

/-- `NewABRWPQL` (abrwpql.go 20-32).  `none` is the panic of `abql.arr[0] = 1`
on an empty ring. -/
def NewABRWPQL (queue_sz : Nat) (sleep_ns : Int) : Option ABRWPQL :=
  if 0 < queue_sz then
    some
      { arr := (List.replicate queue_sz 0).set 0 1
        queue_sz := queue_sz
        sleep_ns := sleep_ns
        lockState := LockState.OPEN
        ticket := 0
        dequeueCount := 0
        nReaders := 0
        priorityWaiting := 0 }
  else none

namespace ABRWPQL

/-- Program points of a caller of `ABRWPQL`, as for `RWPQL.PC`, by the line of
abrwpql.go they are on.  The points `*_y_*` are those of `yieldToPriorityLock`
called from `RLock` resp. `Lock`; `panicked` is a caller stopped by a Go
run-time panic (index out of range, integer division by zero). -/
inductive PC
  | idle
  | holdR
  | holdW
  | holdP
  | panicked
  | rl_draw         -- 42  ticket := l.ticket.Inc() - 1
  | rl_gate1        -- 44  ticket-l.dequeueCount.Load() >= uint32(l.queue_sz)
  | rl_gate1_sleep  -- 45  time.Sleep
  | rl_gate2        -- 47  l.arr[ticket%uint32(l.queue_sz)] != 1
  | rl_gate2_sleep  -- 48  time.Sleep
  | rl_load         -- 51  l.lockState.Load() == RLOCKED
  | rl_cas          -- 51  l.lockState.CAS(OPEN, RLOCKED)
  | rl_cas_sleep    -- 52  time.Sleep
  | rl_pw           -- 54  l.priorityWaiting.Load() > 0
  | rl_y_store      -- 35  l.lockState.Store(PRIORITY_LOCK_RESERVED)   (from 57)
  | rl_y_load       -- 36  l.lockState.Load() != OPEN
  | rl_y_sleep      -- 37  time.Sleep
  | rl_nr           -- 59  l.nReaders.Inc()
  | rl_clear        -- 63  l.arr[int(ticket)%l.queue_sz] = 0
  | rl_set          -- 64  l.arr[int(ticket+1)%l.queue_sz] = 1
  | rl_dq           -- 65  l.dequeueCount.Inc(); return
  | lk_draw         -- 73  ticket := l.ticket.Inc() - 1
  | lk_gate1        -- 75  ticket-l.dequeueCount.Load() >= uint32(l.queue_sz)
  | lk_gate1_sleep  -- 76  time.Sleep
  | lk_gate2        -- 78  l.arr[ticket%uint32(l.queue_sz)] != 1
  | lk_gate2_sleep  -- 79  time.Sleep
  | lk_nr           -- 81  l.nReaders.Load() > 0
  | lk_nr_sleep     -- 82  time.Sleep
  | lk_cas          -- 85  l.lockState.CAS(OPEN, LOCKED)
  | lk_cas_sleep    -- 86  time.Sleep
  | lk_pw           -- 88  l.priorityWaiting.Load() > 0; else return ticket
  | lk_y_store      -- 35  l.lockState.Store(PRIORITY_LOCK_RESERVED)   (from 91)
  | lk_y_load       -- 36  l.lockState.Load() != OPEN
  | lk_y_sleep      -- 37  time.Sleep
  | pl_inc          -- 100 l.priorityWaiting.Inc()
  | pl_cas1         -- 102 l.lockState.CAS(OPEN, PRIORITY_LOCKED)
  | pl_cas2         -- 103 l.lockState.CAS(PRIORITY_LOCK_RESERVED, PRIORITY_LOCKED)
  | pl_sleep        -- 104 time.Sleep
  | pl_dec          -- 107 l.priorityWaiting.Dec(); return
  | ru_dec          -- 112 readersRemaining := l.nReaders.Dec()
  | ru_store        -- 116 l.lockState.Store(OPEN); return
  | ul_clear        -- 122 l.arr[int(ticket)%l.queue_sz] = 0
  | ul_set          -- 123 l.arr[int(ticket+1)%l.queue_sz] = 1
  | ul_store        -- 125 l.lockState.Store(OPEN)
  | ul_inc          -- 126 l.dequeueCount.Inc(); return
  | pu_store        -- 132 l.lockState.Store(OPEN); return
  deriving DecidableEq

/-- A caller: program point, the local `ticket` (kept after `Lock` returns it,
to be passed to `Unlock`), and the value its last
`l.priorityWaiting.Load()` yielded. -/
structure Local where
  pc : PC
  ticket : Nat
  pw : Nat
  deriving DecidableEq

/-- The conversion `uint32(l.queue_sz)`. -/
def qsz32 (l : ABRWPQL) : Nat := l.queue_sz % 4294967296

/-- The read `l.arr[ticket%uint32(l.queue_sz)]`; `none` is a panic (division
by zero or index out of range). -/
def readSlot (l : ABRWPQL) (ticket : Nat) : Option Nat :=
  if l.qsz32 = 0 then none else l.arr[ticket % l.qsz32]?

/-- The write `l.arr[int(t)%l.queue_sz] = v`; `none` is a panic (division by
zero or index out of range). -/
def writeSlot (l : ABRWPQL) (t : Nat) (v : Nat) : Option ABRWPQL :=
  if l.queue_sz = 0 then none
  else if t % l.queue_sz < l.arr.length then some { l with arr := l.arr.set (t % l.queue_sz) v }
  else none

/-- One step of `yieldToPriorityLock` (abrwpql.go 34-39), returning into the
acquire loop of the `RLock` resp. `Lock` that called it. -/
def yieldToPriorityLock (l : ABRWPQL) (c : Local) : ABRWPQL × Local :=
  match c.pc with
  | .rl_y_store => ({ l with lockState := .PRIORITY_LOCK_RESERVED }, { c with pc := .rl_y_load })
  | .rl_y_load =>
    if l.lockState ≠ .OPEN then (l, { c with pc := .rl_y_sleep })
    else (l, { c with pc := .rl_load })
  | .rl_y_sleep => (l, { c with pc := .rl_y_load })
  | .lk_y_store => ({ l with lockState := .PRIORITY_LOCK_RESERVED }, { c with pc := .lk_y_load })
  | .lk_y_load =>
    if l.lockState ≠ .OPEN then (l, { c with pc := .lk_y_sleep })
    else (l, { c with pc := .lk_cas })
  | .lk_y_sleep => (l, { c with pc := .lk_y_load })
  | _ => (l, c)

/-- One step of `RLock` (abrwpql.go 41-70). -/
def RLock (l : ABRWPQL) (c : Local) : ABRWPQL × Local :=
  match c.pc with
  | .rl_draw =>
    ({ l with ticket := inc32 l.ticket },
     { c with pc := .rl_gate1, ticket := dec32 (inc32 l.ticket) })
  | .rl_gate1 =>
    if sub32 c.ticket l.dequeueCount ≥ l.qsz32 then (l, { c with pc := .rl_gate1_sleep })
    else (l, { c with pc := .rl_gate2 })
  | .rl_gate1_sleep => (l, { c with pc := .rl_gate1 })
  | .rl_gate2 =>
    match l.readSlot c.ticket with
    | none => (l, { c with pc := .panicked })
    | some v =>
      if v ≠ 1 then (l, { c with pc := .rl_gate2_sleep })
      else (l, { c with pc := .rl_load })
  | .rl_gate2_sleep => (l, { c with pc := .rl_gate2 })
  | .rl_load =>
    if l.lockState = .RLOCKED then (l, { c with pc := .rl_pw })
    else (l, { c with pc := .rl_cas })
  | .rl_cas =>
    if l.lockState = .OPEN then ({ l with lockState := .RLOCKED }, { c with pc := .rl_pw })
    else (l, { c with pc := .rl_cas_sleep })
  | .rl_cas_sleep => (l, { c with pc := .rl_load })
  | .rl_pw =>
    if l.priorityWaiting > 0 then (l, { c with pc := .rl_y_store, pw := l.priorityWaiting })
    else (l, { c with pc := .rl_nr, pw := l.priorityWaiting })
  | .rl_nr => ({ l with nReaders := inc32 l.nReaders }, { c with pc := .rl_clear })
  | .rl_clear =>
    match l.writeSlot c.ticket 0 with
    | none => (l, { c with pc := .panicked })
    | some l1 => (l1, { c with pc := .rl_set })
  | .rl_set =>
    match l.writeSlot (inc32 c.ticket) 1 with
    | none => (l, { c with pc := .panicked })
    | some l1 => (l1, { c with pc := .rl_dq })
  | .rl_dq => ({ l with dequeueCount := inc32 l.dequeueCount }, { c with pc := .holdR })
  | _ => (l, c)

/-- One step of `Lock` (abrwpql.go 72-97). -/
def Lock (l : ABRWPQL) (c : Local) : ABRWPQL × Local :=
  match c.pc with
  | .lk_draw =>
    ({ l with ticket := inc32 l.ticket },
     { c with pc := .lk_gate1, ticket := dec32 (inc32 l.ticket) })
  | .lk_gate1 =>
    if sub32 c.ticket l.dequeueCount ≥ l.qsz32 then (l, { c with pc := .lk_gate1_sleep })
    else (l, { c with pc := .lk_gate2 })
  | .lk_gate1_sleep => (l, { c with pc := .lk_gate1 })
  | .lk_gate2 =>
    match l.readSlot c.ticket with
    | none => (l, { c with pc := .panicked })
    | some v =>
      if v ≠ 1 then (l, { c with pc := .lk_gate2_sleep })
      else (l, { c with pc := .lk_nr })
  | .lk_gate2_sleep => (l, { c with pc := .lk_gate2 })
  | .lk_nr =>
    if l.nReaders > 0 then (l, { c with pc := .lk_nr_sleep })
    else (l, { c with pc := .lk_cas })
  | .lk_nr_sleep => (l, { c with pc := .lk_nr })
  | .lk_cas =>
    if l.lockState = .OPEN then ({ l with lockState := .LOCKED }, { c with pc := .lk_pw })
    else (l, { c with pc := .lk_cas_sleep })
  | .lk_cas_sleep => (l, { c with pc := .lk_cas })
  | .lk_pw =>
    if l.priorityWaiting > 0 then (l, { c with pc := .lk_y_store, pw := l.priorityWaiting })
    else (l, { c with pc := .holdW, pw := l.priorityWaiting })
  | _ => (l, c)

/-- One step of `PLock` (abrwpql.go 99-108). -/
def PLock (l : ABRWPQL) (c : Local) : ABRWPQL × Local :=
  match c.pc with
  | .pl_inc => ({ l with priorityWaiting := inc32 l.priorityWaiting }, { c with pc := .pl_cas1 })
  | .pl_cas1 =>
    if l.lockState = .OPEN then
      ({ l with lockState := .PRIORITY_LOCKED }, { c with pc := .pl_dec })
    else (l, { c with pc := .pl_cas2 })
  | .pl_cas2 =>
    if l.lockState = .PRIORITY_LOCK_RESERVED then
      ({ l with lockState := .PRIORITY_LOCKED }, { c with pc := .pl_dec })
    else (l, { c with pc := .pl_sleep })
  | .pl_sleep => (l, { c with pc := .pl_cas1 })
  | .pl_dec => ({ l with priorityWaiting := dec32 l.priorityWaiting }, { c with pc := .holdP })
  | _ => (l, c)

/-- One step of `RUnlock` (abrwpql.go 110-118). -/
def RUnlock (l : ABRWPQL) (c : Local) : ABRWPQL × Local :=
  match c.pc with
  | .ru_dec =>
    if dec32 l.nReaders = 0 then
      ({ l with nReaders := dec32 l.nReaders }, { c with pc := .ru_store })
    else ({ l with nReaders := dec32 l.nReaders }, { c with pc := .idle })
  | .ru_store => ({ l with lockState := .OPEN }, { c with pc := .idle })
  | _ => (l, c)

/-- One step of `Unlock` (abrwpql.go 120-127), called with the caller's
`ticket`. -/
def Unlock (l : ABRWPQL) (c : Local) : ABRWPQL × Local :=
  match c.pc with
  | .ul_clear =>
    match l.writeSlot c.ticket 0 with
    | none => (l, { c with pc := .panicked })
    | some l1 => (l1, { c with pc := .ul_set })
  | .ul_set =>
    match l.writeSlot (inc32 c.ticket) 1 with
    | none => (l, { c with pc := .panicked })
    | some l1 => (l1, { c with pc := .ul_store })
  | .ul_store => ({ l with lockState := .OPEN }, { c with pc := .ul_inc })
  | .ul_inc => ({ l with dequeueCount := inc32 l.dequeueCount }, { c with pc := .idle })
  | _ => (l, c)

/-- One step of `PUnlock` (abrwpql.go 129-133). -/
def PUnlock (l : ABRWPQL) (c : Local) : ABRWPQL × Local :=
  match c.pc with
  | .pu_store => ({ l with lockState := .OPEN }, { c with pc := .idle })
  | _ => (l, c)

/-- First program point of an acquiring call. -/
def entry : Op → PC
  | .RLock => .rl_draw
  | .Lock => .lk_draw
  | .PLock => .pl_inc

/-- One step of a caller; between calls it follows the protocol as in
`RWPQL.tstep`.  A panicked caller takes no further step. -/
def tstep (op : Op) (l : ABRWPQL) (c : Local) : ABRWPQL × Local :=
  match c.pc with
  | .idle => (l, { c with pc := entry op })
  | .holdR => (l, { c with pc := .ru_dec })
  | .holdW => (l, { c with pc := .ul_clear })
  | .holdP => (l, { c with pc := .pu_store })
  | .panicked => (l, c)
  | .rl_draw | .rl_gate1 | .rl_gate1_sleep | .rl_gate2 | .rl_gate2_sleep | .rl_load
  | .rl_cas | .rl_cas_sleep | .rl_pw | .rl_nr | .rl_clear | .rl_set | .rl_dq => RLock l c
  | .rl_y_store | .rl_y_load | .rl_y_sleep | .lk_y_store | .lk_y_load | .lk_y_sleep =>
    yieldToPriorityLock l c
  | .lk_draw | .lk_gate1 | .lk_gate1_sleep | .lk_gate2 | .lk_gate2_sleep | .lk_nr
  | .lk_nr_sleep | .lk_cas | .lk_cas_sleep | .lk_pw => Lock l c
  | .pl_inc | .pl_cas1 | .pl_cas2 | .pl_sleep | .pl_dec => PLock l c
  | .ru_dec | .ru_store => RUnlock l c
  | .ul_clear | .ul_set | .ul_store | .ul_inc => Unlock l c
  | .pu_store => PUnlock l c

/-- The caller is between calls. -/
def PC.between : PC → Bool
  | .idle | .holdR | .holdW | .holdP => true
  | _ => false

/-- The caller is at a `time.Sleep`. -/
def PC.sleeping : PC → Bool
  | .rl_gate1_sleep | .rl_gate2_sleep | .rl_cas_sleep | .rl_y_sleep | .lk_gate1_sleep
  | .lk_gate2_sleep | .lk_nr_sleep | .lk_cas_sleep | .lk_y_sleep | .pl_sleep => true
  | _ => false

/-- The call a caller `c` (between calls) makes next, run with no other caller
taking steps, for at most `fuel` steps. -/
def call (op : Op) : Nat → ABRWPQL → Local → Outcome ABRWPQL Local
  | 0, _, _ => .unfinished
  | fuel + 1, l, c =>
    if (tstep op l c).2.pc.sleeping then .blocked
    else if (tstep op l c).2.pc = .panicked then .panicked
    else if (tstep op l c).2.pc.between then .returned (tstep op l c).1 (tstep op l c).2
    else call op fuel (tstep op l c).1 (tstep op l c).2

/-- `n` calls one after another, each by a caller starting as `c` and each run
to its return before the next starts: the final lock and the callers as they
returned, or `none` if one of the calls did not return within `fuel` steps. -/
def calls (op : Op) (fuel : Nat) (c : Local) : Nat → ABRWPQL → Option (ABRWPQL × List Local)
  | 0, l => some (l, [])
  | n + 1, l =>
    match calls op fuel c n l with
    | none => none
    | some (l1, cs) =>
      match call op fuel l1 c with
      | .returned l2 c2 => some (l2, cs ++ [c2])
      | _ => none

/-- A caller holding nothing. -/
def idleCaller : Local := { pc := .idle, ticket := 0, pw := 0 }

/-- A caller for which `RLock` has returned. -/
def reader : Local := { pc := .holdR, ticket := 0, pw := 0 }

/-- The lock together with its callers; `drawn` is a history variable that no
step reads: the number of tickets drawn so far. -/
structure Sys where
  l : ABRWPQL
  th : Nat → Local
  drawn : Nat

/-- The system around a lock in which every caller holds nothing. -/
def Sys.ofLock (l : ABRWPQL) : Sys :=
  { l := l
    th := fun _ => { pc := .idle, ticket := 0, pw := 0 }
    drawn := 0 }

/-- Caller `i` takes one step (starting the call `op` if it holds nothing). -/
def Sys.step (s : Sys) (i : Nat) (op : Op) : Sys :=
  { l := (tstep op s.l (s.th i)).1
    th := Function.update s.th i (tstep op s.l (s.th i)).2
    drawn :=
      if (s.th i).pc = .rl_draw ∨ (s.th i).pc = .lk_draw then s.drawn + 1 else s.drawn }

/-- Run a schedule: each entry names the caller taking the next step. -/
def Sys.run (s : Sys) (sched : List (Nat × Op)) : Sys :=
  sched.foldl (fun s a => s.step a.1 a.2) s

/-- States reachable from `NewABRWPQL queue_sz` under some schedule. -/
def Reachable (queue_sz : Nat) (s : Sys) : Prop :=
  ∃ (sleep_ns : Int) (l : ABRWPQL) (sched : List (Nat × Op)),
    NewABRWPQL queue_sz sleep_ns = some l ∧ s = (Sys.ofLock l).run sched

/-- The caller holds exclusive access: `Lock` or `PLock` returned and the
matching unlock has not been invoked. -/
def Local.holdsExclusive (c : Local) : Prop := c.pc = .holdW ∨ c.pc = .holdP

/-- The caller holds read access: `RLock` returned and `RUnlock` has not been
invoked. -/
def Local.holdsRead (c : Local) : Prop := c.pc = .holdR

instance (c : Local) : Decidable c.holdsExclusive := by
  unfold Local.holdsExclusive; infer_instance

instance (c : Local) : Decidable c.holdsRead := by
  unfold Local.holdsRead; infer_instance

/-- Mutual exclusion in a state: at most one caller holds exclusive access and
no caller holds read access while one holds exclusive access. -/
def MutualExclusion (s : Sys) : Prop :=
  (∀ i j, (s.th i).holdsExclusive → (s.th j).holdsExclusive → i = j) ∧
  (∀ i j, (s.th i).holdsExclusive → ¬ (s.th j).holdsRead)

/-- `k` consecutive steps of caller `i`. -/
def solo (i : Nat) (op : Op) (k : Nat) : List (Nat × Op) := List.replicate k (i, op)

/-- The fresh lock with a ring of 4 slots (the test's `QUEUE_SZ`). -/
def fresh4 : ABRWPQL :=
  { arr := [1, 0, 0, 0], queue_sz := 4, sleep_ns := 1000, lockState := .OPEN, ticket := 0,
    dequeueCount := 0, nReaders := 0, priorityWaiting := 0 }

end ABRWPQL

/-! ## Auxiliary notions used in the statements and invariants -/

namespace RWPQL

/-- The caller holds nothing and, if it is inside `RLock`, `Lock` or `PLock`,
none of its `CAS` on `lockState` has succeeded yet in this attempt. -/
def PC.beforeCas : PC → Bool
  | .idle | .rl_draw | .rl_adm | .rl_adm_sleep | .rl_cas1 | .rl_cas2 | .rl_cas_sleep
  | .lk_draw | .lk_adm | .lk_adm_sleep | .lk_cas | .lk_cas_sleep
  | .pl_inc | .pl_cas1 | .pl_cas2 | .pl_sleep => true
  | _ => false

/-- A schedule of two readers.  Caller 0 completes `RLock`; caller 1 runs
`RLock` up to (not including) `l.nReaders.Inc()`; caller 0 completes
`RUnlock`, which stores `OPEN`. -/
def parkedReaderSchedule : List (Nat × Op) :=
  solo 0 .RLock 7 ++ solo 1 .RLock 7 ++ solo 0 .RLock 3

end RWPQL

namespace ABRWPQL

/-- The ring of `queue_sz` turn flags in which exactly slot `h % queue_sz`
holds 1. -/
def ring (queue_sz h : Nat) : List Nat := (List.replicate queue_sz 0).set (h % queue_sz) 1

/-- A schedule of three callers on the bounded lock.  Caller 0 completes
`RLock`; caller 1 runs `RLock` up to its load of `priorityWaiting`; caller 2
starts `PLock` and increments `priorityWaiting`; caller 1 loads it and stores
`PRIORITY_LOCK_RESERVED` in `yieldToPriorityLock`; caller 2 completes
`PLock`. -/
def raceSchedule : List (Nat × Op) :=
  solo 0 .RLock 11 ++ solo 1 .RLock 5 ++ solo 2 .PLock 2 ++ solo 1 .RLock 2 ++
    solo 2 .PLock 3

/-- The schedule `raceSchedule` followed by caller 0's `RUnlock` (which stores
`OPEN` while caller 2 holds), the rest of caller 1's `RLock`, caller 1's
`RUnlock` and a complete `Lock` of caller 3. -/
def raceSchedule2 : List (Nat × Op) :=
  raceSchedule ++ solo 0 .RLock 3 ++ solo 1 .RLock 8 ++ solo 1 .RLock 3 ++ solo 3 .Lock 7

/-- The body `tk := l.Lock(); l.Unlock(tk)` of the test's `Locker`
(rwpql_test.go 76-79) executed `n` times, one after another, each call run to
its return before the next starts: the final lock and the tickets `Lock`
returned, in order; `none` if one of the calls did not return within `fuel`
steps. -/
def lockUnlockPairs (fuel : Nat) : Nat → ABRWPQL → Option (ABRWPQL × List Nat)
  | 0, l => some (l, [])
  | n + 1, l =>
    match lockUnlockPairs fuel n l with
    | none => none
    | some (l1, ts) =>
      match call .Lock fuel l1 idleCaller with
      | .returned l2 c2 =>
        match call .Lock fuel l2 c2 with
        | .returned l3 _ => some (l3, ts ++ [c2.ticket])
        | _ => none
      | _ => none

end ABRWPQL

namespace RWPQL

/-- The priority-bypass schedule, in four stretches.  Caller 0 runs `Lock` up to
its load of `priorityWaiting` and caller 1 starts `PLock` and increments
`priorityWaiting`; caller 0 loads `priorityWaiting`; caller 0 stores
`PRIORITY_LOCK_RESERVED`; caller 1 completes `PLock`. -/
def bypassA : List (Nat × Op) := solo 0 .Lock 4 ++ solo 1 .PLock 2

/-- Caller 0 has loaded `priorityWaiting`. -/
def bypassB : List (Nat × Op) := bypassA ++ solo 0 .Lock 1

/-- Caller 0 has yielded. -/
def bypassC : List (Nat × Op) := bypassB ++ solo 0 .Lock 1

/-- Caller 1 has returned from `PLock`. -/
def bypassD : List (Nat × Op) := bypassC ++ solo 1 .PLock 3

/-- Caller 1 has completed `PUnlock` and caller 0 has returned from `Lock`. -/
def bypassE : List (Nat × Op) := bypassD ++ solo 1 .PLock 2 ++ solo 0 .Lock 3

/-- In the caller's state the last load of `priorityWaiting` yielded 0 if the
caller is past the priority check of `RLock` or has returned from `RLock` or
`Lock`. -/
def Local.pwChecked (c : Local) : Prop :=
  (c.pc = .rl_dq ∨ c.pc = .rl_nr ∨ c.pc = .holdR ∨ c.pc = .holdW) → c.pw = 0

end RWPQL

namespace ABRWPQL

/-- The priority-bypass schedule on the bounded lock, as `RWPQL.bypassA`. -/
def bypassA : List (Nat × Op) := solo 0 .Lock 6 ++ solo 1 .PLock 2

/-- Caller 0 has loaded `priorityWaiting`. -/
def bypassB : List (Nat × Op) := bypassA ++ solo 0 .Lock 1

/-- Caller 0 has stored `PRIORITY_LOCK_RESERVED` in `yieldToPriorityLock`. -/
def bypassC : List (Nat × Op) := bypassB ++ solo 0 .Lock 1

/-- Caller 1 has returned from `PLock`. -/
def bypassD : List (Nat × Op) := bypassC ++ solo 1 .PLock 3

/-- Caller 1 has completed `PUnlock` and caller 0 has returned from `Lock`. -/
def bypassE : List (Nat × Op) := bypassD ++ solo 1 .PLock 2 ++ solo 0 .Lock 3

/-- In the caller's state the last load of `priorityWaiting` yielded 0 if the
caller is past the priority check of `RLock` or has returned from `RLock` or
`Lock`. -/
def Local.pwChecked (c : Local) : Prop :=
  (c.pc = .rl_nr ∨ c.pc = .rl_clear ∨ c.pc = .rl_set ∨ c.pc = .rl_dq ∨ c.pc = .holdR ∨
    c.pc = .holdW) → c.pw = 0

end ABRWPQL

namespace RWPQL

/-- The caller is between the successful `CAS` of its `PLock` and the store
of its `PUnlock`. -/
def Local.inPriority (c : Local) : Prop := c.pc = .pl_dec ∨ c.pc = .holdP ∨ c.pc = .pu_store

/-- A schedule of three callers.  Caller 0 completes `RLock`; caller 1 runs
`RLock` through `CAS(RLOCKED, RLOCKED)`; caller 2 starts `PLock` and
increments `priorityWaiting`; caller 1 loads `priorityWaiting = 1`; caller 0
completes `RUnlock` (storing `OPEN`); caller 2 acquires through
`CAS(OPEN, LOCKED)`, returns and completes `PUnlock`; only then caller 1
executes its store of `PRIORITY_LOCK_RESERVED`. -/
def wedgeSchedule : List (Nat × Op) :=
  solo 0 .RLock 7 ++ solo 1 .RLock 5 ++ solo 2 .PLock 2 ++ solo 1 .RLock 1 ++
    solo 0 .RLock 3 ++ solo 2 .PLock 4 ++ solo 1 .RLock 1

end RWPQL

namespace ABRWPQL

/-- The caller is between the successful `CAS` of its `PLock` and the store
of its `PUnlock`. -/
def Local.inPriority (c : Local) : Prop := c.pc = .pl_dec ∨ c.pc = .holdP ∨ c.pc = .pu_store

/-- The schedule `RWPQL.wedgeSchedule` on the bounded lock: caller 1's store
in `yieldToPriorityLock` comes after the priority caller has acquired through
`OPEN` and released. -/
def wedgeSchedule : List (Nat × Op) :=
  solo 0 .RLock 11 ++ solo 1 .RLock 5 ++ solo 2 .PLock 2 ++ solo 1 .RLock 1 ++
    solo 0 .RLock 3 ++ solo 2 .PLock 4 ++ solo 1 .RLock 1

end ABRWPQL

/-! ## The ordered logger (`rwpql/utils.go`) -/

/-- `LogLine` (utils.go 21-24). -/
structure LogLine where
  t : Int
  s : String
  deriving DecidableEq

/-- `OrderedLogger.sortLineBuffer` (utils.go 32-36): the buffer sorted by `t`.
`sort.Slice` belongs to the Go library; it is taken to be insertion sort, which
is what the library runs on slices of up to 12 elements.  For distinct
timestamps every sorting algorithm gives this result. -/
def sortLineBuffer (logLines : List LogLine) : List LogLine :=
  logLines.insertionSort (fun a b => a.t ≤ b.t)

/-- The loop of `OrderedLogger.Flush` (utils.go 56-59) with `k` iterations
left out of the `n = len(l.logLines)` that `range` fixed on entry: iteration
`i = n - k` first copies element `i` of the buffer into `line`, then sorts the
buffer in place, then prints `line.s`.  The result is the buffer and the lines
printed. -/
def flushLoop (n : Nat) : Nat → List LogLine → List String → List LogLine × List String
  | 0, buf, out => (buf, out)
  | k + 1, buf, out =>
    match buf[n - (k + 1)]? with
    | none => (buf, out)
    | some line => flushLoop n k (sortLineBuffer buf) (out ++ [line.s])

/-- `OrderedLogger.Flush` (utils.go 55-60): the buffer afterwards and the
lines printed, in order. -/
def Flush (logLines : List LogLine) : List LogLine × List String :=
  flushLoop logLines.length logLines.length logLines []

namespace ABRWPQL

/-- The caller has not panicked and, if it is at the slot read of the second
gate, `uint32(l.queue_sz)` is not 0. -/
def Local.safe (l : ABRWPQL) (c : Local) : Prop :=
  c.pc ≠ .panicked ∧
  ((c.pc = .rl_gate2 ∨ c.pc = .rl_gate2_sleep ∨ c.pc = .lk_gate2 ∨ c.pc = .lk_gate2_sleep) →
    l.qsz32 ≠ 0)

/-- The ring has `q` slots, `queue_sz = q`, and every caller is `safe`. -/
def Sys.safe (q : Nat) (s : Sys) : Prop :=
  s.l.queue_sz = q ∧ s.l.arr.length = q ∧ ∀ i, (s.th i).safe s.l

end ABRWPQL

namespace RWPQL

/-- The caller is inside `RLock` or `Lock` (or holds after `Lock`, or is
inside `Unlock`) with a drawn ticket that has not yet been moved past: its
local `ticket` is live. -/
def PC.hasTicket : PC → Bool
  | .rl_adm | .rl_adm_sleep | .rl_cas1 | .rl_cas2 | .rl_cas_sleep | .rl_pw | .rl_yield
  | .rl_dq | .lk_adm | .lk_adm_sleep | .lk_cas | .lk_cas_sleep | .lk_pw | .lk_yield
  | .holdW | .ul_store | .ul_inc => true
  | _ => false

/-- The caller has passed the admission check `dequeueCount == ticket` (in its
current attempt) and has not yet incremented `dequeueCount`. -/
def PC.pastAdmission : PC → Bool
  | .rl_cas1 | .rl_cas2 | .rl_cas_sleep | .rl_pw | .rl_yield | .rl_dq
  | .lk_cas | .lk_cas_sleep | .lk_pw | .lk_yield | .holdW | .ul_store | .ul_inc => true
  | _ => false

/-- The ticket invariant of the unbounded lock: the ticket counter is the
number of tickets drawn; live tickets are pairwise different, drawn and not
below `dequeueCount`; a caller past admission holds ticket `dequeueCount` and
that ticket is in the admission log; the log holds every ticket below
`dequeueCount`, nothing above it, and is non-decreasing. -/
def Sys.Inv (s : Sys) : Prop :=
  s.l.ticket = s.drawn ∧ s.l.dequeueCount ≤ s.drawn ∧
  (∀ i, (s.th i).pc.hasTicket = true →
    s.l.dequeueCount ≤ (s.th i).ticket ∧ (s.th i).ticket < s.drawn) ∧
  (∀ i j, (s.th i).pc.hasTicket = true → (s.th j).pc.hasTicket = true →
    (s.th i).ticket = (s.th j).ticket → i = j) ∧
  (∀ i, (s.th i).pc.pastAdmission = true →
    (s.th i).ticket = s.l.dequeueCount ∧ (s.th i).ticket ∈ s.admitted) ∧
  (∀ t, t < s.l.dequeueCount → t ∈ s.admitted) ∧
  (∀ t ∈ s.admitted, t ≤ s.l.dequeueCount ∧ t < s.drawn) ∧
  s.admitted.Pairwise (fun a b => a ≤ b)

end RWPQL

namespace ABRWPQL

/-- The caller has drawn its ticket and has not passed the second gate. -/
def PC.waiting : PC → Bool
  | .rl_gate1 | .rl_gate1_sleep | .rl_gate2 | .rl_gate2_sleep
  | .lk_gate1 | .lk_gate1_sleep | .lk_gate2 | .lk_gate2_sleep => true
  | _ => false

/-- The caller has passed the first gate and is polling its slot flag. -/
def PC.gated : PC → Bool
  | .rl_gate2 | .rl_gate2_sleep | .lk_gate2 | .lk_gate2_sleep => true
  | _ => false

/-- The caller has passed both gates and has not yet cleared its own slot flag
(`RLock` up to line 63, `Lock` from line 81 on, the writer while it holds, and
`Unlock` up to line 122). -/
def PC.admitted : PC → Bool
  | .rl_load | .rl_cas | .rl_cas_sleep | .rl_pw | .rl_y_store | .rl_y_load | .rl_y_sleep
  | .rl_nr | .rl_clear
  | .lk_nr | .lk_nr_sleep | .lk_cas | .lk_cas_sleep | .lk_pw | .lk_y_store | .lk_y_load
  | .lk_y_sleep | .holdW | .ul_clear => true
  | _ => false

/-- The caller has cleared its own slot flag and is about to set the next
one (lines 64, 123). -/
def PC.clearing : PC → Bool
  | .rl_set | .ul_set => true
  | _ => false

/-- The caller has set the flag of the next slot and has not yet incremented
`dequeueCount` (lines 65, 125, 126). -/
def PC.handedOver : PC → Bool
  | .rl_dq | .ul_store | .ul_inc => true
  | _ => false

/-- The caller is counted in `nReaders`: it has executed `l.nReaders.Inc()` of
`RLock` and not yet `l.nReaders.Dec()` of `RUnlock`. -/
def PC.counted : PC → Bool
  | .rl_clear | .rl_set | .rl_dq | .holdR | .ru_dec => true
  | _ => false

/-- The caller is a writer that has passed the wait for `nReaders = 0` and has
not yet invoked `Unlock`. -/
def PC.writing : PC → Bool
  | .lk_cas | .lk_cas_sleep | .lk_pw | .lk_y_store | .lk_y_load | .lk_y_sleep | .holdW => true
  | _ => false

/-- The caller's local `ticket` is one it drew and nobody else has. -/
def PC.bearing (pc : PC) : Bool :=
  pc.waiting || pc.admitted || pc.clearing || pc.handedOver || pc.counted

/-- The invariant of the bounded lock for ring size `q`, relative to the set
`P` of callers that have handed the turn over but not yet incremented
`dequeueCount` and the set `R` of callers counted in `nReaders`.  The ticket
whose turn it is is `dequeueCount + |P|`. -/
structure Sys.Inv (q : Nat) (s : Sys) (P R : Finset Nat) : Prop where
  hq : s.l.queue_sz = q
  hlen : s.l.arr.length = q
  hP : ∀ i, i ∈ P ↔ (s.th i).pc.handedOver = true
  hR : ∀ i, i ∈ R ↔ (s.th i).pc.counted = true
  hE : s.l.ticket = s.drawn
  hH : s.l.dequeueCount + P.card ≤ s.drawn
  hA : ∀ i, (s.th i).pc.bearing = true → (s.th i).ticket < s.drawn
  hB : ∀ i j, (s.th i).pc.bearing = true → (s.th j).pc.bearing = true →
    (s.th i).ticket = (s.th j).ticket → i = j
  hW : ∀ i, (s.th i).pc.waiting = true → s.l.dequeueCount + P.card ≤ (s.th i).ticket
  hG : ∀ i, ((s.th i).pc.gated = true ∨ (s.th i).pc.admitted = true ∨
      (s.th i).pc.clearing = true) → (s.th i).ticket < s.l.dequeueCount + q % 4294967296
  hAd : ∀ i, ((s.th i).pc.admitted = true ∨ (s.th i).pc.clearing = true) →
    (s.th i).ticket = s.l.dequeueCount + P.card
  hBv : ∀ i, (s.th i).pc.handedOver = true → (s.th i).ticket < s.l.dequeueCount + P.card
  hRing1 : (∀ i, (s.th i).pc.clearing = false) → s.l.arr = ring q (s.l.dequeueCount + P.card)
  hRing0 : ∀ i, (s.th i).pc.clearing = true → s.l.arr = List.replicate q 0
  hN : s.l.nReaders = R.card
  hX : ∀ i, (s.th i).pc.writing = true → R = ∅

end ABRWPQL


namespace ABRWPQL

/-- Five `Lock` callers on a ring of 4 slots (the test's 5th lock call): caller
0 acquires and holds; callers 1, 2 and 3 draw tickets 1, 2, 3 and pass the first
gate; caller 4 draws ticket 4 and stands before the first gate. -/
def fiveLockers : List (Nat × Op) :=
  solo 0 .Lock 7 ++ solo 1 .Lock 3 ++ solo 2 .Lock 3 ++ solo 3 .Lock 3 ++ solo 4 .Lock 2

/-- Three readers: caller 0 runs `RLock` up to (not including) its
`l.dequeueCount.Inc()`, so it has handed the turn to ticket 1; callers 1 and 2
then complete `RLock`. -/
def overtakeSchedule : List (Nat × Op) :=
  solo 0 .RLock 10 ++ solo 1 .RLock 10 ++ solo 2 .RLock 10

/-- A reader and a writer: caller 0 completes `RLock` and holds; caller 1 runs
`Lock` through both gates and finds `nReaders > 0`. -/
def readerThenWriter : List (Nat × Op) := solo 0 .RLock 11 ++ solo 1 .Lock 5

end ABRWPQL

/-! ## Calls executed one at a time -/

/-- A call of the interface `RWPQLocker` (rwpql_test.go 33-41); `Unlock`
carries the ticket it is passed. -/
inductive Call
  | RLock
  | Lock
  | PLock
  | RUnlock
  | Unlock (ticket : Nat)
  | PUnlock
  deriving DecidableEq

/-- What the callers hold between calls: the number of `RLock`s not yet
released by an `RUnlock`, the tickets returned by `Lock` and not yet passed to
`Unlock`, and the number of `PLock`s not yet released by a `PUnlock`. -/
structure Held where
  readers : Nat
  writers : List Nat
  plocks : Nat
  deriving DecidableEq

/-- Nothing is held. -/
def Held.nothing : Held := { readers := 0, writers := [], plocks := 0 }

/-- The number of read holds outstanding after the call `c` has returned, when
`r` were outstanding before it. -/
def readersAfter (r : Nat) : Call → Nat
  | .RLock => r + 1
  | .RUnlock => r - 1
  | _ => r

/-- The largest number of read holds outstanding at any time while the calls
`cs` are made one after another, starting with `r` outstanding. -/
def peakReaders : Nat → List Call → Nat
  | r, [] => r
  | r, c :: cs => max r (peakReaders (readersAfter r c) cs)

namespace RWPQL

/-- One call, made by a caller of its own and run with no other caller taking
steps for at most `fuel` steps.  `none`: the call does not follow the protocol
(`RUnlock` or `PUnlock` with nothing of that kind held, `Unlock` with a ticket
that no outstanding `Lock` returned), or it does not return. -/
def perform (fuel : Nat) (st : RWPQL × Held) : Call → Option (RWPQL × Held)
  | .RLock =>
    match call .RLock fuel st.1 idleCaller with
    | .returned l _ => some (l, { st.2 with readers := st.2.readers + 1 })
    | _ => none
  | .Lock =>
    match call .Lock fuel st.1 idleCaller with
    | .returned l c => some (l, { st.2 with writers := c.ticket :: st.2.writers })
    | _ => none
  | .PLock =>
    match call .PLock fuel st.1 idleCaller with
    | .returned l _ => some (l, { st.2 with plocks := st.2.plocks + 1 })
    | _ => none
  | .RUnlock =>
    if st.2.readers = 0 then none
    else
      match call .RLock fuel st.1 { pc := .holdR, ticket := 0, pw := 0 } with
      | .returned l _ => some (l, { st.2 with readers := st.2.readers - 1 })
      | _ => none
  | .Unlock t =>
    if t ∈ st.2.writers then
      match call .Lock fuel st.1 { pc := .holdW, ticket := t, pw := 0 } with
      | .returned l _ => some (l, { st.2 with writers := st.2.writers.erase t })
      | _ => none
    else none
  | .PUnlock =>
    if st.2.plocks = 0 then none
    else
      match call .PLock fuel st.1 { pc := .holdP, ticket := 0, pw := 0 } with
      | .returned l _ => some (l, { st.2 with plocks := st.2.plocks - 1 })
      | _ => none

/-- A sequence of calls executed one at a time, each to its return. -/
def performAll (fuel : Nat) : List Call → RWPQL × Held → Option (RWPQL × Held)
  | [], st => some st
  | c :: cs, st =>
    match perform fuel st c with
    | none => none
    | some st1 => performAll fuel cs st1

end RWPQL

namespace ABRWPQL

/-- One call, made by a caller of its own and run with no other caller taking
steps for at most `fuel` steps.  `none`: the call does not follow the protocol
(`RUnlock` or `PUnlock` with nothing of that kind held, `Unlock` with a ticket
that no outstanding `Lock` returned), or it does not return. -/
def perform (fuel : Nat) (st : ABRWPQL × Held) : Call → Option (ABRWPQL × Held)
  | .RLock =>
    match call .RLock fuel st.1 idleCaller with
    | .returned l _ => some (l, { st.2 with readers := st.2.readers + 1 })
    | _ => none
  | .Lock =>
    match call .Lock fuel st.1 idleCaller with
    | .returned l c => some (l, { st.2 with writers := c.ticket :: st.2.writers })
    | _ => none
  | .PLock =>
    match call .PLock fuel st.1 idleCaller with
    | .returned l _ => some (l, { st.2 with plocks := st.2.plocks + 1 })
    | _ => none
  | .RUnlock =>
    if st.2.readers = 0 then none
    else
      match call .RLock fuel st.1 { pc := .holdR, ticket := 0, pw := 0 } with
      | .returned l _ => some (l, { st.2 with readers := st.2.readers - 1 })
      | _ => none
  | .Unlock t =>
    if t ∈ st.2.writers then
      match call .Lock fuel st.1 { pc := .holdW, ticket := t, pw := 0 } with
      | .returned l _ => some (l, { st.2 with writers := st.2.writers.erase t })
      | _ => none
    else none
  | .PUnlock =>
    if st.2.plocks = 0 then none
    else
      match call .PLock fuel st.1 { pc := .holdP, ticket := 0, pw := 0 } with
      | .returned l _ => some (l, { st.2 with plocks := st.2.plocks - 1 })
      | _ => none

/-- A sequence of calls executed one at a time, each to its return. -/
def performAll (fuel : Nat) : List Call → ABRWPQL × Held → Option (ABRWPQL × Held)
  | [], st => some st
  | c :: cs, st =>
    match perform fuel st c with
    | none => none
    | some st1 => performAll fuel cs st1

/-- The ticket's slot index as the second gate computes it,
`ticket % uint32(queue_sz)`, is defined and is the index `int(ticket) % queue_sz`
that the hand-over writes use. -/
def gatesAgree (q t : Nat) : Prop := q % 4294967296 ≠ 0 ∧ t % (q % 4294967296) = t % q

instance (q t : Nat) : Decidable (gatesAgree q t) := by
  unfold gatesAgree; infer_instance

/-- The state of the bounded lock between calls that are executed one at a time,
for ring size `q`, while the callers hold `h`: nothing but read access is held,
or one writer holds, or one priority caller holds. -/
structure SeqInv (q : Nat) (l : ABRWPQL) (h : Held) : Prop where
  hq : l.queue_sz = q
  hpw : l.priorityWaiting = 0
  ht : l.ticket < 4294967296
  hmode :
    (h.writers = [] ∧ h.plocks = 0 ∧ l.arr = ring q l.dequeueCount ∧
      l.dequeueCount = l.ticket ∧ l.nReaders = h.readers % 4294967296 ∧
      h.readers ≤ 4294967296 ∧
      l.lockState = if h.readers = 0 then .OPEN else .RLOCKED) ∨
    (∃ t, h.writers = [t] ∧ h.plocks = 0 ∧ h.readers = 0 ∧ t < 4294967296 ∧
      l.arr = ring q t ∧ l.dequeueCount = t ∧ l.ticket = inc32 t ∧ l.nReaders = 0 ∧
      l.lockState = .LOCKED) ∨
    (h.writers = [] ∧ h.plocks = 1 ∧ h.readers = 0 ∧ l.arr = ring q l.dequeueCount ∧
      l.dequeueCount = l.ticket ∧ l.nReaders = 0 ∧ l.lockState = .PRIORITY_LOCKED)

/-- The ring and the counters of the bounded lock between calls that are executed
one at a time, whatever `lockState` and `nReaders` are: with no `Lock`
outstanding the flag is at the slot of `dequeueCount`, which equals the ticket
counter; with one outstanding the flag is at the slot of its ticket `t`,
`dequeueCount = t` and the ticket counter is one ahead. -/
structure RingInv (q : Nat) (l : ABRWPQL) (h : Held) : Prop where
  hq : l.queue_sz = q
  hpw : l.priorityWaiting = 0
  ht : l.ticket < 4294967296
  hres : l.lockState ≠ .PRIORITY_LOCK_RESERVED
  hring :
    (h.writers = [] ∧ l.arr = ring q l.dequeueCount ∧ l.dequeueCount = l.ticket) ∨
    (∃ t, h.writers = [t] ∧ t < 4294967296 ∧ l.arr = ring q t ∧ l.dequeueCount = t ∧
      l.ticket = inc32 t)

/-- The bounded lock of ring size `q` with the flag at the slot of `d`,
`dequeueCount = d`, ticket counter `tk`, `nReaders = n` and no priority caller
waiting. -/
def lockAt (q : Nat) (sleep_ns : Int) (ls : LockState) (d tk n : Nat) : ABRWPQL :=
  { arr := ring q d, queue_sz := q, sleep_ns := sleep_ns, lockState := ls, ticket := tk,
    dequeueCount := d, nReaders := n, priorityWaiting := 0 }

/-- A sequence of calls that follows the protocol: two readers together, a
writer, a priority caller, and a writer that is left holding. -/
def mixedCalls : List Call :=
  [.RLock, .RLock, .RUnlock, .RUnlock, .Lock, .Unlock 2, .PLock, .PUnlock, .Lock]

/-- The pairs `tk := Lock(); Unlock(tk)` for the `k` tickets from `d` on. -/
def lockUnlockFrom : Nat → Nat → List Call
  | _, 0 => []
  | d, k + 1 => .Lock :: .Unlock d :: lockUnlockFrom (d + 1) k

/-- A sequence of calls that follows the protocol and in which `2^32 + 1` read
holds are outstanding at one time: `2^32 - 2` pairs of `Lock` and `Unlock`,
`2^32 + 1` calls of `RLock` (`nReaders` wraps around to 1), an `RUnlock` (now
`nReaders = 0`, the state is `OPEN` and `2^32` read holds are outstanding), a
`Lock` (it draws ticket `2^32 - 1`), the `2^32` calls of `RUnlock` that are
still due (the last stores `OPEN`), and a second `Lock`. -/
def wrapCalls : List Call :=
  lockUnlockFrom 0 4294967294 ++ (List.replicate 4294967297 .RLock ++
    (.RUnlock :: .Lock :: .RUnlock :: (List.replicate 4294967295 .RUnlock ++ [.Lock])))

end ABRWPQL

/-- The unbounded and the bounded lock agree on the ticket counter,
`dequeueCount`, `nReaders` and `priorityWaiting`, and on `lockState` up to
`PLock` leaving `LOCKED` in `RWPQL` (rwpql.go 77-78) where it leaves
`PRIORITY_LOCKED` in `ABRWPQL` (abrwpql.go 102-103). -/
def agree (r : RWPQL) (a : ABRWPQL) : Prop :=
  r.ticket = a.ticket ∧ r.dequeueCount = a.dequeueCount ∧ r.nReaders = a.nReaders ∧
  r.priorityWaiting = a.priorityWaiting ∧
  r.lockState = if a.lockState = .PRIORITY_LOCKED then .LOCKED else a.lockState

instance (r : RWPQL) (a : ABRWPQL) : Decidable (agree r a) := by
  unfold agree; infer_instance

/-- The same sequence of calls ends the same way on both locks: on both some
call does not return (or breaks the protocol), or on both every call returns,
the callers hold the same (in particular `Lock` returned the same tickets) and
the locks agree. -/
def sameOutcome : Option (RWPQL × Held) → Option (ABRWPQL × Held) → Prop
  | some (r, hr), some (a, ha) => hr = ha ∧ agree r a
  | none, none => True
  | _, _ => False

instance (x : Option (RWPQL × Held)) (y : Option (ABRWPQL × Held)) :
    Decidable (sameOutcome x y) := by
  unfold sameOutcome; split <;> infer_instance

/-- A sequence of calls that follows the protocol and lets `nReaders` wrap
around: `2^32 + 1` calls of `RLock`, an `RUnlock` (now `nReaders = 0` and the
state is `OPEN` although `2^32` read holds are outstanding), a second `RUnlock`
(`nReaders = 2^32 - 1`, the state stays `OPEN`), and a `Lock`. -/
def overflowCalls : List Call :=
  List.replicate 4294967297 .RLock ++ [.RUnlock, .RUnlock, .Lock]
/-! ## Arithmetic on `uint32` -/

theorem inc32_of_lt {v : Nat} (h : v + 1 < 4294967296) : inc32 v = v + 1 := by
  unfold inc32; omega

theorem dec32_of_pos {v : Nat} (h0 : 0 < v) (h : v < 4294967296) : dec32 v = v - 1 := by
  unfold dec32; split_ifs <;> omega

theorem dec32_inc32 {v : Nat} (h : v < 4294967296) : dec32 (inc32 v) = v := by
  unfold dec32 inc32; split_ifs <;> omega

/-! ## Single calls, run alone -/

namespace RWPQL

theorem call_RUnlock (m : RWPQL) (c : Local) (op : Op) (hc : c.pc = .holdR) :
    call op 3 m c =
      .returned
        { m with
          nReaders := dec32 m.nReaders
          lockState := if dec32 m.nReaders = 0 then .OPEN else m.lockState }
        { c with pc := .idle } := by
  by_cases h : dec32 m.nReaders = 0 <;>
    simp [call, tstep, hc, RUnlock, PC.sleeping, PC.between, h]

theorem calls_RUnlock (l : RWPQL) (N : Nat) (hN : 1 ≤ N) (hN32 : N < 4294967296)
    (hn : l.nReaders = N) (hs : l.lockState = .RLOCKED) (k : Nat) (hk : k ≤ N) :
    ∃ cs, calls .RLock 3 reader k l =
      some ({ l with nReaders := N - k
                     lockState := if k = N then .OPEN else .RLOCKED }, cs) := by
  induction k with
  | zero =>
    refine ⟨[], ?_⟩
    have h0 : ¬ (0 = N) := by omega
    cases l
    simp only [calls, h0, if_false, Nat.sub_zero] at *
    subst hn hs
    rfl
  | succ k ih =>
    obtain ⟨cs, hcs⟩ := ih (by omega)
    have hd : dec32 (N - k) = N - (k + 1) := by
      rw [dec32_of_pos (by omega) (by omega)]; omega
    refine ⟨cs ++ [{ reader with pc := .idle }], ?_⟩
    simp only [calls, hcs, call_RUnlock _ _ _ (rfl : reader.pc = .holdR), hd]
    have hkN : ¬ (k = N) := by omega
    by_cases h1 : k + 1 = N
    · have : N - (k + 1) = 0 := by omega
      simp [this, h1, hkN]
    · have : ¬ (N - (k + 1) = 0) := by omega
      simp [this, h1, hkN]

end RWPQL

namespace ABRWPQL

theorem ab_call_RUnlock (m : ABRWPQL) (c : Local) (op : Op) (hc : c.pc = .holdR) :
    call op 3 m c =
      .returned
        { m with
          nReaders := dec32 m.nReaders
          lockState := if dec32 m.nReaders = 0 then .OPEN else m.lockState }
        { c with pc := .idle } := by
  by_cases h : dec32 m.nReaders = 0 <;>
    simp [call, tstep, hc, RUnlock, PC.sleeping, PC.between, h]

theorem ab_calls_RUnlock (l : ABRWPQL) (N : Nat) (hN : 1 ≤ N) (hN32 : N < 4294967296)
    (hn : l.nReaders = N) (hs : l.lockState = .RLOCKED) (k : Nat) (hk : k ≤ N) :
    ∃ cs, calls .RLock 3 reader k l =
      some ({ l with nReaders := N - k
                     lockState := if k = N then .OPEN else .RLOCKED }, cs) := by
  induction k with
  | zero =>
    refine ⟨[], ?_⟩
    have h0 : ¬ (0 = N) := by omega
    cases l
    simp only [calls, h0, if_false, Nat.sub_zero] at *
    subst hn hs
    rfl
  | succ k ih =>
    obtain ⟨cs, hcs⟩ := ih (by omega)
    have hd : dec32 (N - k) = N - (k + 1) := by
      rw [dec32_of_pos (by omega) (by omega)]; omega
    refine ⟨cs ++ [{ reader with pc := .idle }], ?_⟩
    simp only [calls, hcs, ab_call_RUnlock _ _ _ (rfl : reader.pc = .holdR), hd]
    have hkN : ¬ (k = N) := by omega
    by_cases h1 : k + 1 = N
    · have : N - (k + 1) = 0 := by omega
      simp [this, h1, hkN]
    · have : ¬ (N - (k + 1) = 0) := by omega
      simp [this, h1, hkN]

end ABRWPQL

theorem ring_length (q h : Nat) : (ABRWPQL.ring q h).length = q := by
  simp [ABRWPQL.ring]

theorem ring_getElem? (q h j : Nat) (hq : 0 < q) :
    (ABRWPQL.ring q h)[j]? = if j < q then some (if j = h % q then 1 else 0) else none := by
  have hlt : h % q < q := Nat.mod_lt _ hq
  unfold ABRWPQL.ring
  rw [List.getElem?_set]
  by_cases hj : j < q
  · by_cases h1 : h % q = j
    · subst h1; simp [hlt]
    · have h2 : ¬ j = h % q := fun e => h1 e.symm
      simp [h1, h2, hj, List.getElem?_replicate]
  · have h1 : ¬ h % q = j := by omega
    simp [h1, hj, List.getElem?_replicate]

theorem ring_advance (q h : Nat) (hq : 0 < q) :
    ((ABRWPQL.ring q h).set (h % q) 0).set ((h + 1) % q) 1 = ABRWPQL.ring q (h + 1) := by
  have hlt : h % q < q := Nat.mod_lt _ hq
  have hlt1 : (h + 1) % q < q := Nat.mod_lt _ hq
  apply List.ext_getElem?
  intro j
  rw [List.getElem?_set, List.getElem?_set, ring_getElem? q h j hq, ring_getElem? q (h+1) j hq]
  simp only [List.length_set, ring_length]
  by_cases hj : j < q
  · by_cases h1 : (h + 1) % q = j
    · subst h1; simp [hlt1]
    · have h1' : ¬ j = (h + 1) % q := fun e => h1 e.symm
      by_cases h2 : h % q = j
      · subst h2; simp [h1, h1', hlt]
      · have h2' : ¬ j = h % q := fun e => h2 e.symm
        simp [h1, h1', h2, h2', hj]
  · have h1 : ¬ (h + 1) % q = j := by omega
    have h2 : ¬ h % q = j := by omega
    simp [h1, h2, hj]
namespace RWPQL

theorem call_RLock_free (l : RWPQL) (c : Local) (t : Nat)
    (hs : l.lockState = .OPEN ∨ l.lockState = .RLOCKED)
    (hp : l.priorityWaiting = 0) (hd : l.dequeueCount = t) (ht : l.ticket = t)
    (h32 : t + 1 < 4294967296) (hn : l.nReaders + 1 < 4294967296) (hc : c.pc = .idle) :
    call .RLock 8 l c =
      .returned { l with lockState := .RLOCKED, ticket := t + 1, dequeueCount := t + 1,
                         nReaders := l.nReaders + 1 }
        { pc := .holdR, ticket := t, pw := 0 } := by
  have h1 : inc32 t = t + 1 := inc32_of_lt h32
  have h2 : dec32 (t + 1) = t := by rw [← h1]; exact dec32_inc32 (by omega)
  have h3 : inc32 l.nReaders = l.nReaders + 1 := inc32_of_lt hn
  rcases hs with hs | hs <;>
    simp [call, tstep, entry, hc, RLock, PC.sleeping, PC.between, hs, hp, hd, ht, h1, h2, h3]

theorem calls_RLock_fresh (sleep_ns : Int) (N : Nat) (hN32 : N < 4294967296) :
    ∃ cs, calls .RLock 8 idleCaller N (NewRWPQL sleep_ns) =
        some ({ NewRWPQL sleep_ns with
                  lockState := if N = 0 then .OPEN else .RLOCKED
                  ticket := N, dequeueCount := N, nReaders := N }, cs) ∧
      cs = (List.range N).map (fun t => { pc := .holdR, ticket := t, pw := 0 }) := by
  induction N with
  | zero => exact ⟨[], rfl, rfl⟩
  | succ k ih =>
    obtain ⟨cs, hcs, hts⟩ := ih (by omega)
    refine ⟨cs ++ [{ pc := .holdR, ticket := k, pw := 0 }], ?_, ?_⟩
    · simp only [calls, hcs]
      rw [call_RLock_free _ idleCaller k (by by_cases h : k = 0 <;> simp [h]) rfl rfl rfl
        (by omega) (by simpa using hN32) rfl]
      simp
    · rw [hts, List.range_succ, List.map_append]; rfl

end RWPQL

namespace ABRWPQL

theorem ab_call_RLock_free (l : ABRWPQL) (c : Local) (t q : Nat)
    (hq : 0 < q) (hq32 : q < 4294967296) (hqs : l.queue_sz = q) (ha : l.arr = ring q t)
    (hs : l.lockState = .OPEN ∨ l.lockState = .RLOCKED)
    (hp : l.priorityWaiting = 0) (hd : l.dequeueCount = t) (ht : l.ticket = t)
    (h32 : t + 1 < 4294967296) (hn : l.nReaders + 1 < 4294967296) (hc : c.pc = .idle) :
    call .RLock 11 l c =
      .returned { l with arr := ring q (t + 1), lockState := .RLOCKED, ticket := t + 1,
                         dequeueCount := t + 1, nReaders := l.nReaders + 1 }
        { pc := .holdR, ticket := t, pw := 0 } := by
  have h1 : inc32 t = t + 1 := inc32_of_lt h32
  have h2 : dec32 (t + 1) = t := by rw [← h1]; exact dec32_inc32 (by omega)
  have h3 : inc32 l.nReaders = l.nReaders + 1 := inc32_of_lt hn
  have h4 : sub32 t t = 0 := by unfold sub32; simp
  have h5 : q % 4294967296 = q := Nat.mod_eq_of_lt hq32
  have h6 : (ring q t)[t % q]? = some 1 := by
    rw [ring_getElem? q t _ hq]; simp [Nat.mod_lt _ hq]
  have h7 : t % q < q := Nat.mod_lt _ hq
  have h8 : (t + 1) % q < q := Nat.mod_lt _ hq
  have h9 : q ≠ 0 := by omega
  rcases hs with hs | hs <;>
    simp [call, tstep, entry, hc, RLock, PC.sleeping, PC.between, hs, hp, hd, ht, h1, h2, h3,
      h4, h5, h6, h7, h8, h9, hqs, ha, qsz32, readSlot, writeSlot, ring_length, ring_advance q t hq,
      hq]

end ABRWPQL
namespace ABRWPQL

theorem NewABRWPQL_eq (q : Nat) (sleep_ns : Int) (hq : 0 < q) :
    NewABRWPQL q sleep_ns =
      some { arr := ring q 0, queue_sz := q, sleep_ns := sleep_ns, lockState := .OPEN,
             ticket := 0, dequeueCount := 0, nReaders := 0, priorityWaiting := 0 } := by
  simp [NewABRWPQL, hq, ring]

theorem ab_calls_RLock_fresh (q : Nat) (sleep_ns : Int) (hq : 0 < q) (hq32 : q < 4294967296)
    (N : Nat) (hN32 : N < 4294967296) :
    ∃ cs, calls .RLock 11 idleCaller N
          { arr := ring q 0, queue_sz := q, sleep_ns := sleep_ns, lockState := .OPEN,
            ticket := 0, dequeueCount := 0, nReaders := 0, priorityWaiting := 0 } =
        some ({ arr := ring q N, queue_sz := q, sleep_ns := sleep_ns,
                lockState := if N = 0 then .OPEN else .RLOCKED,
                ticket := N, dequeueCount := N, nReaders := N, priorityWaiting := 0 }, cs) ∧
      cs = (List.range N).map (fun t => { pc := .holdR, ticket := t, pw := 0 }) := by
  induction N with
  | zero => exact ⟨[], rfl, rfl⟩
  | succ k ih =>
    obtain ⟨cs, hcs, hts⟩ := ih (by omega)
    refine ⟨cs ++ [{ pc := .holdR, ticket := k, pw := 0 }], ?_, ?_⟩
    · simp only [calls, hcs]
      rw [ab_call_RLock_free _ idleCaller k q hq hq32 rfl rfl
        (by by_cases h : k = 0 <;> simp [h]) rfl rfl rfl (by omega) (by simpa using hN32) rfl]
      simp
    · rw [hts, List.range_succ, List.map_append]; rfl

end ABRWPQL

namespace ABRWPQL

theorem ab_call_Lock_free (l : ABRWPQL) (c : Local) (t q : Nat)
    (hq : 0 < q) (hq32 : q < 4294967296) (hqs : l.queue_sz = q) (ha : l.arr = ring q t)
    (hs : l.lockState = .OPEN) (hp : l.priorityWaiting = 0) (hn : l.nReaders = 0)
    (hd : l.dequeueCount = t) (ht : l.ticket = t)
    (h32 : t + 1 < 4294967296) (hc : c.pc = .idle) :
    call .Lock 7 l c =
      .returned { l with lockState := .LOCKED, ticket := t + 1 }
        { pc := .holdW, ticket := t, pw := 0 } := by
  have h1 : inc32 t = t + 1 := inc32_of_lt h32
  have h2 : dec32 (t + 1) = t := by rw [← h1]; exact dec32_inc32 (by omega)
  have h4 : sub32 t t = 0 := by unfold sub32; simp
  have h5 : q % 4294967296 = q := Nat.mod_eq_of_lt hq32
  have h6 : (ring q t)[t % q]? = some 1 := by
    rw [ring_getElem? q t _ hq]; simp [Nat.mod_lt _ hq]
  have h9 : q ≠ 0 := by omega
  simp [call, tstep, entry, hc, Lock, PC.sleeping, PC.between, hs, hp, hd, ht, h1, h2, hn,
    h4, h5, h6, h9, hqs, ha, qsz32, readSlot, hq]

theorem ab_call_Unlock (l : ABRWPQL) (c : Local) (op : Op) (t q : Nat)
    (hq : 0 < q) (hqs : l.queue_sz = q) (ha : l.arr = ring q t)
    (hd : l.dequeueCount = t) (h32 : t + 1 < 4294967296)
    (hc : c.pc = .holdW) (hct : c.ticket = t) :
    call op 7 l c =
      .returned { l with arr := ring q (t + 1), lockState := .OPEN, dequeueCount := t + 1 }
        { c with pc := .idle } := by
  have h1 : inc32 t = t + 1 := inc32_of_lt h32
  have h7 : t % q < q := Nat.mod_lt _ hq
  have h8 : (t + 1) % q < q := Nat.mod_lt _ hq
  have h9 : q ≠ 0 := by omega
  simp [call, tstep, hc, hct, Unlock, PC.sleeping, PC.between, hd, h1, h7, h8, h9, hqs, ha,
    writeSlot, ring_length, ring_advance q t hq]

theorem lockUnlockPairs_fresh (q : Nat) (sleep_ns : Int) (hq : 0 < q) (hq32 : q < 4294967296)
    (k : Nat) (hk32 : k < 4294967296) :
    lockUnlockPairs 7 k
        { arr := ring q 0, queue_sz := q, sleep_ns := sleep_ns, lockState := .OPEN,
          ticket := 0, dequeueCount := 0, nReaders := 0, priorityWaiting := 0 } =
      some ({ arr := ring q k, queue_sz := q, sleep_ns := sleep_ns, lockState := .OPEN,
              ticket := k, dequeueCount := k, nReaders := 0, priorityWaiting := 0 },
            List.range k) := by
  induction k with
  | zero => rfl
  | succ k ih =>
    simp only [lockUnlockPairs, ih (by omega)]
    rw [ab_call_Lock_free _ idleCaller k q hq hq32 rfl rfl rfl rfl rfl rfl rfl hk32 rfl]
    simp only
    have h := ab_call_Unlock
      { arr := ring q k, queue_sz := q, sleep_ns := sleep_ns, lockState := .LOCKED,
        ticket := k + 1, dequeueCount := k, nReaders := 0, priorityWaiting := 0 }
      { pc := .holdW, ticket := k, pw := 0 } .Lock k q hq rfl rfl rfl hk32 rfl rfl
    rw [h]
    simp [List.range_succ]

end ABRWPQL

namespace ABRWPQL

theorem readSlot_isSome (l : ABRWPQL) (t : Nat) (hl : l.arr.length = l.queue_sz)
    (hm : l.qsz32 ≠ 0) : ∃ v, l.readSlot t = some v := by
  have h1 : t % l.qsz32 < l.qsz32 := Nat.mod_lt _ (Nat.pos_of_ne_zero hm)
  have h2 : l.qsz32 ≤ l.queue_sz := Nat.mod_le _ _
  have h3 : t % l.qsz32 < l.arr.length := by omega
  exact ⟨l.arr[t % l.qsz32], by simp [readSlot, hm, List.getElem?_eq_getElem h3]⟩

theorem writeSlot_eq (l : ABRWPQL) (t v : Nat) (hl : l.arr.length = l.queue_sz)
    (hq : 0 < l.queue_sz) :
    l.writeSlot t v = some { l with arr := l.arr.set (t % l.queue_sz) v } := by
  have h1 : t % l.queue_sz < l.queue_sz := Nat.mod_lt _ hq
  have h2 : l.queue_sz ≠ 0 := by omega
  simp [writeSlot, h2, hl, h1]

end ABRWPQL

/-! ## Reachability -/

namespace RWPQL

theorem run_cons (s : Sys) (a : Nat × Op) (rest : List (Nat × Op)) :
    s.run (a :: rest) = (s.step a.1 a.2).run rest := rfl

theorem run_invariant (P : Sys → Prop) (hstep : ∀ s i op, P s → P (s.step i op))
    (sched : List (Nat × Op)) : ∀ s, P s → P (s.run sched) := by
  induction sched with
  | nil => intro s h; exact h
  | cons a rest ih => intro s h; rw [run_cons]; exact ih _ (hstep s a.1 a.2 h)

theorem reachable_invariant (P : Sys → Prop) (hinit : ∀ sleep_ns, P (Sys.init sleep_ns))
    (hstep : ∀ s i op, P s → P (s.step i op)) (s : Sys) (h : Reachable s) : P s := by
  obtain ⟨sl, sched, rfl⟩ := h
  exact run_invariant P hstep sched _ (hinit sl)

theorem tstep_pwChecked (op : Op) (l : RWPQL) (c : Local) (h : c.pwChecked) :
    (tstep op l c).2.pwChecked := by
  rcases c with ⟨pc, tk, pw⟩
  cases pc <;> simp [Local.pwChecked] at h ⊢ <;>
    simp [tstep, RLock, Lock, PLock, RUnlock, Unlock, PUnlock, h] <;>
    (try cases op) <;> (try simp [entry]) <;> (repeat' split) <;> (try simp_all) <;>
    (try omega)

end RWPQL

namespace ABRWPQL

theorem ab_run_cons (s : Sys) (a : Nat × Op) (rest : List (Nat × Op)) :
    s.run (a :: rest) = (s.step a.1 a.2).run rest := rfl

theorem ab_run_invariant (P : Sys → Prop) (hstep : ∀ s i op, P s → P (s.step i op))
    (sched : List (Nat × Op)) : ∀ s, P s → P (s.run sched) := by
  induction sched with
  | nil => intro s h; exact h
  | cons a rest ih => intro s h; rw [ab_run_cons]; exact ih _ (hstep s a.1 a.2 h)

theorem ab_tstep_pwChecked (op : Op) (l : ABRWPQL) (c : Local) (h : c.pwChecked) :
    (tstep op l c).2.pwChecked := by
  rcases c with ⟨pc, tk, pw⟩
  cases pc <;> simp [Local.pwChecked] at h ⊢ <;>
    simp [tstep, RLock, Lock, PLock, RUnlock, Unlock, PUnlock, yieldToPriorityLock, h] <;>
    (try cases op) <;> (try simp [entry]) <;> (repeat' split) <;> (try simp_all) <;>
    (try omega)

end ABRWPQL

/-! ## C1, C2: mutual exclusion -/

/-- C1 fails on the code.  From `NewRWPQL`, under `RWPQL.raceSchedule` caller 1
has returned from `RLock` (it passed `CAS(RLOCKED, RLOCKED)` before the last
active reader's `RUnlock` stored `OPEN`, and `Lock` does not look at
`nReaders`) while caller 2 has returned from `Lock`: a reader and a writer
hold together.  Under `RWPQL.raceSchedule2` that reader's `RUnlock` stores
`OPEN` over the writer's `LOCKED` and caller 3 returns from `PLock`: two
callers hold exclusive access together. -/
theorem RWPQL_mutual_exclusion_violated :
    RWPQL.Reachable ((RWPQL.Sys.init 1000).run RWPQL.raceSchedule) ∧
    (((RWPQL.Sys.init 1000).run RWPQL.raceSchedule).th 1).holdsRead ∧
    (((RWPQL.Sys.init 1000).run RWPQL.raceSchedule).th 2).holdsExclusive ∧
    ¬ RWPQL.MutualExclusion ((RWPQL.Sys.init 1000).run RWPQL.raceSchedule) ∧
    RWPQL.Reachable ((RWPQL.Sys.init 1000).run RWPQL.raceSchedule2) ∧
    ((RWPQL.Sys.init 1000).run RWPQL.raceSchedule2).th 2 = ⟨.holdW, 2, 0⟩ ∧
    ((RWPQL.Sys.init 1000).run RWPQL.raceSchedule2).th 3 = ⟨.holdP, 0, 0⟩ ∧
    ¬ RWPQL.MutualExclusion ((RWPQL.Sys.init 1000).run RWPQL.raceSchedule2) := by
  have h1 : (((RWPQL.Sys.init 1000).run RWPQL.raceSchedule).th 1).holdsRead := by decide
  have h2 : (((RWPQL.Sys.init 1000).run RWPQL.raceSchedule).th 2).holdsExclusive := by decide
  have h3 : ((RWPQL.Sys.init 1000).run RWPQL.raceSchedule2).th 2 = ⟨.holdW, 2, 0⟩ := by decide
  have h4 : ((RWPQL.Sys.init 1000).run RWPQL.raceSchedule2).th 3 = ⟨.holdP, 0, 0⟩ := by decide
  refine ⟨⟨1000, RWPQL.raceSchedule, rfl⟩, h1, h2, fun h => h.2 2 1 h2 h1,
    ⟨1000, RWPQL.raceSchedule2, rfl⟩, h3, h4, fun h => ?_⟩
  exact absurd (h.1 2 3 (by rw [h3]; exact Or.inl rfl) (by rw [h4]; exact Or.inr rfl)) (by decide)

/-- C2 fails on the code.  From `NewABRWPQL 4`, under `ABRWPQL.raceSchedule`
caller 0 holds read access (`RLock` returned) while caller 2 has returned from
`PLock`: caller 1, admitted behind the active reader, saw `priorityWaiting > 0`
and stored `PRIORITY_LOCK_RESERVED` over `RLOCKED`, which `PLock` then claimed.
Under `ABRWPQL.raceSchedule2` the priority holder is still inside when caller 3
returns from `Lock`: two callers hold exclusive access together. -/
theorem ABRWPQL_mutual_exclusion_violated :
    NewABRWPQL 4 1000 = some ABRWPQL.fresh4 ∧
    ABRWPQL.Reachable 4 ((ABRWPQL.Sys.ofLock ABRWPQL.fresh4).run ABRWPQL.raceSchedule) ∧
    (((ABRWPQL.Sys.ofLock ABRWPQL.fresh4).run ABRWPQL.raceSchedule).th 0).holdsRead ∧
    (((ABRWPQL.Sys.ofLock ABRWPQL.fresh4).run ABRWPQL.raceSchedule).th 2).holdsExclusive ∧
    ¬ ABRWPQL.MutualExclusion ((ABRWPQL.Sys.ofLock ABRWPQL.fresh4).run ABRWPQL.raceSchedule) ∧
    ABRWPQL.Reachable 4 ((ABRWPQL.Sys.ofLock ABRWPQL.fresh4).run ABRWPQL.raceSchedule2) ∧
    ((ABRWPQL.Sys.ofLock ABRWPQL.fresh4).run ABRWPQL.raceSchedule2).th 2 = ⟨.holdP, 0, 0⟩ ∧
    ((ABRWPQL.Sys.ofLock ABRWPQL.fresh4).run ABRWPQL.raceSchedule2).th 3 = ⟨.holdW, 2, 0⟩ ∧
    ¬ ABRWPQL.MutualExclusion
      ((ABRWPQL.Sys.ofLock ABRWPQL.fresh4).run ABRWPQL.raceSchedule2) := by
  have h0 : NewABRWPQL 4 1000 = some ABRWPQL.fresh4 := by decide
  have h1 : (((ABRWPQL.Sys.ofLock ABRWPQL.fresh4).run ABRWPQL.raceSchedule).th 0).holdsRead := by
    decide
  have h2 :
      (((ABRWPQL.Sys.ofLock ABRWPQL.fresh4).run ABRWPQL.raceSchedule).th 2).holdsExclusive := by
    decide
  have h3 : ((ABRWPQL.Sys.ofLock ABRWPQL.fresh4).run ABRWPQL.raceSchedule2).th 2 =
      ⟨.holdP, 0, 0⟩ := by decide
  have h4 : ((ABRWPQL.Sys.ofLock ABRWPQL.fresh4).run ABRWPQL.raceSchedule2).th 3 =
      ⟨.holdW, 2, 0⟩ := by decide
  refine ⟨h0, ⟨1000, ABRWPQL.fresh4, ABRWPQL.raceSchedule, h0, rfl⟩, h1, h2, fun h => h.2 2 0 h2 h1,
    ⟨1000, ABRWPQL.fresh4, ABRWPQL.raceSchedule2, h0, rfl⟩,
    h3, h4, fun h => ?_⟩
  exact absurd (h.1 2 3 (by rw [h3]; exact Or.inr rfl) (by rw [h4]; exact Or.inl rfl)) (by decide)
/-! ## C5: `RUnlock` -/

/-- C5. `RUnlock` of either lock, run from any state by a caller for which
`RLock` returned, returns without waiting, replaces `nReaders` by its `uint32`
decrement (which is `nReaders - 1` when `nReaders` is positive), stores `OPEN`
into `lockState` exactly when the decremented count is zero and changes no
other field.  Hence from a state with `nReaders = N` (`1 ≤ N < 2^32`) and
`lockState = RLOCKED`, `k ≤ N` successive `RUnlock` calls all return and leave
`nReaders = N - k`, with `lockState = RLOCKED` while `k < N` and `OPEN` for
`k = N`, every other field as it was. -/
theorem RUnlock_opens_exactly_at_zero (l : RWPQL) (a : ABRWPQL) (N k : Nat)
    (hN : 1 ≤ N) (hN32 : N < 4294967296) (hk : k ≤ N)
    (hl : l.nReaders = N ∧ l.lockState = .RLOCKED)
    (ha : a.nReaders = N ∧ a.lockState = .RLOCKED) :
    (∀ (m : RWPQL) (c : RWPQL.Local) (op : Op), c.pc = .holdR →
      RWPQL.call op 3 m c =
        .returned
          { m with
            nReaders := dec32 m.nReaders
            lockState := if dec32 m.nReaders = 0 then .OPEN else m.lockState }
          { c with pc := .idle }) ∧
    (∀ (m : ABRWPQL) (c : ABRWPQL.Local) (op : Op), c.pc = .holdR →
      ABRWPQL.call op 3 m c =
        .returned
          { m with
            nReaders := dec32 m.nReaders
            lockState := if dec32 m.nReaders = 0 then .OPEN else m.lockState }
          { c with pc := .idle }) ∧
    (∀ v : Nat, 0 < v → v < 4294967296 → dec32 v = v - 1) ∧
    (∃ cs, RWPQL.calls .RLock 3 RWPQL.reader k l =
      some ({ l with nReaders := N - k
                     lockState := if k = N then .OPEN else .RLOCKED }, cs)) ∧
    (∃ cs, ABRWPQL.calls .RLock 3 ABRWPQL.reader k a =
      some ({ a with nReaders := N - k
                     lockState := if k = N then .OPEN else .RLOCKED }, cs)) :=
  ⟨fun m c op hc => RWPQL.call_RUnlock m c op hc,
   fun m c op hc => ABRWPQL.ab_call_RUnlock m c op hc,
   fun _ h0 h => dec32_of_pos h0 h,
   RWPQL.calls_RUnlock l N hN hN32 hl.1 hl.2 k hk,
   ABRWPQL.ab_calls_RUnlock a N hN hN32 ha.1 ha.2 k hk⟩

/-- Witness for C5: three readers, the second and the third `RUnlock`. -/
theorem RUnlock_opens_exactly_at_zero_witness :
    (∃ cs, RWPQL.calls .RLock 3 RWPQL.reader 2 ⟨0, .RLOCKED, 3, 3, 3, 0⟩ =
      some (⟨0, .RLOCKED, 3, 3, 1, 0⟩, cs)) ∧
    (∃ cs, ABRWPQL.calls .RLock 3 ABRWPQL.reader 3 ⟨[0, 0, 0, 1], 4, 0, .RLOCKED, 3, 3, 3, 0⟩ =
      some (⟨[0, 0, 0, 1], 4, 0, .OPEN, 3, 3, 0, 0⟩, cs)) :=
  ⟨(RUnlock_opens_exactly_at_zero ⟨0, .RLOCKED, 3, 3, 3, 0⟩
      ⟨[0, 0, 0, 1], 4, 0, .RLOCKED, 3, 3, 3, 0⟩ 3 2 (by decide) (by decide) (by decide)
      ⟨rfl, rfl⟩ ⟨rfl, rfl⟩).2.2.2.1,
   (RUnlock_opens_exactly_at_zero ⟨0, .RLOCKED, 3, 3, 3, 0⟩
      ⟨[0, 0, 0, 1], 4, 0, .RLOCKED, 3, 3, 3, 0⟩ 3 3 (by decide) (by decide) (by decide)
      ⟨rfl, rfl⟩ ⟨rfl, rfl⟩).2.2.2.2⟩

/-! ## C6: the writer keeps the queue head -/

namespace RWPQL

theorem call_Lock_open (l : RWPQL) (c : Local) (t : Nat) (hs : l.lockState = .OPEN)
    (hp : l.priorityWaiting = 0) (hd : l.dequeueCount = t) (ht : l.ticket = t)
    (h32 : t < 4294967296) (hc : c.pc = .idle) :
    call .Lock 5 l c =
      .returned { l with lockState := .LOCKED, ticket := inc32 t }
        { pc := .holdW, ticket := t, pw := 0 } := by
  simp [call, tstep, entry, hc, Lock, PC.sleeping, PC.between, hs, hp, hd, ht,
    dec32_inc32 h32]

theorem call_Unlock (l : RWPQL) (c : Local) (op : Op) (hc : c.pc = .holdW) :
    call op 3 l c =
      .returned { l with lockState := .OPEN, dequeueCount := inc32 l.dequeueCount }
        { c with pc := .idle } := by
  simp [call, tstep, hc, Unlock, PC.sleeping, PC.between]

/-- While `lockState` is `LOCKED`, a step of a caller that holds nothing keeps
`lockState` and `dequeueCount` and leaves the caller without the lock. -/
theorem tstep_locked (op : Op) (l : RWPQL) (c : Local) (hs : l.lockState = .LOCKED)
    (hc : c.pc.beforeCas = true) :
    (tstep op l c).1.lockState = .LOCKED ∧
    (tstep op l c).1.dequeueCount = l.dequeueCount ∧
    (tstep op l c).2.pc.beforeCas = true := by
  rcases c with ⟨pc, tk, pw⟩
  cases pc <;> simp [PC.beforeCas] at hc <;>
    simp [tstep, RLock, Lock, PLock, hs, PC.beforeCas] <;>
    first
      | (cases op <;> simp [entry])
      | (split_ifs <;> simp [hs])
      | skip

theorem run_locked (w t : Nat) (sched : List (Nat × Op)) :
    ∀ s : Sys, s.l.lockState = .LOCKED → s.l.dequeueCount = t →
      (∀ j, j ≠ w → (s.th j).pc.beforeCas = true) → (∀ a ∈ sched, a.1 ≠ w) →
      (s.run sched).l.lockState = .LOCKED ∧ (s.run sched).l.dequeueCount = t ∧
      (s.run sched).th w = s.th w ∧
      ∀ j, j ≠ w → ((s.run sched).th j).pc.beforeCas = true := by
  induction sched with
  | nil => intro s h1 h2 h3 _; exact ⟨h1, h2, rfl, h3⟩
  | cons a rest ih =>
    intro s h1 h2 h3 h4
    have ha : a.1 ≠ w := h4 a (List.mem_cons_self _ _)
    obtain ⟨e1, e2, e3⟩ := tstep_locked a.2 s.l (s.th a.1) h1 (h3 _ ha)
    have := ih (s.step a.1 a.2) e1 (by simpa [Sys.step, h2] using e2)
      (by
        intro j hj
        by_cases hja : j = a.1
        · subst hja; simpa [Sys.step] using e3
        · simpa [Sys.step, Function.update_noteq hja] using h3 j hj)
      (fun b hb => h4 b (List.mem_cons_of_mem _ hb))
    have hw : (s.step a.1 a.2).th w = s.th w := by
      simp [Sys.step, Function.update_noteq (Ne.symm ha)]
    simpa [Sys.run, hw] using this

end RWPQL

/-- The writer keeps the queue head when every other caller starts from holding
nothing (the part of C6 that holds on the code).  In `RWPQL`, from any state
with `lockState = OPEN`,
`priorityWaiting = 0` and `dequeueCount = ticket = t`, a `Lock` call run with
no other caller taking steps returns `t` without waiting and leaves
`lockState = LOCKED`, `ticket = t + 1` (mod `2^32`), `dequeueCount = t` and
every other field unchanged.  While that writer holds (it takes no step) and
the other callers start from holding nothing, whatever steps the others take
`lockState` stays `LOCKED`, `dequeueCount` stays `t` and no other caller
returns from `RLock`, `Lock` or `PLock`.  The writer's `Unlock(t)` then returns
without waiting, storing `OPEN` and the `uint32` increment of `dequeueCount`
(`t + 1` unless `t = 2^32 - 1`), and changes nothing else. -/
theorem Lock_keeps_queue_head (l : RWPQL) (t : Nat) (c : RWPQL.Local)
    (hs : l.lockState = .OPEN) (hp : l.priorityWaiting = 0) (hd : l.dequeueCount = t)
    (ht : l.ticket = t) (h32 : t < 4294967296) (hc : c.pc = .idle) :
    RWPQL.call .Lock 5 l c =
      .returned { l with lockState := .LOCKED, ticket := (t + 1) % 4294967296 }
        { pc := .holdW, ticket := t, pw := 0 } ∧
    (∀ (s : RWPQL.Sys) (w : Nat) (sched : List (Nat × Op)),
      s.l = { l with lockState := .LOCKED, ticket := (t + 1) % 4294967296 } →
      s.th w = { pc := .holdW, ticket := t, pw := 0 } →
      (∀ j, j ≠ w → (s.th j).pc = .idle) →
      (∀ a ∈ sched, a.1 ≠ w) →
      (s.run sched).l.lockState = .LOCKED ∧ (s.run sched).l.dequeueCount = t ∧
      (s.run sched).th w = { pc := .holdW, ticket := t, pw := 0 } ∧
      ∀ j, j ≠ w → ((s.run sched).th j).pc ≠ .holdR ∧ ((s.run sched).th j).pc ≠ .holdW ∧
        ((s.run sched).th j).pc ≠ .holdP) ∧
    (∀ op : Op,
      RWPQL.call op 3 { l with lockState := .LOCKED, ticket := (t + 1) % 4294967296 }
          { pc := .holdW, ticket := t, pw := 0 } =
        .returned { l with lockState := .OPEN, ticket := (t + 1) % 4294967296,
                           dequeueCount := (t + 1) % 4294967296 }
          { pc := .idle, ticket := t, pw := 0 }) ∧
    (t + 1 < 4294967296 → (t + 1) % 4294967296 = t + 1) := by
  refine ⟨?_, ?_, ?_, fun h => Nat.mod_eq_of_lt h⟩
  · simpa [inc32] using RWPQL.call_Lock_open l c t hs hp hd ht h32 hc
  · intro s w sched hl hw hidle hsched
    obtain ⟨e1, e2, e3, e4⟩ := RWPQL.run_locked w t sched s (by rw [hl]) (by rw [hl]; exact hd)
      (fun j hj => by rw [hidle j hj]; rfl) hsched
    refine ⟨e1, e2, by rw [e3, hw], fun j hj => ?_⟩
    have := e4 j hj
    refine ⟨?_, ?_, ?_⟩ <;> intro h <;> rw [h] at this <;> simp [RWPQL.PC.beforeCas] at this
  · intro op
    rw [RWPQL.call_Unlock _ _ op rfl]
    simp [inc32, hd]

/-- The fresh lock (`t = 0`) as an instance of `Lock_keeps_queue_head`. -/
theorem Lock_keeps_queue_head_witness :
    RWPQL.call .Lock 5 (NewRWPQL 1000) RWPQL.idleCaller =
      .returned { NewRWPQL 1000 with lockState := .LOCKED, ticket := (0 + 1) % 4294967296 }
        { pc := .holdW, ticket := 0, pw := 0 } :=
  (Lock_keeps_queue_head (NewRWPQL 1000) 0 RWPQL.idleCaller rfl rfl rfl rfl (by decide) rfl).1

/-- C6 fails on the code.  From `NewRWPQL`, after `RWPQL.parkedReaderSchedule`
the lock has `lockState = OPEN`, `priorityWaiting = 0` and
`dequeueCount = ticket = 2`, and caller 1 stands inside `RLock` before its
`l.nReaders.Inc()` (rwpql.go 44), having passed `CAS(RLOCKED, RLOCKED)` and
incremented `dequeueCount` while caller 0 still held.  A `Lock` call run from
there with no other caller taking steps returns 2 and leaves `LOCKED`,
ticket 3, `dequeueCount = 2`; with caller 2 making that call and holding,
caller 1's next step is its `l.nReaders.Inc()` and its `RLock` returns: a call
of `RLock` by another caller returns while the writer holds. -/
theorem Lock_does_not_exclude_parked_reader :
    RWPQL.Reachable ((RWPQL.Sys.init 1000).run RWPQL.parkedReaderSchedule) ∧
    ((RWPQL.Sys.init 1000).run RWPQL.parkedReaderSchedule).l =
      { sleep_ns := 1000, lockState := .OPEN, ticket := 2, dequeueCount := 2, nReaders := 0,
        priorityWaiting := 0 } ∧
    ((RWPQL.Sys.init 1000).run RWPQL.parkedReaderSchedule).th 1 = ⟨.rl_nr, 1, 0⟩ ∧
    ((RWPQL.Sys.init 1000).run RWPQL.parkedReaderSchedule).th 2 = ⟨.idle, 0, 0⟩ ∧
    RWPQL.call .Lock 5 ((RWPQL.Sys.init 1000).run RWPQL.parkedReaderSchedule).l
        RWPQL.idleCaller =
      .returned { sleep_ns := 1000, lockState := .LOCKED, ticket := 3, dequeueCount := 2,
                  nReaders := 0, priorityWaiting := 0 }
        { pc := .holdW, ticket := 2, pw := 0 } ∧
    (((RWPQL.Sys.init 1000).run RWPQL.parkedReaderSchedule).run (RWPQL.solo 2 .Lock 5)).th 2 =
      ⟨.holdW, 2, 0⟩ ∧
    (((RWPQL.Sys.init 1000).run RWPQL.parkedReaderSchedule).run (RWPQL.solo 2 .Lock 5)).th 1 =
      ⟨.rl_nr, 1, 0⟩ ∧
    ((((RWPQL.Sys.init 1000).run RWPQL.parkedReaderSchedule).run
        (RWPQL.solo 2 .Lock 5)).step 1 .RLock).th 1 = ⟨.holdR, 1, 0⟩ ∧
    ((((RWPQL.Sys.init 1000).run RWPQL.parkedReaderSchedule).run
        (RWPQL.solo 2 .Lock 5)).step 1 .RLock).th 2 = ⟨.holdW, 2, 0⟩ ∧
    ((((RWPQL.Sys.init 1000).run RWPQL.parkedReaderSchedule).run
        (RWPQL.solo 2 .Lock 5)).step 1 .RLock).l.lockState = .LOCKED :=
  ⟨⟨1000, RWPQL.parkedReaderSchedule, rfl⟩, by decide, by decide, by decide, rfl,
    by decide, by decide, by decide, by decide, by decide⟩

/-! ## C7: reader pipelining -/

/-- C7 as stated fails for ring sizes that do not fit `uint32`: with
`queue_sz = 2^32` the conversion `uint32(l.queue_sz)` is 0, so the first gate
`ticket - dequeueCount >= 0` of the very first `RLock` on the fresh lock holds
and the call goes to `time.Sleep` (abrwpql.go 44-45). -/
theorem RLock_blocks_on_ring_of_size_2_pow_32 :
    ∃ a, NewABRWPQL 4294967296 1000 = some a ∧
      ABRWPQL.call .RLock 3 a ABRWPQL.idleCaller = .blocked := by
  refine ⟨_, ABRWPQL.NewABRWPQL_eq 4294967296 1000 (by decide), ?_⟩
  simp [ABRWPQL.call, ABRWPQL.tstep, ABRWPQL.entry, ABRWPQL.idleCaller, ABRWPQL.RLock,
    ABRWPQL.PC.sleeping, ABRWPQL.PC.between, ABRWPQL.qsz32]

/-- C7 (amended: ring sizes `1 ≤ queue_sz < 2^32`).  On a freshly constructed
lock of either kind, `N < 2^32` calls of `RLock` made one after another, with
no `RUnlock` in between, all return without waiting; the `k`-th caller (from
0) returns with ticket `k`; afterwards `nReaders = N`, `lockState = RLOCKED`
(for `N ≥ 1`), `dequeueCount = ticket = N`, and in `ABRWPQL` the only ring
flag set is that of slot `N % queue_sz`. -/
theorem readers_pipeline (q N : Nat) (sleep_ns : Int) (hq : 1 ≤ q) (hq32 : q < 4294967296)
    (hN : 1 ≤ N) (hN32 : N < 4294967296) :
    RWPQL.calls .RLock 8 RWPQL.idleCaller N (NewRWPQL sleep_ns) =
      some ({ sleep_ns := sleep_ns, lockState := .RLOCKED, ticket := N, dequeueCount := N,
              nReaders := N, priorityWaiting := 0 },
            (List.range N).map (fun t => { pc := .holdR, ticket := t, pw := 0 })) ∧
    ∃ a, NewABRWPQL q sleep_ns = some a ∧
      ABRWPQL.calls .RLock 11 ABRWPQL.idleCaller N a =
        some ({ arr := ABRWPQL.ring q N, queue_sz := q, sleep_ns := sleep_ns,
                lockState := .RLOCKED, ticket := N, dequeueCount := N, nReaders := N,
                priorityWaiting := 0 },
              (List.range N).map (fun t => { pc := .holdR, ticket := t, pw := 0 })) := by
  have hN0 : ¬ N = 0 := by omega
  constructor
  · obtain ⟨cs, h1, h2⟩ := RWPQL.calls_RLock_fresh sleep_ns N hN32
    rw [h1, h2]; simp [NewRWPQL, hN0]
  · refine ⟨_, ABRWPQL.NewABRWPQL_eq q sleep_ns hq, ?_⟩
    obtain ⟨cs, h1, h2⟩ := ABRWPQL.ab_calls_RLock_fresh q sleep_ns hq hq32 N hN32
    rw [h1, h2]; simp [hN0]

/-- Witness for C7: two readers on fresh locks (ring of 4 slots); both are
active together, `nReaders = 2`. -/
theorem readers_pipeline_witness :
    RWPQL.calls .RLock 8 RWPQL.idleCaller 2 (NewRWPQL 1000) =
      some ({ sleep_ns := 1000, lockState := .RLOCKED, ticket := 2, dequeueCount := 2,
              nReaders := 2, priorityWaiting := 0 },
            (List.range 2).map (fun t => { pc := .holdR, ticket := t, pw := 0 })) ∧
    ∃ a, NewABRWPQL 4 1000 = some a ∧
      ABRWPQL.calls .RLock 11 ABRWPQL.idleCaller 2 a =
        some ({ arr := ABRWPQL.ring 4 2, queue_sz := 4, sleep_ns := 1000,
                lockState := .RLOCKED, ticket := 2, dequeueCount := 2, nReaders := 2,
                priorityWaiting := 0 },
              (List.range 2).map (fun t => { pc := .holdR, ticket := t, pw := 0 })) :=
  readers_pipeline 4 2 1000 (by decide) (by decide) (by decide) (by decide)

/-! ## C8: sequential writers on the bounded lock -/

/-- C8 as stated fails for ring sizes that do not fit `uint32`: with
`queue_sz = 2^32` the first `Lock` on the fresh lock finds
`ticket - dequeueCount >= uint32(queue_sz) = 0` and goes to `time.Sleep`
(abrwpql.go 75-76), so already the first pair does not return without
waiting. -/
theorem Lock_blocks_on_ring_of_size_2_pow_32 :
    ∃ a, NewABRWPQL 4294967296 1000 = some a ∧
      ABRWPQL.call .Lock 3 a ABRWPQL.idleCaller = .blocked ∧
      ABRWPQL.lockUnlockPairs 7 1 a = none := by
  have h : ABRWPQL.call .Lock 3
      { arr := ABRWPQL.ring 4294967296 0, queue_sz := 4294967296, sleep_ns := 1000,
        lockState := .OPEN, ticket := 0, dequeueCount := 0, nReaders := 0,
        priorityWaiting := 0 } ABRWPQL.idleCaller = .blocked := by
    simp [ABRWPQL.call, ABRWPQL.tstep, ABRWPQL.entry, ABRWPQL.idleCaller, ABRWPQL.Lock,
      ABRWPQL.PC.sleeping, ABRWPQL.PC.between, ABRWPQL.qsz32]
  have h7 : ABRWPQL.call .Lock 7
      { arr := ABRWPQL.ring 4294967296 0, queue_sz := 4294967296, sleep_ns := 1000,
        lockState := .OPEN, ticket := 0, dequeueCount := 0, nReaders := 0,
        priorityWaiting := 0 } ABRWPQL.idleCaller = .blocked := by
    simp [ABRWPQL.call, ABRWPQL.tstep, ABRWPQL.entry, ABRWPQL.idleCaller, ABRWPQL.Lock,
      ABRWPQL.PC.sleeping, ABRWPQL.PC.between, ABRWPQL.qsz32]
  refine ⟨_, ABRWPQL.NewABRWPQL_eq 4294967296 1000 (by decide), h, ?_⟩
  simp only [ABRWPQL.lockUnlockPairs, h7]

/-- C8 (amended: ring sizes `1 ≤ q < 2^32`).  On `NewABRWPQL q`, `k < 2^32`
successive pairs `tk := Lock(); Unlock(tk)` all return without waiting, the
tickets returned are `0, 1, ..., k-1` in that order, and after the `k`-th pair
`lockState = OPEN`, `dequeueCount = ticket = k`, `nReaders` and
`priorityWaiting` are still 0 and the ring holds 1 in slot `k % q` and 0 in
every other slot. -/
theorem sequential_writers_in_ticket_order (q k : Nat) (sleep_ns : Int) (hq : 1 ≤ q)
    (hq32 : q < 4294967296) (hk32 : k < 4294967296) :
    ∃ a, NewABRWPQL q sleep_ns = some a ∧
      ABRWPQL.lockUnlockPairs 7 k a =
        some ({ arr := ABRWPQL.ring q k, queue_sz := q, sleep_ns := sleep_ns,
                lockState := .OPEN, ticket := k, dequeueCount := k, nReaders := 0,
                priorityWaiting := 0 },
              List.range k) ∧
      (ABRWPQL.ring q k).length = q ∧
      ∀ j, j < q → (ABRWPQL.ring q k)[j]? = some (if j = k % q then 1 else 0) := by
  refine ⟨_, ABRWPQL.NewABRWPQL_eq q sleep_ns hq,
    ABRWPQL.lockUnlockPairs_fresh q sleep_ns hq hq32 k hk32, ring_length q k, fun j hj => ?_⟩
  rw [ring_getElem? q k j hq]; simp [hj]

/-- Witness for C8: the spec's scenario, ring size 4 and four pairs. -/
theorem sequential_writers_in_ticket_order_witness :
    ∃ a, NewABRWPQL 4 1000 = some a ∧
      ABRWPQL.lockUnlockPairs 7 4 a =
        some ({ arr := ABRWPQL.ring 4 4, queue_sz := 4, sleep_ns := 1000,
                lockState := .OPEN, ticket := 4, dequeueCount := 4, nReaders := 0,
                priorityWaiting := 0 },
              List.range 4) ∧
      (ABRWPQL.ring 4 4).length = 4 ∧
      ∀ j, j < 4 → (ABRWPQL.ring 4 4)[j]? = some (if j = 4 % 4 then 1 else 0) :=
  sequential_writers_in_ticket_order 4 4 1000 (by decide) (by decide) (by decide)

/-! ## C9: `PLock` bypasses the ticket queue -/

namespace RWPQL

theorem call_PLock_free (l : RWPQL) (c : Local)
    (hs : l.lockState = .OPEN ∨ l.lockState = .PRIORITY_LOCK_RESERVED)
    (hp : l.priorityWaiting < 4294967296) (hc : c.pc = .idle) :
    call .PLock 5 l c = .returned { l with lockState := .LOCKED } { c with pc := .holdP } := by
  have h := dec32_inc32 hp
  rcases l with ⟨sl, st, tk, dq, nr, pw⟩
  rcases hs with hs | hs <;> simp at hs h <;> subst hs <;>
    simp [call, tstep, entry, hc, PLock, PC.sleeping, PC.between, h]

theorem call_PUnlock (l : RWPQL) (c : Local) (op : Op) (hc : c.pc = .holdP) :
    call op 2 l c = .returned { l with lockState := .OPEN } { c with pc := .idle } := by
  simp [call, tstep, hc, PUnlock, PC.sleeping, PC.between]

theorem PLock_frame (m : RWPQL) (c : Local) :
    (PLock m c).1.ticket = m.ticket ∧ (PLock m c).1.dequeueCount = m.dequeueCount ∧
    (PLock m c).1.nReaders = m.nReaders ∧ (PLock m c).1.sleep_ns = m.sleep_ns ∧
    (PUnlock m c).1 = (if c.pc = .pu_store then { m with lockState := .OPEN } else m) := by
  rcases c with ⟨pc, tk, pw⟩
  cases pc <;> simp [PLock, PUnlock] <;> split_ifs <;> simp

theorem PLock_reads (m m1 : RWPQL) (c : Local) (h1 : m.lockState = m1.lockState)
    (h2 : m.priorityWaiting = m1.priorityWaiting) :
    (PLock m c).2 = (PLock m1 c).2 ∧
    (PLock m c).1.lockState = (PLock m1 c).1.lockState ∧
    (PLock m c).1.priorityWaiting = (PLock m1 c).1.priorityWaiting ∧
    (PUnlock m c).2 = (PUnlock m1 c).2 ∧
    (PUnlock m c).1.lockState = (PUnlock m1 c).1.lockState := by
  rcases c with ⟨pc, tk, pw⟩
  cases pc <;> simp [PLock, PUnlock, h1, h2] <;> split_ifs <;> simp [h1, h2]

end RWPQL

namespace ABRWPQL

theorem ab_call_PLock_free (l : ABRWPQL) (c : Local)
    (hs : l.lockState = .OPEN ∨ l.lockState = .PRIORITY_LOCK_RESERVED)
    (hp : l.priorityWaiting < 4294967296) (hc : c.pc = .idle) :
    call .PLock 5 l c =
      .returned { l with lockState := .PRIORITY_LOCKED } { c with pc := .holdP } := by
  have h := dec32_inc32 hp
  rcases l with ⟨ar, qs, sl, st, tk, dq, nr, pw⟩
  rcases hs with hs | hs <;> simp at hs h <;> subst hs <;>
    simp [call, tstep, entry, hc, PLock, PC.sleeping, PC.between, h]

theorem ab_call_PUnlock (l : ABRWPQL) (c : Local) (op : Op) (hc : c.pc = .holdP) :
    call op 2 l c = .returned { l with lockState := .OPEN } { c with pc := .idle } := by
  simp [call, tstep, hc, PUnlock, PC.sleeping, PC.between]

theorem ab_PLock_frame (m : ABRWPQL) (c : Local) :
    (PLock m c).1.ticket = m.ticket ∧ (PLock m c).1.dequeueCount = m.dequeueCount ∧
    (PLock m c).1.nReaders = m.nReaders ∧ (PLock m c).1.arr = m.arr ∧
    (PLock m c).1.queue_sz = m.queue_sz ∧ (PLock m c).1.sleep_ns = m.sleep_ns ∧
    (PUnlock m c).1 = (if c.pc = .pu_store then { m with lockState := .OPEN } else m) := by
  rcases c with ⟨pc, tk, pw⟩
  cases pc <;> simp [PLock, PUnlock] <;> split_ifs <;> simp

theorem ab_PLock_reads (m m1 : ABRWPQL) (c : Local) (h1 : m.lockState = m1.lockState)
    (h2 : m.priorityWaiting = m1.priorityWaiting) :
    (PLock m c).2 = (PLock m1 c).2 ∧
    (PLock m c).1.lockState = (PLock m1 c).1.lockState ∧
    (PLock m c).1.priorityWaiting = (PLock m1 c).1.priorityWaiting ∧
    (PUnlock m c).2 = (PUnlock m1 c).2 ∧
    (PUnlock m c).1.lockState = (PUnlock m1 c).1.lockState := by
  rcases c with ⟨pc, tk, pw⟩
  cases pc <;> simp [PLock, PUnlock, h1, h2] <;> split_ifs <;> simp [h1, h2]

end ABRWPQL

/-- C9. In both locks `PLock` and `PUnlock` leave the ticket counter,
`dequeueCount`, `nReaders` (and the ring) untouched at every step, and what a
step of them does depends on `lockState` and `priorityWaiting` only.  Run with
no other caller taking steps from any state with `lockState` `OPEN` or
`PRIORITY_LOCK_RESERVED` (and `priorityWaiting` a `uint32`), `PLock` returns
without waiting whatever the ticket counter and `dequeueCount` are, leaves
`priorityWaiting` at its previous value, sets `lockState` to `LOCKED`
(`RWPQL`) resp. `PRIORITY_LOCKED` (`ABRWPQL`) and changes nothing else;
`PUnlock` only stores `OPEN`.  When a writer's `Unlock` stores `OPEN` while a
`PLock` caller is polling, that caller's next `CAS` succeeds and it returns,
with `dequeueCount` and the ticket counter unchanged. -/
theorem PLock_bypasses_queue (l : RWPQL) (a : ABRWPQL) (c : RWPQL.Local) (d : ABRWPQL.Local)
    (hl : l.lockState = .OPEN ∨ l.lockState = .PRIORITY_LOCK_RESERVED)
    (ha : a.lockState = .OPEN ∨ a.lockState = .PRIORITY_LOCK_RESERVED)
    (hlp : l.priorityWaiting < 4294967296) (hap : a.priorityWaiting < 4294967296)
    (hc : c.pc = .idle) (hd : d.pc = .idle) :
    RWPQL.call .PLock 5 l c = .returned { l with lockState := .LOCKED } { c with pc := .holdP } ∧
    ABRWPQL.call .PLock 5 a d =
      .returned { a with lockState := .PRIORITY_LOCKED } { d with pc := .holdP } ∧
    (∀ (m : RWPQL) (e : RWPQL.Local) (op : Op), e.pc = .holdP →
      RWPQL.call op 2 m e = .returned { m with lockState := .OPEN } { e with pc := .idle }) ∧
    (∀ (m : ABRWPQL) (e : ABRWPQL.Local) (op : Op), e.pc = .holdP →
      ABRWPQL.call op 2 m e = .returned { m with lockState := .OPEN } { e with pc := .idle }) ∧
    (∀ (m : RWPQL) (e : RWPQL.Local),
      (RWPQL.PLock m e).1.ticket = m.ticket ∧
      (RWPQL.PLock m e).1.dequeueCount = m.dequeueCount ∧
      (RWPQL.PLock m e).1.nReaders = m.nReaders ∧
      (RWPQL.PLock m e).1.sleep_ns = m.sleep_ns ∧
      (RWPQL.PUnlock m e).1 = (if e.pc = .pu_store then { m with lockState := .OPEN } else m)) ∧
    (∀ (m : ABRWPQL) (e : ABRWPQL.Local),
      (ABRWPQL.PLock m e).1.ticket = m.ticket ∧
      (ABRWPQL.PLock m e).1.dequeueCount = m.dequeueCount ∧
      (ABRWPQL.PLock m e).1.nReaders = m.nReaders ∧
      (ABRWPQL.PLock m e).1.arr = m.arr ∧
      (ABRWPQL.PLock m e).1.queue_sz = m.queue_sz ∧
      (ABRWPQL.PLock m e).1.sleep_ns = m.sleep_ns ∧
      (ABRWPQL.PUnlock m e).1 =
        (if e.pc = .pu_store then { m with lockState := .OPEN } else m)) ∧
    (∀ (m m1 : RWPQL) (e : RWPQL.Local), m.lockState = m1.lockState →
      m.priorityWaiting = m1.priorityWaiting →
      (RWPQL.PLock m e).2 = (RWPQL.PLock m1 e).2 ∧
      (RWPQL.PLock m e).1.lockState = (RWPQL.PLock m1 e).1.lockState ∧
      (RWPQL.PLock m e).1.priorityWaiting = (RWPQL.PLock m1 e).1.priorityWaiting ∧
      (RWPQL.PUnlock m e).2 = (RWPQL.PUnlock m1 e).2 ∧
      (RWPQL.PUnlock m e).1.lockState = (RWPQL.PUnlock m1 e).1.lockState) ∧
    (∀ (m m1 : ABRWPQL) (e : ABRWPQL.Local), m.lockState = m1.lockState →
      m.priorityWaiting = m1.priorityWaiting →
      (ABRWPQL.PLock m e).2 = (ABRWPQL.PLock m1 e).2 ∧
      (ABRWPQL.PLock m e).1.lockState = (ABRWPQL.PLock m1 e).1.lockState ∧
      (ABRWPQL.PLock m e).1.priorityWaiting = (ABRWPQL.PLock m1 e).1.priorityWaiting ∧
      (ABRWPQL.PUnlock m e).2 = (ABRWPQL.PUnlock m1 e).2 ∧
      (ABRWPQL.PUnlock m e).1.lockState = (ABRWPQL.PUnlock m1 e).1.lockState) ∧
    (∀ (s : RWPQL.Sys) (w p : Nat) (op : Op), w ≠ p → (s.th w).pc = .ul_store →
      (s.th p).pc = .pl_cas1 →
      ((s.run [(w, op), (p, op), (p, op)]).th p).pc = .holdP ∧
      (s.run [(w, op), (p, op), (p, op)]).l.lockState = .LOCKED ∧
      (s.run [(w, op), (p, op), (p, op)]).l.dequeueCount = s.l.dequeueCount ∧
      (s.run [(w, op), (p, op), (p, op)]).l.ticket = s.l.ticket ∧
      (s.run [(w, op), (p, op), (p, op)]).admitted = s.admitted) ∧
    (∀ (s : ABRWPQL.Sys) (w p : Nat) (op : Op), w ≠ p → (s.th w).pc = .ul_store →
      (s.th p).pc = .pl_cas1 →
      ((s.run [(w, op), (p, op), (p, op)]).th p).pc = .holdP ∧
      (s.run [(w, op), (p, op), (p, op)]).l.lockState = .PRIORITY_LOCKED ∧
      (s.run [(w, op), (p, op), (p, op)]).l.dequeueCount = s.l.dequeueCount ∧
      (s.run [(w, op), (p, op), (p, op)]).l.ticket = s.l.ticket ∧
      (s.run [(w, op), (p, op), (p, op)]).l.arr = s.l.arr) := by
  refine ⟨RWPQL.call_PLock_free l c hl hlp hc, ABRWPQL.ab_call_PLock_free a d ha hap hd,
    fun m e op h => RWPQL.call_PUnlock m e op h, fun m e op h => ABRWPQL.ab_call_PUnlock m e op h,
    RWPQL.PLock_frame, ABRWPQL.ab_PLock_frame, RWPQL.PLock_reads, ABRWPQL.ab_PLock_reads, ?_, ?_⟩
  · intro s w p op hwp hw hp
    have hpw : p ≠ w := Ne.symm hwp
    simp [RWPQL.Sys.run, RWPQL.Sys.step, RWPQL.tstep, RWPQL.Unlock, RWPQL.PLock, hw, hp,
      Function.update_noteq hpw]
  · intro s w p op hwp hw hp
    have hpw : p ≠ w := Ne.symm hwp
    simp [ABRWPQL.Sys.run, ABRWPQL.Sys.step, ABRWPQL.tstep, ABRWPQL.Unlock, ABRWPQL.PLock, hw,
      hp, Function.update_noteq hpw]

/-- Witness for C9: a lock with three tickets outstanding. -/
theorem PLock_bypasses_queue_witness :
    RWPQL.call .PLock 5 ⟨1000, .OPEN, 7, 4, 0, 0⟩ RWPQL.idleCaller =
      .returned ⟨1000, .LOCKED, 7, 4, 0, 0⟩ ⟨.holdP, 0, 0⟩ ∧
    ABRWPQL.call .PLock 5 ⟨[1, 0, 0, 0], 4, 1000, .PRIORITY_LOCK_RESERVED, 7, 4, 0, 0⟩
        ABRWPQL.idleCaller =
      .returned ⟨[1, 0, 0, 0], 4, 1000, .PRIORITY_LOCKED, 7, 4, 0, 0⟩ ⟨.holdP, 0, 0⟩ :=
  ⟨(PLock_bypasses_queue ⟨1000, .OPEN, 7, 4, 0, 0⟩
      ⟨[1, 0, 0, 0], 4, 1000, .PRIORITY_LOCK_RESERVED, 7, 4, 0, 0⟩ RWPQL.idleCaller
      ABRWPQL.idleCaller (Or.inl rfl) (Or.inr rfl) (by decide) (by decide) rfl rfl).1,
   (PLock_bypasses_queue ⟨1000, .OPEN, 7, 4, 0, 0⟩
      ⟨[1, 0, 0, 0], 4, 1000, .PRIORITY_LOCK_RESERVED, 7, 4, 0, 0⟩ RWPQL.idleCaller
      ABRWPQL.idleCaller (Or.inl rfl) (Or.inr rfl) (by decide) (by decide) rfl rfl).2.1⟩

/-! ## C10: priority bypass is reachable -/

/-- C10. In both locks there is an execution from the fresh lock in which a
`Lock` caller (caller 0) draws ticket 0, passes admission and performs its
`CAS` `OPEN -> LOCKED`, a `PLock` caller (caller 1) then increments
`priorityWaiting`, caller 0 loads `priorityWaiting = 1 > 0` and stores
`PRIORITY_LOCK_RESERVED` instead of returning, and caller 1 returns from
`PLock` while caller 0 is still inside `Lock`; caller 0 returns only later,
after caller 1's `PUnlock`.  And in every reachable state a caller that has
returned from `RLock` or `Lock` (or is past the priority check of `RLock`) has
0 as the value its last load of `priorityWaiting` yielded. -/
theorem priority_bypass_reachable :
    (((RWPQL.Sys.init 1000).run RWPQL.bypassA).th 0 = ⟨.lk_pw, 0, 0⟩ ∧
      ((RWPQL.Sys.init 1000).run RWPQL.bypassA).l = ⟨1000, .LOCKED, 1, 0, 0, 1⟩ ∧
      ((RWPQL.Sys.init 1000).run RWPQL.bypassA).admitted = [0] ∧
      ((RWPQL.Sys.init 1000).run RWPQL.bypassB).th 0 = ⟨.lk_yield, 0, 1⟩ ∧
      ((RWPQL.Sys.init 1000).run RWPQL.bypassC).l = ⟨1000, .PRIORITY_LOCK_RESERVED, 1, 0, 0, 1⟩ ∧
      ((RWPQL.Sys.init 1000).run RWPQL.bypassD).th 1 = ⟨.holdP, 0, 0⟩ ∧
      ((RWPQL.Sys.init 1000).run RWPQL.bypassD).th 0 = ⟨.lk_adm, 0, 1⟩ ∧
      ((RWPQL.Sys.init 1000).run RWPQL.bypassD).l = ⟨1000, .LOCKED, 1, 0, 0, 0⟩ ∧
      ((RWPQL.Sys.init 1000).run RWPQL.bypassE).th 0 = ⟨.holdW, 0, 0⟩ ∧
      ((RWPQL.Sys.init 1000).run RWPQL.bypassE).th 1 = ⟨.idle, 0, 0⟩) ∧
    (NewABRWPQL 4 1000 = some ABRWPQL.fresh4 ∧
      ((ABRWPQL.Sys.ofLock ABRWPQL.fresh4).run ABRWPQL.bypassA).th 0 = ⟨.lk_pw, 0, 0⟩ ∧
      ((ABRWPQL.Sys.ofLock ABRWPQL.fresh4).run ABRWPQL.bypassA).l =
        ⟨[1, 0, 0, 0], 4, 1000, .LOCKED, 1, 0, 0, 1⟩ ∧
      ((ABRWPQL.Sys.ofLock ABRWPQL.fresh4).run ABRWPQL.bypassB).th 0 = ⟨.lk_y_store, 0, 1⟩ ∧
      ((ABRWPQL.Sys.ofLock ABRWPQL.fresh4).run ABRWPQL.bypassC).l =
        ⟨[1, 0, 0, 0], 4, 1000, .PRIORITY_LOCK_RESERVED, 1, 0, 0, 1⟩ ∧
      ((ABRWPQL.Sys.ofLock ABRWPQL.fresh4).run ABRWPQL.bypassD).th 1 = ⟨.holdP, 0, 0⟩ ∧
      ((ABRWPQL.Sys.ofLock ABRWPQL.fresh4).run ABRWPQL.bypassD).th 0 = ⟨.lk_y_load, 0, 1⟩ ∧
      ((ABRWPQL.Sys.ofLock ABRWPQL.fresh4).run ABRWPQL.bypassD).l =
        ⟨[1, 0, 0, 0], 4, 1000, .PRIORITY_LOCKED, 1, 0, 0, 0⟩ ∧
      ((ABRWPQL.Sys.ofLock ABRWPQL.fresh4).run ABRWPQL.bypassE).th 0 = ⟨.holdW, 0, 0⟩ ∧
      ((ABRWPQL.Sys.ofLock ABRWPQL.fresh4).run ABRWPQL.bypassE).th 1 = ⟨.idle, 0, 0⟩) ∧
    (∀ s : RWPQL.Sys, RWPQL.Reachable s → ∀ i,
      ((s.th i).pc = .holdR ∨ (s.th i).pc = .holdW ∨ (s.th i).pc = .rl_dq ∨
        (s.th i).pc = .rl_nr) → (s.th i).pw = 0) ∧
    (∀ (q : Nat) (s : ABRWPQL.Sys), ABRWPQL.Reachable q s → ∀ i,
      ((s.th i).pc = .holdR ∨ (s.th i).pc = .holdW ∨ (s.th i).pc = .rl_nr ∨
        (s.th i).pc = .rl_clear ∨ (s.th i).pc = .rl_set ∨ (s.th i).pc = .rl_dq) →
      (s.th i).pw = 0) := by
  refine ⟨by decide, by decide, ?_, ?_⟩
  · intro s hs
    have h := RWPQL.reachable_invariant (fun s => ∀ i, (s.th i).pwChecked)
      (fun _ i => by intro _; rfl)
      (fun s i op h j => by
        by_cases hj : j = i
        · subst hj; simpa [RWPQL.Sys.step] using RWPQL.tstep_pwChecked op s.l (s.th j) (h j)
        · simpa [RWPQL.Sys.step, Function.update_noteq hj] using h j) s hs
    intro i hi
    exact h i (by tauto)
  · intro q s hs
    obtain ⟨sl, l, sched, _, rfl⟩ := hs
    have h := ABRWPQL.ab_run_invariant (fun s => ∀ i, (s.th i).pwChecked)
      (fun s i op h j => by
        by_cases hj : j = i
        · subst hj
          simpa [ABRWPQL.Sys.step] using ABRWPQL.ab_tstep_pwChecked op s.l (s.th j) (h j)
        · simpa [ABRWPQL.Sys.step, Function.update_noteq hj] using h j) sched
      (ABRWPQL.Sys.ofLock l) (fun i => by intro _; rfl)
    intro i hi
    exact h i (by tauto)

/-! ## C11: `OrderedLogger.Flush` -/

/-- C11 fails on the code.  `Flush` sorts the buffer inside the loop, after
`range` has already copied the element to print: the first line printed is the
first line of the unsorted buffer.  For the buffer `[(2, "b"), (1, "a")]` it
prints `"b", "b"`; the lines in timestamp order are `"a", "b"`. -/
theorem Flush_prints_unsorted_head :
    (Flush [⟨2, "b"⟩, ⟨1, "a"⟩]).2 = ["b", "b"] ∧
    (sortLineBuffer [⟨2, "b"⟩, ⟨1, "a"⟩]).map LogLine.s = ["a", "b"] ∧
    (Flush [⟨2, "b"⟩, ⟨1, "a"⟩]).2 ≠ (sortLineBuffer [⟨2, "b"⟩, ⟨1, "a"⟩]).map LogLine.s := by
  refine ⟨by decide, by decide, by decide⟩

/-! ## C13: the reserved state -/

namespace RWPQL

theorem run_th_of_not_mem (i : Nat) (sched : List (Nat × Op)) :
    ∀ s : Sys, (∀ a ∈ sched, a.1 ≠ i) → (s.run sched).th i = s.th i := by
  induction sched with
  | nil => intro s _; rfl
  | cons a rest ih =>
    intro s h
    rw [run_cons, ih _ (fun b hb => h b (List.mem_cons_of_mem _ hb))]
    have : i ≠ a.1 := fun e => h a (List.mem_cons_self _ _) e.symm
    simp [Sys.step, Function.update_noteq this]

end RWPQL

namespace ABRWPQL

theorem ab_run_th_of_not_mem (i : Nat) (sched : List (Nat × Op)) :
    ∀ s : Sys, (∀ a ∈ sched, a.1 ≠ i) → (s.run sched).th i = s.th i := by
  induction sched with
  | nil => intro s _; rfl
  | cons a rest ih =>
    intro s h
    rw [ab_run_cons, ih _ (fun b hb => h b (List.mem_cons_of_mem _ hb))]
    have : i ≠ a.1 := fun e => h a (List.mem_cons_self _ _) e.symm
    simp [Sys.step, Function.update_noteq this]

end ABRWPQL

/-- C13 fails on the code.  In both locks the state `lockState =
PRIORITY_LOCK_RESERVED`, `priorityWaiting = 0`, with no caller between a
`PLock`'s successful `CAS` and its `PUnlock` store, is reachable
(`wedgeSchedule`): a reader admitted next to an active reader loads
`priorityWaiting = 1`, the active reader's `RUnlock` stores `OPEN`, the
priority caller acquires through `OPEN`, returns and releases, and only then
the yielding reader executes its unconditional store.  Every caller is then
holding nothing or inside the yielding `RLock`. -/
theorem reserved_state_can_be_orphaned :
    (RWPQL.Reachable ((RWPQL.Sys.init 1000).run RWPQL.wedgeSchedule) ∧
      ((RWPQL.Sys.init 1000).run RWPQL.wedgeSchedule).l =
        ⟨1000, .PRIORITY_LOCK_RESERVED, 2, 1, 0, 0⟩ ∧
      ((RWPQL.Sys.init 1000).run RWPQL.wedgeSchedule).th 1 = ⟨.rl_adm, 1, 1⟩ ∧
      ∀ i, ¬ (((RWPQL.Sys.init 1000).run RWPQL.wedgeSchedule).th i).inPriority) ∧
    (ABRWPQL.Reachable 4 ((ABRWPQL.Sys.ofLock ABRWPQL.fresh4).run ABRWPQL.wedgeSchedule) ∧
      ((ABRWPQL.Sys.ofLock ABRWPQL.fresh4).run ABRWPQL.wedgeSchedule).l =
        ⟨[0, 1, 0, 0], 4, 1000, .PRIORITY_LOCK_RESERVED, 2, 1, 0, 0⟩ ∧
      ((ABRWPQL.Sys.ofLock ABRWPQL.fresh4).run ABRWPQL.wedgeSchedule).th 1 =
        ⟨.rl_y_load, 1, 1⟩ ∧
      ∀ i, ¬ (((ABRWPQL.Sys.ofLock ABRWPQL.fresh4).run ABRWPQL.wedgeSchedule).th i).inPriority) := by
  have r0 : ((RWPQL.Sys.init 1000).run RWPQL.wedgeSchedule).th 0 = ⟨.idle, 0, 0⟩ := by decide
  have r1 : ((RWPQL.Sys.init 1000).run RWPQL.wedgeSchedule).th 1 = ⟨.rl_adm, 1, 1⟩ := by decide
  have r2 : ((RWPQL.Sys.init 1000).run RWPQL.wedgeSchedule).th 2 = ⟨.idle, 0, 0⟩ := by decide
  have a0 : ((ABRWPQL.Sys.ofLock ABRWPQL.fresh4).run ABRWPQL.wedgeSchedule).th 0 =
      ⟨.idle, 0, 0⟩ := by decide
  have a1 : ((ABRWPQL.Sys.ofLock ABRWPQL.fresh4).run ABRWPQL.wedgeSchedule).th 1 =
      ⟨.rl_y_load, 1, 1⟩ := by decide
  have a2 : ((ABRWPQL.Sys.ofLock ABRWPQL.fresh4).run ABRWPQL.wedgeSchedule).th 2 =
      ⟨.idle, 0, 0⟩ := by decide
  refine ⟨⟨⟨1000, RWPQL.wedgeSchedule, rfl⟩, by decide, r1, fun i => ?_⟩,
    ⟨⟨1000, ABRWPQL.fresh4, ABRWPQL.wedgeSchedule, by decide, rfl⟩, by decide, a1, fun i => ?_⟩⟩
  · by_cases h0 : i = 0
    · subst h0; rw [r0]; simp [RWPQL.Local.inPriority]
    by_cases h1 : i = 1
    · subst h1; rw [r1]; simp [RWPQL.Local.inPriority]
    by_cases h2 : i = 2
    · subst h2; rw [r2]; simp [RWPQL.Local.inPriority]
    rw [RWPQL.run_th_of_not_mem i]
    · simp [RWPQL.Sys.init, RWPQL.Local.inPriority]
    · intro a ha
      simp only [RWPQL.wedgeSchedule, RWPQL.solo, List.mem_append, List.mem_replicate] at ha
      intro e
      rcases ha with ((((((h | h) | h) | h) | h) | h) | h) <;> (rw [h.2] at e; simp at e; omega)
  · by_cases h0 : i = 0
    · subst h0; rw [a0]; simp [ABRWPQL.Local.inPriority]
    by_cases h1 : i = 1
    · subst h1; rw [a1]; simp [ABRWPQL.Local.inPriority]
    by_cases h2 : i = 2
    · subst h2; rw [a2]; simp [ABRWPQL.Local.inPriority]
    rw [ABRWPQL.ab_run_th_of_not_mem i]
    · simp [ABRWPQL.Sys.ofLock, ABRWPQL.Local.inPriority]
    · intro a ha
      simp only [ABRWPQL.wedgeSchedule, ABRWPQL.solo, List.mem_append, List.mem_replicate] at ha
      intro e
      rcases ha with ((((((h | h) | h) | h) | h) | h) | h) <;> (rw [h.2] at e; simp at e; omega)

/-! ## C14: no ring access panics -/

namespace ABRWPQL

theorem tstep_safe (op : Op) (l : ABRWPQL) (c : Local) (hl : l.arr.length = l.queue_sz)
    (hq : 0 < l.queue_sz) (hc : c.safe l) :
    (tstep op l c).1.queue_sz = l.queue_sz ∧
    (tstep op l c).1.arr.length = l.queue_sz ∧
    (tstep op l c).2.safe (tstep op l c).1 := by
  rcases c with ⟨pc, tk, pw⟩
  obtain ⟨hp, hg⟩ := hc
  have hw0 := writeSlot_eq l tk 0 hl hq
  have hw1 := writeSlot_eq l (inc32 tk) 1 hl hq
  cases pc <;> simp at hp hg <;>
    simp [tstep, RLock, Lock, PLock, RUnlock, Unlock, PUnlock, yieldToPriorityLock,
      Local.safe, hl, hw0, hw1, qsz32] <;>
    (try cases op) <;> (try simp [entry]) <;> (try split_ifs) <;>
    (try simp_all [qsz32]) <;> (try omega)
  all_goals
    obtain ⟨v, hv⟩ := readSlot_isSome l tk hl (by simpa [qsz32] using hg)
    simp [hv]
    split_ifs <;> simp_all [qsz32]

end ABRWPQL

namespace ABRWPQL

theorem step_safe (q : Nat) (hq : 0 < q) (s : Sys) (i : Nat) (op : Op) (h : s.safe q) :
    (s.step i op).safe q := by
  obtain ⟨h1, h2, h3⟩ := h
  obtain ⟨e1, e2, e3⟩ := tstep_safe op s.l (s.th i) (by rw [h2, h1]) (by rw [h1]; exact hq) (h3 i)
  refine ⟨by simpa [Sys.step, h1] using e1, by simpa [Sys.step, h1] using e2, fun j => ?_⟩
  by_cases hj : j = i
  · subst hj; simpa [Sys.step] using e3
  · have := h3 j
    simp only [Sys.step, Function.update_noteq hj]
    refine ⟨this.1, fun hg => ?_⟩
    have := this.2 hg
    simpa [qsz32, e1] using this

theorem reachable_safe (q : Nat) (hq : 0 < q) (s : Sys) (h : Reachable q s) : s.safe q := by
  obtain ⟨sl, l, sched, hl, rfl⟩ := h
  rw [NewABRWPQL_eq q sl hq] at hl
  cases hl
  refine ab_run_invariant (Sys.safe q) (step_safe q hq) sched _ ⟨rfl, ring_length q 0, fun i => ?_⟩
  simp [Sys.ofLock, Local.safe]

end ABRWPQL

/-- C14 as stated fails for `queue_sz = 2^32`: there `uint32(l.queue_sz)` is
0, so the index `ticket % uint32(l.queue_sz)` of the second gate is a division
by zero, not an index in `[0, queue_sz)`. -/
theorem gate_index_undefined_for_ring_of_size_2_pow_32 :
    ∃ a, NewABRWPQL 4294967296 1000 = some a ∧ a.qsz32 = 0 ∧ a.readSlot 0 = none := by
  refine ⟨_, ABRWPQL.NewABRWPQL_eq 4294967296 1000 (by decide), ?_, ?_⟩ <;>
    simp [ABRWPQL.qsz32, ABRWPQL.readSlot]

/-- C14 (amended).  For every `queue_sz ≥ 1`, `NewABRWPQL` returns a lock whose
ring has `queue_sz` slots, slot 0 holding 1 and every other slot 0.  For every
ticket the indices `int(ticket) % queue_sz` and `int(ticket+1) % queue_sz`
(`ticket+1` with `uint32` wrap-around) lie in `[0, queue_sz)`, and so does
`ticket % uint32(queue_sz)` whenever `uint32(queue_sz) ≠ 0`.  In every state
reachable from `NewABRWPQL queue_sz` no caller has panicked (no index out of
range, no division by zero); when `uint32(queue_sz) = 0` no caller ever
reaches the slot read of the second gate. -/
theorem no_ring_access_panics (q : Nat) (sleep_ns : Int) (hq : 1 ≤ q) :
    (∃ a, NewABRWPQL q sleep_ns = some a ∧ a.queue_sz = q ∧ a.arr.length = q ∧
      a.arr[0]? = some 1 ∧ ∀ j, 0 < j → j < q → a.arr[j]? = some 0) ∧
    (∀ ticket : Nat, ticket % q < q ∧ inc32 ticket % q < q ∧
      (q % 4294967296 ≠ 0 → ticket % (q % 4294967296) < q)) ∧
    (∀ s, ABRWPQL.Reachable q s → ∀ i, (s.th i).pc ≠ .panicked) ∧
    (q % 4294967296 = 0 → ∀ s, ABRWPQL.Reachable q s → ∀ i,
      (s.th i).pc ≠ .rl_gate2 ∧ (s.th i).pc ≠ .lk_gate2) := by
  refine ⟨⟨_, ABRWPQL.NewABRWPQL_eq q sleep_ns hq, rfl, ring_length q 0, ?_, ?_⟩, ?_, ?_, ?_⟩
  · rw [ring_getElem? q 0 0 hq]; simp; omega
  · intro j hj0 hjq
    rw [ring_getElem? q 0 j hq]
    have : ¬ j = 0 := by omega
    simp [hjq, this]
  · intro ticket
    refine ⟨Nat.mod_lt _ hq, Nat.mod_lt _ hq, fun h => ?_⟩
    have h1 : ticket % (q % 4294967296) < q % 4294967296 := Nat.mod_lt _ (Nat.pos_of_ne_zero h)
    have h2 : q % 4294967296 ≤ q := Nat.mod_le _ _
    omega
  · intro s hs i
    exact ((ABRWPQL.reachable_safe q hq s hs).2.2 i).1
  · intro h0 s hs i
    obtain ⟨h1, _, h3⟩ := ABRWPQL.reachable_safe q hq s hs
    have hz : s.l.qsz32 = 0 := by simp [ABRWPQL.qsz32, h1, h0]
    exact ⟨fun h => (h3 i).2 (Or.inl h) hz, fun h => (h3 i).2 (Or.inr (Or.inr (Or.inl h))) hz⟩

/-- Witness for C14: the ring of 4 slots. -/
theorem no_ring_access_panics_witness :
    ∃ a, NewABRWPQL 4 1000 = some a ∧ a.queue_sz = 4 ∧ a.arr.length = 4 ∧
      a.arr[0]? = some 1 ∧ ∀ j, 0 < j → j < 4 → a.arr[j]? = some 0 :=
  (no_ring_access_panics 4 1000 (by decide)).1

/-! ## C16: tickets of one admission window -/

/-- C16 as stated fails across the wrap-around of the ticket counter when the
ring size does not divide `2^32`: for `q = 3` the tickets `t = 2^32 - 1` and
`t' = 0` satisfy `0 < (t' - t) mod 2^32 = 1 < q`, yet both use slot 0 (the ring
with the flag of ticket `2^32 - 1` set is the ring with the flag of ticket 0
set). -/
theorem slots_collide_across_wraparound :
    0 < sub32 0 4294967295 ∧ sub32 0 4294967295 < 3 ∧ 4294967295 % 3 = 0 % 3 ∧
    ABRWPQL.ring 3 4294967295 = ABRWPQL.ring 3 0 := by
  decide

/-- C16 (amended).  For every ring size `q ≥ 1` and all `uint32` tickets `t`,
`t'` with `0 < (t' - t) mod 2^32 < q`, the slots `t mod q` and `t' mod q` are
different, and so are the rings in which only the flag of `t` resp. `t'` is
set, provided the window does not cross the wrap-around of the ticket counter
(`t < t'`) or `q` divides `2^32`. -/
theorem window_slots_distinct (q t t' : Nat) (hq : 1 ≤ q) (ht : t < 4294967296)
    (ht' : t' < 4294967296) (h0 : 0 < sub32 t' t) (hw : sub32 t' t < q)
    (hnw : t < t' ∨ 4294967296 % q = 0) :
    t % q ≠ t' % q ∧ ABRWPQL.ring q t ≠ ABRWPQL.ring q t' := by
  have key : t % q ≠ t' % q := by
    intro he
    have e1 : t % 4294967296 = t := Nat.mod_eq_of_lt ht
    have e2 : t' % 4294967296 = t' := Nat.mod_eq_of_lt ht'
    unfold sub32 at h0 hw
    rw [e1, e2] at h0 hw
    by_cases hlt : t ≤ t'
    · rw [if_pos hlt] at h0 hw
      have hd : q ∣ t' - t := Nat.dvd_of_mod_eq_zero (Nat.sub_mod_eq_zero_of_mod_eq he.symm)
      have := Nat.le_of_dvd h0 hd
      omega
    · rw [if_neg hlt] at h0 hw
      have hq2 : 4294967296 % q = 0 := by
        rcases hnw with h | h
        · omega
        · exact h
      have hd1 : q ∣ t - t' := Nat.dvd_of_mod_eq_zero (Nat.sub_mod_eq_zero_of_mod_eq he)
      have hd2 : q ∣ 4294967296 := Nat.dvd_of_mod_eq_zero hq2
      have hd : q ∣ 4294967296 - (t - t') := Nat.dvd_sub' hd2 hd1
      have := Nat.le_of_dvd h0 hd
      omega
  refine ⟨key, fun he => key ?_⟩
  have h1 := ring_getElem? q t (t % q) hq
  rw [he, ring_getElem? q t' (t % q) hq] at h1
  have hlt : t % q < q := Nat.mod_lt _ hq
  simp [hlt] at h1
  exact h1

/-- Witness for C16: ring size 4, tickets 5 and 7. -/
theorem window_slots_distinct_witness :
    5 % 4 ≠ 7 % 4 ∧ ABRWPQL.ring 4 5 ≠ ABRWPQL.ring 4 7 :=
  window_slots_distinct 4 5 7 (by decide) (by decide) (by decide) (by decide) (by decide)
    (Or.inl (by decide))

/-! ## C3: ticket order in the unbounded lock -/

namespace RWPQL

theorem pastAdmission_hasTicket (pc : PC) (h : pc.pastAdmission = true) :
    pc.hasTicket = true := by
  cases pc <;> simp [PC.pastAdmission] at h <;> rfl

/-- A step that leaves the counters and the log alone, and gives the stepping
caller no new ticket and no new admission, keeps the invariant. -/
theorem inv_frame (s s1 : Sys) (i : Nat) (h : s.Inv)
    (hd : s1.l.dequeueCount = s.l.dequeueCount) (ht : s1.l.ticket = s.l.ticket)
    (hdr : s1.drawn = s.drawn) (had : s1.admitted = s.admitted)
    (hth : ∀ j, j ≠ i → s1.th j = s.th j)
    (h1 : (s1.th i).pc.hasTicket = true →
      (s.th i).pc.hasTicket = true ∧ (s1.th i).ticket = (s.th i).ticket)
    (h2 : (s1.th i).pc.pastAdmission = true → (s.th i).pc.pastAdmission = true) :
    s1.Inv := by
  obtain ⟨hE, hD, hA, hB, hC, hL1, hL3, hP⟩ := h
  have key : ∀ j, (s1.th j).pc.hasTicket = true →
      (s.th j).pc.hasTicket = true ∧ (s1.th j).ticket = (s.th j).ticket := by
    intro j hj
    by_cases e : j = i
    · subst e; exact h1 hj
    · rw [hth j e] at hj ⊢; exact ⟨hj, rfl⟩
  have key2 : ∀ j, (s1.th j).pc.pastAdmission = true → (s.th j).pc.pastAdmission = true := by
    intro j hj
    by_cases e : j = i
    · subst e; exact h2 hj
    · rw [hth j e] at hj; exact hj
  refine ⟨by rw [ht, hdr, hE], by rw [hd, hdr]; exact hD, ?_, ?_, ?_, ?_, ?_, by rw [had]; exact hP⟩
  · intro j hj
    obtain ⟨a, b⟩ := key j hj
    rw [hd, hdr, b]; exact hA j a
  · intro j k hj hk e
    obtain ⟨a, b⟩ := key j hj
    obtain ⟨c, d⟩ := key k hk
    exact hB j k a c (by rw [← b, ← d, e])
  · intro j hj
    obtain ⟨a, b⟩ := key j (pastAdmission_hasTicket _ hj)
    rw [hd, had, b]; exact hC j (key2 j hj)
  · intro t h; rw [hd] at h; rw [had]; exact hL1 t h
  · intro t h; rw [had] at h; rw [hd, hdr]; exact hL3 t h

end RWPQL

namespace RWPQL

theorem inv_draw (s s1 : Sys) (i : Nat) (h : s.Inv) (h32 : s.drawn + 1 < 4294967296)
    (hd : s1.l.dequeueCount = s.l.dequeueCount) (ht : s1.l.ticket = inc32 s.l.ticket)
    (hdr : s1.drawn = s.drawn + 1) (had : s1.admitted = s.admitted)
    (hth : ∀ j, j ≠ i → s1.th j = s.th j)
    (h0 : (s.th i).pc.hasTicket = false)
    (h1 : (s1.th i).ticket = dec32 (inc32 s.l.ticket))
    (h2 : (s1.th i).pc.pastAdmission = false) :
    s1.Inv := by
  obtain ⟨hE, hD, hA, hB, hC, hL1, hL3, hP⟩ := h
  have e1 : inc32 s.l.ticket = s.drawn + 1 := by rw [hE]; exact inc32_of_lt h32
  have e2 : (s1.th i).ticket = s.drawn := by
    rw [h1, hE]; exact dec32_inc32 (by omega)
  refine ⟨by rw [ht, hdr, e1], by rw [hd, hdr]; omega, ?_, ?_, ?_, ?_, ?_, by rw [had]; exact hP⟩
  · intro j hj
    by_cases e : j = i
    · subst e; rw [e2, hd, hdr]; omega
    · rw [hth j e] at hj ⊢; have := hA j hj; rw [hd, hdr]; omega
  · intro j k hj hk e
    by_cases ej : j = i
    · by_cases ek : k = i
      · rw [ej, ek]
      · exfalso
        rw [hth k ek] at hk e
        have := hA k hk
        rw [ej, e2] at e; omega
    · by_cases ek : k = i
      · exfalso
        rw [hth j ej] at hj e
        have := hA j hj
        rw [ek, e2] at e; omega
      · rw [hth j ej] at hj e; rw [hth k ek] at hk e
        exact hB j k hj hk e
  · intro j hj
    by_cases e : j = i
    · subst e; rw [h2] at hj; exact absurd hj (by simp)
    · rw [hth j e] at hj ⊢; rw [hd, had]; exact hC j hj
  · intro t h; rw [hd] at h; rw [had]; exact hL1 t h
  · intro t h; rw [had] at h; rw [hd, hdr]; have := hL3 t h; omega

theorem inv_pass (s s1 : Sys) (i : Nat) (h : s.Inv)
    (hd : s1.l.dequeueCount = s.l.dequeueCount) (ht : s1.l.ticket = s.l.ticket)
    (hdr : s1.drawn = s.drawn) (had : s1.admitted = s.admitted ++ [(s.th i).ticket])
    (hth : ∀ j, j ≠ i → s1.th j = s.th j)
    (h0 : (s.th i).pc.hasTicket = true) (h1 : (s1.th i).ticket = (s.th i).ticket)
    (h2 : (s1.th i).pc.hasTicket = true)
    (h3 : s.l.dequeueCount = (s.th i).ticket) :
    s1.Inv := by
  obtain ⟨hE, hD, hA, hB, hC, hL1, hL3, hP⟩ := h
  have key : ∀ j, (s1.th j).pc.hasTicket = true →
      (s.th j).pc.hasTicket = true ∧ (s1.th j).ticket = (s.th j).ticket := by
    intro j hj
    by_cases e : j = i
    · subst e; exact ⟨h0, h1⟩
    · rw [hth j e] at hj ⊢; exact ⟨hj, rfl⟩
  refine ⟨by rw [ht, hdr, hE], by rw [hd, hdr]; exact hD, ?_, ?_, ?_, ?_, ?_, ?_⟩
  · intro j hj
    obtain ⟨a, b⟩ := key j hj
    rw [hd, hdr, b]; exact hA j a
  · intro j k hj hk e
    obtain ⟨a, b⟩ := key j hj
    obtain ⟨c, d⟩ := key k hk
    exact hB j k a c (by rw [← b, ← d, e])
  · intro j hj
    by_cases e : j = i
    · subst e; rw [h1, hd, had]; exact ⟨h3.symm, by simp⟩
    · rw [hth j e] at hj ⊢; rw [hd, had]
      have := hC j hj
      exact ⟨this.1, List.mem_append_left _ this.2⟩
  · intro t h; rw [hd] at h; rw [had]; exact List.mem_append_left _ (hL1 t h)
  · intro t h; rw [had] at h; rw [hd, hdr]
    rcases List.mem_append.1 h with h | h
    · exact hL3 t h
    · simp at h; subst h; have := hA i h0; omega
  · rw [had, List.pairwise_append]
    refine ⟨hP, by simp, fun a ha b hb => ?_⟩
    simp at hb; subst hb
    have := hL3 a ha; omega

theorem inv_inc (s s1 : Sys) (i : Nat) (h : s.Inv) (h32 : s.drawn < 4294967296)
    (hd : s1.l.dequeueCount = inc32 s.l.dequeueCount) (ht : s1.l.ticket = s.l.ticket)
    (hdr : s1.drawn = s.drawn) (had : s1.admitted = s.admitted)
    (hth : ∀ j, j ≠ i → s1.th j = s.th j)
    (h0 : (s.th i).pc.pastAdmission = true) (h2 : (s1.th i).pc.hasTicket = false) :
    s1.Inv := by
  obtain ⟨hE, hD, hA, hB, hC, hL1, hL3, hP⟩ := h
  have hi := hC i h0
  have hAi := hA i (pastAdmission_hasTicket _ h0)
  have e1 : inc32 s.l.dequeueCount = s.l.dequeueCount + 1 := inc32_of_lt (by omega)
  have hp1 : ∀ j, (s1.th j).pc.pastAdmission = true → False := by
    intro j hj
    by_cases e : j = i
    · subst e; have := pastAdmission_hasTicket _ hj; rw [h2] at this; exact absurd this (by simp)
    · rw [hth j e] at hj
      have := hC j hj
      exact e (hB j i (pastAdmission_hasTicket _ hj) (pastAdmission_hasTicket _ h0)
        (by rw [this.1, hi.1]))
  refine ⟨by rw [ht, hdr, hE], by rw [hd, hdr, e1]; omega, ?_, ?_, ?_, ?_, ?_,
    by rw [had]; exact hP⟩
  · intro j hj
    by_cases e : j = i
    · subst e; rw [h2] at hj; exact absurd hj (by simp)
    · rw [hth j e] at hj ⊢
      have := hA j hj
      have hne : (s.th j).ticket ≠ (s.th i).ticket :=
        fun e2 => e (hB j i hj (pastAdmission_hasTicket _ h0) e2)
      rw [hd, hdr, e1]; omega
  · intro j k hj hk e
    by_cases ej : j = i
    · subst ej; rw [h2] at hj; exact absurd hj (by simp)
    · by_cases ek : k = i
      · subst ek; rw [h2] at hk; exact absurd hk (by simp)
      · rw [hth j ej] at hj e; rw [hth k ek] at hk e
        exact hB j k hj hk e
  · intro j hj; exact absurd (hp1 j hj) id
  · intro t h; rw [hd, e1] at h; rw [had]
    by_cases e : t = s.l.dequeueCount
    · rw [e, ← hi.1]; exact hi.2
    · exact hL1 t (by omega)
  · intro t h; rw [had] at h; rw [hd, hdr, e1]; have := hL3 t h; omega

end RWPQL

namespace RWPQL

theorem tstep_frame (op : Op) (l : RWPQL) (c : Local)
    (h1 : c.pc ≠ .rl_draw) (h2 : c.pc ≠ .lk_draw) (h3 : c.pc ≠ .rl_dq) (h4 : c.pc ≠ .ul_inc)
    (h5 : ¬ ((c.pc = .rl_adm ∨ c.pc = .lk_adm) ∧ l.dequeueCount = c.ticket)) :
    (tstep op l c).1.dequeueCount = l.dequeueCount ∧
    (tstep op l c).1.ticket = l.ticket ∧
    ((tstep op l c).2.pc.hasTicket = true →
      c.pc.hasTicket = true ∧ (tstep op l c).2.ticket = c.ticket) ∧
    ((tstep op l c).2.pc.pastAdmission = true → c.pc.pastAdmission = true) := by
  rcases c with ⟨pc, tk, pw⟩
  cases pc <;> simp at h1 h2 h3 h4 h5 <;>
    simp [tstep, RLock, Lock, PLock, RUnlock, Unlock, PUnlock, PC.hasTicket, PC.pastAdmission] <;>
    (try cases op) <;> (try simp [entry, PC.hasTicket, PC.pastAdmission]) <;>
    (try split_ifs) <;> (try simp_all [PC.hasTicket, PC.pastAdmission])

theorem step_inv (s : Sys) (i : Nat) (op : Op) (h : s.Inv)
    (h32 : (s.step i op).drawn < 4294967296) : (s.step i op).Inv := by
  have hth : ∀ j, j ≠ i → (s.step i op).th j = s.th j := fun j hj => by
    simp [Sys.step, Function.update_noteq hj]
  have hself : (s.step i op).th i = (tstep op s.l (s.th i)).2 := by simp [Sys.step]
  have hl : (s.step i op).l = (tstep op s.l (s.th i)).1 := rfl
  by_cases hdraw : (s.th i).pc = .rl_draw ∨ (s.th i).pc = .lk_draw
  · have hdr : (s.step i op).drawn = s.drawn + 1 := by simp [Sys.step, hdraw]
    have had : (s.step i op).admitted = s.admitted := by
      rcases hdraw with e | e <;> simp [Sys.step, e]
    rw [hdr] at h32
    refine inv_draw s _ i h h32 ?_ ?_ hdr had hth ?_ ?_ ?_
    · rw [hl]; rcases hdraw with e | e <;> simp [tstep, e, RLock, Lock]
    · rw [hl]; rcases hdraw with e | e <;> simp [tstep, e, RLock, Lock]
    · rcases hdraw with e | e <;> simp [e, PC.hasTicket]
    · rw [hself]; rcases hdraw with e | e <;> simp [tstep, e, RLock, Lock]
    · rw [hself]; rcases hdraw with e | e <;> simp [tstep, e, RLock, Lock, PC.pastAdmission]
  have hdr : (s.step i op).drawn = s.drawn := by simp [Sys.step, hdraw]
  rw [hdr] at h32
  by_cases hadm : ((s.th i).pc = .rl_adm ∨ (s.th i).pc = .lk_adm) ∧
      s.l.dequeueCount = (s.th i).ticket
  · have had : (s.step i op).admitted = s.admitted ++ [(s.th i).ticket] := by
      simp [Sys.step, hadm]
    refine inv_pass s _ i h ?_ ?_ hdr had hth ?_ ?_ ?_ hadm.2
    · rw [hl]; rcases hadm.1 with e | e <;> simp [tstep, e, RLock, Lock, hadm.2] <;> split_ifs <;> rfl
    · rw [hl]; rcases hadm.1 with e | e <;> simp [tstep, e, RLock, Lock, hadm.2] <;> split_ifs <;> rfl
    · rcases hadm.1 with e | e <;> simp [e, PC.hasTicket]
    · rw [hself]; rcases hadm.1 with e | e <;> simp [tstep, e, RLock, Lock, hadm.2]
    · rw [hself]; rcases hadm.1 with e | e <;> simp [tstep, e, RLock, Lock, hadm.2, PC.hasTicket]
  have had : (s.step i op).admitted = s.admitted := by simp [Sys.step, hadm]
  by_cases hinc : (s.th i).pc = .rl_dq ∨ (s.th i).pc = .ul_inc
  · refine inv_inc s _ i h h32 ?_ ?_ hdr had hth ?_ ?_
    · rw [hl]; rcases hinc with e | e <;> simp [tstep, e, RLock, Unlock]
    · rw [hl]; rcases hinc with e | e <;> simp [tstep, e, RLock, Unlock]
    · rcases hinc with e | e <;> simp [e, PC.pastAdmission]
    · rw [hself]; rcases hinc with e | e <;> simp [tstep, e, RLock, Unlock, PC.hasTicket]
  obtain ⟨f1, f2, f3, f4⟩ := tstep_frame op s.l (s.th i) (fun e => hdraw (Or.inl e))
    (fun e => hdraw (Or.inr e)) (fun e => hinc (Or.inl e)) (fun e => hinc (Or.inr e)) hadm
  exact inv_frame s _ i h (by rw [hl]; exact f1) (by rw [hl]; exact f2) hdr had hth
    (by rw [hself]; exact f3) (by rw [hself]; exact f4)

theorem init_inv (sleep_ns : Int) : (Sys.init sleep_ns).Inv := by
  refine ⟨rfl, by simp [Sys.init, NewRWPQL], ?_, ?_, ?_, ?_, ?_, by simp [Sys.init]⟩ <;>
    simp [Sys.init, NewRWPQL, PC.hasTicket, PC.pastAdmission]

theorem step_drawn_mono (s : Sys) (i : Nat) (op : Op) : s.drawn ≤ (s.step i op).drawn := by
  simp only [Sys.step]; split_ifs <;> omega

theorem reachable_inv (s : Sys) (hs : Reachable s) (h32 : s.drawn < 4294967296) : s.Inv := by
  have h := reachable_invariant (fun s => s.drawn < 4294967296 → s.Inv)
    (fun sl _ => init_inv sl)
    (fun s i op ih h32 => step_inv s i op (ih (by have := step_drawn_mono s i op; omega)) h32)
    s hs
  exact h h32

end RWPQL

/-- C3. In every state of `RWPQL` reachable under any schedule with fewer than
`2^32` tickets drawn: a step changes `dequeueCount` only by `+1`, and then the
stepping caller is executing `l.dequeueCount.Inc()` in `RLock` or `Unlock`, is
past its admission check, holds the ticket equal to the old `dequeueCount`,
and that ticket is in the admission log; a caller moves past its admission
check only by a load of `dequeueCount` that equals its own ticket (the step
that appends its ticket to the log); and the log is in ticket order: whenever
ticket `t2` passes admission, every ticket `t1 < t2` has passed admission
before. -/
theorem ticket_order (s : RWPQL.Sys) (hs : RWPQL.Reachable s)
    (h32 : s.drawn < 4294967296) :
    (∀ i op, (s.step i op).l.dequeueCount = s.l.dequeueCount ∨
      ((s.step i op).l.dequeueCount = s.l.dequeueCount + 1 ∧
        ((s.th i).pc = .rl_dq ∨ (s.th i).pc = .ul_inc) ∧
        (s.th i).pc.pastAdmission = true ∧ (s.th i).ticket = s.l.dequeueCount ∧
        (s.th i).ticket ∈ s.admitted)) ∧
    (∀ i op, (s.th i).pc.pastAdmission = false →
      ((s.step i op).th i).pc.pastAdmission = true →
      ((s.th i).pc = .rl_adm ∨ (s.th i).pc = .lk_adm) ∧
        s.l.dequeueCount = (s.th i).ticket ∧
        (s.step i op).admitted = s.admitted ++ [(s.th i).ticket]) ∧
    (∀ i op, (s.step i op).admitted = s.admitted ∨
      (((s.th i).pc = .rl_adm ∨ (s.th i).pc = .lk_adm) ∧
        s.l.dequeueCount = (s.th i).ticket ∧
        (s.step i op).admitted = s.admitted ++ [(s.th i).ticket])) ∧
    (∀ l1 t2 l2, s.admitted = l1 ++ t2 :: l2 → ∀ t1, t1 < t2 → t1 ∈ l1) ∧
    (∀ t ∈ s.admitted, t < s.drawn) ∧
    (∀ i, (s.th i).pc.pastAdmission = true → (s.th i).ticket ∈ s.admitted) := by
  obtain ⟨hE, hD, hA, hB, hC, hL1, hL3, hP⟩ := RWPQL.reachable_inv s hs h32
  refine ⟨?_, ?_, ?_, ?_, fun t ht => (hL3 t ht).2, fun i hi => (hC i hi).2⟩
  · intro i op
    by_cases hinc : (s.th i).pc = .rl_dq ∨ (s.th i).pc = .ul_inc
    · right
      have hp : (s.th i).pc.pastAdmission = true := by
        rcases hinc with e | e <;> simp [e, RWPQL.PC.pastAdmission]
      have hi := hC i hp
      have hAi := hA i (RWPQL.pastAdmission_hasTicket _ hp)
      refine ⟨?_, hinc, hp, hi.1, hi.2⟩
      have e1 : inc32 s.l.dequeueCount = s.l.dequeueCount + 1 := inc32_of_lt (by omega)
      rw [← e1]
      rcases hinc with e | e <;> simp [RWPQL.Sys.step, RWPQL.tstep, e, RWPQL.RLock, RWPQL.Unlock]
    · left
      rcases hc : s.th i with ⟨pc, tk, pw⟩
      rw [hc] at hinc
      cases pc <;> simp at hinc <;>
        simp [RWPQL.Sys.step, RWPQL.tstep, hc, RWPQL.RLock, RWPQL.Lock, RWPQL.PLock,
          RWPQL.RUnlock, RWPQL.Unlock, RWPQL.PUnlock] <;>
        (try split_ifs) <;> rfl
  · intro i op h0 h1
    rcases hc : s.th i with ⟨pc, tk, pw⟩
    rw [hc] at h0
    cases pc <;> simp [RWPQL.PC.pastAdmission] at h0 <;>
      simp [RWPQL.Sys.step, RWPQL.tstep, hc, RWPQL.RLock, RWPQL.Lock, RWPQL.PLock,
        RWPQL.RUnlock, RWPQL.Unlock, RWPQL.PUnlock, RWPQL.PC.pastAdmission] at h1 ⊢ <;>
      (try (cases op <;> simp [RWPQL.entry] at h1)) <;>
      (try (split_ifs at h1 <;> simp_all))
  · intro i op
    by_cases hadm : ((s.th i).pc = .rl_adm ∨ (s.th i).pc = .lk_adm) ∧
        s.l.dequeueCount = (s.th i).ticket
    · right; exact ⟨hadm.1, hadm.2, by simp [RWPQL.Sys.step, hadm]⟩
    · left; simp [RWPQL.Sys.step, hadm]
  · intro l1 t2 l2 he t1 hlt
    have h2 : t2 ∈ s.admitted := by rw [he]; simp
    have h1 : t1 ∈ s.admitted := hL1 t1 (by have := (hL3 t2 h2).1; omega)
    rw [he] at h1 hP
    rcases List.mem_append.1 h1 with h | h
    · exact h
    · exfalso
      rw [List.pairwise_append] at hP
      have hp2 := hP.2.1
      rw [List.pairwise_cons] at hp2
      rcases List.mem_cons.1 h with h | h
      · omega
      · have := hp2.1 t1 h; omega

/-- Witness for C3: the state after a `Lock` caller passed admission with
ticket 0 and a `PLock` caller announced itself. -/
theorem ticket_order_witness :
    ((RWPQL.Sys.init 1000).run RWPQL.bypassA).drawn < 4294967296 ∧
    ((RWPQL.Sys.init 1000).run RWPQL.bypassA).admitted = [0] ∧
    ∀ t ∈ ((RWPQL.Sys.init 1000).run RWPQL.bypassA).admitted,
      t < ((RWPQL.Sys.init 1000).run RWPQL.bypassA).drawn :=
  ⟨by decide, by decide,
    (ticket_order ((RWPQL.Sys.init 1000).run RWPQL.bypassA) ⟨1000, RWPQL.bypassA, rfl⟩
      (by decide)).2.2.2.2.1⟩

/-! ## The invariant of the bounded lock -/

namespace ABRWPQL

theorem card_counted_le (q : Nat) (s : Sys) (P R : Finset Nat) (h : s.Inv q P R) :
    R.card ≤ s.drawn := by
  have h1 : R.card ≤ (Finset.range s.drawn).card := by
    apply Finset.card_le_card_of_injOn (fun i => (s.th i).ticket)
    · intro i hi
      have hi := (h.hR i).1 (Finset.mem_coe.1 hi)
      have : (s.th i).pc.bearing = true := by simp [PC.bearing, hi]
      simpa using h.hA i this
    · intro i hi j hj e
      have hi := (h.hR i).1 (Finset.mem_coe.1 hi)
      have hj := (h.hR j).1 (Finset.mem_coe.1 hj)
      exact h.hB i j (by simp [PC.bearing, hi]) (by simp [PC.bearing, hj]) e
  simpa using h1

end ABRWPQL

namespace ABRWPQL

theorem bearing_of (pc : PC) (h : pc.waiting = true ∨ pc.gated = true ∨ pc.admitted = true ∨
    pc.clearing = true ∨ pc.handedOver = true ∨ pc.counted = true) : pc.bearing = true := by
  cases pc <;> simp [PC.waiting, PC.gated, PC.admitted, PC.clearing, PC.handedOver,
    PC.counted] at h <;> rfl

theorem bearing_of_gac (pc : PC) (h : pc.gated = true ∨ pc.admitted = true ∨
    pc.clearing = true) : pc.bearing = true :=
  bearing_of pc (by rcases h with h | h | h <;> simp [h])

theorem bearing_of_ac (pc : PC) (h : pc.admitted = true ∨ pc.clearing = true) :
    pc.bearing = true :=
  bearing_of pc (by rcases h with h | h <;> simp [h])

/-- A step that leaves the ring, the counters and everybody's classification
alone (up to the stepping caller passing a gate or the reader wait) keeps the
invariant. -/
theorem ab_inv_frame (q : Nat) (s s1 : Sys) (P R : Finset Nat) (i : Nat) (h : s.Inv q P R)
    (e1 : s1.l.queue_sz = s.l.queue_sz) (e2 : s1.l.arr = s.l.arr)
    (e3 : s1.l.ticket = s.l.ticket) (e4 : s1.l.dequeueCount = s.l.dequeueCount)
    (e5 : s1.l.nReaders = s.l.nReaders) (e6 : s1.drawn = s.drawn)
    (hth : ∀ j, j ≠ i → s1.th j = s.th j)
    (f_ho : (s1.th i).pc.handedOver = (s.th i).pc.handedOver)
    (f_ct : (s1.th i).pc.counted = (s.th i).pc.counted)
    (f_cl : (s1.th i).pc.clearing = (s.th i).pc.clearing)
    (f_tk : (s1.th i).pc.bearing = true →
      (s.th i).pc.bearing = true ∧ (s1.th i).ticket = (s.th i).ticket)
    (f_w : (s1.th i).pc.waiting = true → (s.th i).pc.waiting = true)
    (f_g : ((s1.th i).pc.gated = true ∨ (s1.th i).pc.admitted = true ∨
        (s1.th i).pc.clearing = true) →
      ((s.th i).pc.gated = true ∨ (s.th i).pc.admitted = true ∨
        (s.th i).pc.clearing = true) ∨
      (s.th i).ticket < s.l.dequeueCount + q % 4294967296)
    (f_ad : ((s1.th i).pc.admitted = true ∨ (s1.th i).pc.clearing = true) →
      ((s.th i).pc.admitted = true ∨ (s.th i).pc.clearing = true) ∨
      (s.th i).ticket = s.l.dequeueCount + P.card)
    (f_x : (s1.th i).pc.writing = true → (s.th i).pc.writing = true ∨ R = ∅) :
    s1.Inv q P R := by
  have key : ∀ j, (s1.th j).pc.bearing = true →
      (s.th j).pc.bearing = true ∧ (s1.th j).ticket = (s.th j).ticket := by
    intro j hj
    by_cases e : j = i
    · subst e; exact f_tk hj
    · rw [hth j e] at hj ⊢; exact ⟨hj, rfl⟩
  constructor
  · rw [e1]; exact h.hq
  · rw [e2]; exact h.hlen
  · intro j
    by_cases e : j = i
    · subst e; rw [f_ho]; exact h.hP j
    · rw [hth j e]; exact h.hP j
  · intro j
    by_cases e : j = i
    · subst e; rw [f_ct]; exact h.hR j
    · rw [hth j e]; exact h.hR j
  · rw [e3, e6]; exact h.hE
  · rw [e4, e6]; exact h.hH
  · intro j hj
    obtain ⟨a, b⟩ := key j hj
    rw [b, e6]; exact h.hA j a
  · intro j k hj hk e
    obtain ⟨a, b⟩ := key j hj
    obtain ⟨c, d⟩ := key k hk
    exact h.hB j k a c (by rw [← b, ← d, e])
  · intro j hj
    obtain ⟨_, b⟩ := key j (bearing_of _ (Or.inl hj))
    rw [b, e4]
    by_cases e : j = i
    · subst e; exact h.hW j (f_w hj)
    · rw [hth j e] at hj; exact h.hW j hj
  · intro j hj
    obtain ⟨_, b⟩ := key j (bearing_of_gac _ hj)
    rw [b, e4]
    by_cases e : j = i
    · subst e
      rcases f_g hj with h1 | h1
      · exact h.hG j h1
      · exact h1
    · rw [hth j e] at hj; exact h.hG j hj
  · intro j hj
    obtain ⟨_, b⟩ := key j (bearing_of_ac _ hj)
    rw [b, e4]
    by_cases e : j = i
    · subst e
      rcases f_ad hj with h1 | h1
      · exact h.hAd j h1
      · exact h1
    · rw [hth j e] at hj; exact h.hAd j hj
  · intro j hj
    obtain ⟨_, b⟩ := key j (bearing_of _ (by simp [hj]))
    rw [b, e4]
    by_cases e : j = i
    · subst e; rw [f_ho] at hj; exact h.hBv j hj
    · rw [hth j e] at hj; exact h.hBv j hj
  · intro hall
    rw [e2, e4]
    apply h.hRing1
    intro j
    by_cases e : j = i
    · subst e; rw [← f_cl]; exact hall j
    · rw [← hth j e]; exact hall j
  · intro j hj
    rw [e2]
    by_cases e : j = i
    · subst e; rw [f_cl] at hj; exact h.hRing0 j hj
    · rw [hth j e] at hj; exact h.hRing0 j hj
  · rw [e5]; exact h.hN
  · intro j hj
    by_cases e : j = i
    · subst e
      rcases f_x hj with h1 | h1
      · exact h.hX j h1
      · exact h1
    · rw [hth j e] at hj; exact h.hX j hj

end ABRWPQL

namespace ABRWPQL

theorem flags_of_not_bearing (pc : PC) (h : pc.bearing = false) :
    pc.waiting = false ∧ pc.gated = false ∧ pc.admitted = false ∧ pc.clearing = false ∧
    pc.handedOver = false ∧ pc.counted = false ∧ pc.writing = false := by
  cases pc <;> simp [PC.bearing, PC.waiting, PC.admitted, PC.clearing, PC.handedOver,
    PC.counted] at h <;> simp [PC.waiting, PC.gated, PC.admitted, PC.clearing, PC.handedOver,
    PC.counted, PC.writing]

/-- Drawing a ticket keeps the invariant. -/
theorem ab_inv_draw (q : Nat) (s s1 : Sys) (P R : Finset Nat) (i : Nat) (h : s.Inv q P R)
    (h32 : s.drawn + 1 < 4294967296)
    (e1 : s1.l.queue_sz = s.l.queue_sz) (e2 : s1.l.arr = s.l.arr)
    (e3 : s1.l.ticket = inc32 s.l.ticket) (e4 : s1.l.dequeueCount = s.l.dequeueCount)
    (e5 : s1.l.nReaders = s.l.nReaders) (e6 : s1.drawn = s.drawn + 1)
    (hth : ∀ j, j ≠ i → s1.th j = s.th j)
    (c0 : (s.th i).pc.bearing = false)
    (c1 : (s1.th i).pc = .rl_gate1 ∨ (s1.th i).pc = .lk_gate1)
    (c2 : (s1.th i).ticket = dec32 (inc32 s.l.ticket)) :
    s1.Inv q P R := by
  obtain ⟨_, _, _, n4, n5, n6, n7⟩ := flags_of_not_bearing _ c0
  have t1 : inc32 s.l.ticket = s.drawn + 1 := by rw [h.hE]; exact inc32_of_lt h32
  have t2 : (s1.th i).ticket = s.drawn := by rw [c2, h.hE]; exact dec32_inc32 (by omega)
  have g : (s1.th i).pc.waiting = true ∧ (s1.th i).pc.gated = false ∧
      (s1.th i).pc.admitted = false ∧ (s1.th i).pc.clearing = false ∧
      (s1.th i).pc.handedOver = false ∧ (s1.th i).pc.counted = false ∧
      (s1.th i).pc.writing = false := by
    rcases c1 with e | e <;> rw [e] <;> simp [PC.waiting, PC.gated, PC.admitted, PC.clearing,
      PC.handedOver, PC.counted, PC.writing]
  obtain ⟨g1, g2, g3, g4, g5, g6, g7⟩ := g
  constructor
  · rw [e1]; exact h.hq
  · rw [e2]; exact h.hlen
  · intro j
    by_cases e : j = i
    · subst e; rw [g5, ← n5]; exact h.hP j
    · rw [hth j e]; exact h.hP j
  · intro j
    by_cases e : j = i
    · subst e; rw [g6, ← n6]; exact h.hR j
    · rw [hth j e]; exact h.hR j
  · rw [e3, e6, t1]
  · rw [e4, e6]; have := h.hH; omega
  · intro j hj
    by_cases e : j = i
    · subst e; rw [t2, e6]; omega
    · rw [hth j e] at hj ⊢; rw [e6]; have := h.hA j hj; omega
  · intro j k hj hk e
    by_cases ej : j = i
    · by_cases ek : k = i
      · rw [ej, ek]
      · exfalso
        rw [hth k ek] at hk e
        have := h.hA k hk
        rw [ej, t2] at e; omega
    · by_cases ek : k = i
      · exfalso
        rw [hth j ej] at hj e
        have := h.hA j hj
        rw [ek, t2] at e; omega
      · rw [hth j ej] at hj e; rw [hth k ek] at hk e
        exact h.hB j k hj hk e
  · intro j hj
    rw [e4]
    by_cases e : j = i
    · subst e; rw [t2]; exact h.hH
    · rw [hth j e] at hj ⊢; exact h.hW j hj
  · intro j hj
    rw [e4]
    by_cases e : j = i
    · subst e; rw [g2, g3, g4] at hj; simp at hj
    · rw [hth j e] at hj ⊢; exact h.hG j hj
  · intro j hj
    rw [e4]
    by_cases e : j = i
    · subst e; rw [g3, g4] at hj; simp at hj
    · rw [hth j e] at hj ⊢; exact h.hAd j hj
  · intro j hj
    rw [e4]
    by_cases e : j = i
    · subst e; rw [g5] at hj; simp at hj
    · rw [hth j e] at hj ⊢; exact h.hBv j hj
  · intro hall
    rw [e2, e4]
    apply h.hRing1
    intro j
    by_cases e : j = i
    · subst e; exact n4
    · rw [← hth j e]; exact hall j
  · intro j hj
    rw [e2]
    by_cases e : j = i
    · subst e; rw [g4] at hj; simp at hj
    · rw [hth j e] at hj; exact h.hRing0 j hj
  · rw [e5]; exact h.hN
  · intro j hj
    by_cases e : j = i
    · subst e; rw [g7] at hj; simp at hj
    · rw [hth j e] at hj; exact h.hX j hj

end ABRWPQL

namespace ABRWPQL

theorem ring_clear (q h : Nat) (hq : 0 < q) :
    (ring q h).set (h % q) 0 = List.replicate q 0 := by
  have hlt : h % q < q := Nat.mod_lt _ hq
  apply List.ext_getElem?
  intro j
  rw [List.getElem?_set, ring_getElem? q h j hq, List.getElem?_replicate]
  simp only [ring_length]
  by_cases hj : j < q
  · by_cases h1 : h % q = j
    · subst h1; simp [hlt]
    · have h2 : ¬ j = h % q := fun e => h1 e.symm
      simp [h1, h2, hj]
  · have h1 : ¬ h % q = j := by omega
    simp [h1, hj]

theorem ring_of_zeros (q h : Nat) : (List.replicate q 0).set (h % q) 1 = ring q h := rfl

/-- The slot read of the second gate finds the flag of the ticket whose turn
it is only for that ticket. -/
theorem ticket_eq_of_slot (q t h : Nat) (hq : 0 < q) (hm : q % 4294967296 ≠ 0)
    (h32 : h < 4294967296) (hle : h ≤ t) (hlt : t < h + q % 4294967296)
    (hs : t % (q % 4294967296) = h % q) : t = h := by
  have hmpos : 0 < q % 4294967296 := Nat.pos_of_ne_zero hm
  have key : t % (q % 4294967296) = h % (q % 4294967296) := by
    by_cases hq32 : q < 4294967296
    · rw [Nat.mod_eq_of_lt hq32] at hs ⊢; exact hs
    · have e : h % q = h := Nat.mod_eq_of_lt (by omega)
      rw [e] at hs
      have : h < q % 4294967296 := by rw [← hs]; exact Nat.mod_lt _ hmpos
      rw [hs, Nat.mod_eq_of_lt this]
  have hd : q % 4294967296 ∣ t - h :=
    Nat.dvd_of_mod_eq_zero (Nat.sub_mod_eq_zero_of_mod_eq key)
  by_contra hne
  have hpos : 0 < t - h := by omega
  have := Nat.le_of_dvd hpos hd
  omega

theorem sub32_of_le (a b : Nat) (ha : a < 4294967296) (hb : b ≤ a) : sub32 a b = a - b := by
  unfold sub32
  rw [Nat.mod_eq_of_lt ha, Nat.mod_eq_of_lt (by omega : b < 4294967296), if_pos hb]

theorem card_le_of_bearing (q : Nat) (s : Sys) (P R F : Finset Nat) (h : s.Inv q P R)
    (hF : ∀ j ∈ F, (s.th j).pc.bearing = true) : F.card ≤ s.drawn := by
  have h1 : F.card ≤ (Finset.range s.drawn).card := by
    apply Finset.card_le_card_of_injOn (fun i => (s.th i).ticket)
    · intro i hi
      simpa using h.hA i (hF i (Finset.mem_coe.1 hi))
    · intro i hi j hj e
      exact h.hB i j (hF i (Finset.mem_coe.1 hi)) (hF j (Finset.mem_coe.1 hj)) e
  simpa using h1

end ABRWPQL

namespace ABRWPQL

/-- Clearing one's own slot flag (abrwpql.go 63, 122) keeps the invariant. -/
theorem ab_inv_clear (q : Nat) (hq0 : 0 < q) (s s1 : Sys) (P R : Finset Nat) (i : Nat)
    (h : s.Inv q P R)
    (e1 : s1.l.queue_sz = s.l.queue_sz)
    (e2 : s1.l.arr = s.l.arr.set ((s.th i).ticket % q) 0)
    (e3 : s1.l.ticket = s.l.ticket) (e4 : s1.l.dequeueCount = s.l.dequeueCount)
    (e5 : s1.l.nReaders = s.l.nReaders) (e6 : s1.drawn = s.drawn)
    (hth : ∀ j, j ≠ i → s1.th j = s.th j)
    (hc : ((s.th i).pc = .rl_clear ∧ (s1.th i).pc = .rl_set) ∨
      ((s.th i).pc = .ul_clear ∧ (s1.th i).pc = .ul_set))
    (c2 : (s1.th i).ticket = (s.th i).ticket) :
    s1.Inv q P R := by
  have g : (s.th i).pc.admitted = true ∧ (s.th i).pc.clearing = false ∧
      (s.th i).pc.bearing = true ∧
      (s1.th i).pc.handedOver = (s.th i).pc.handedOver ∧
      (s1.th i).pc.counted = (s.th i).pc.counted ∧
      (s1.th i).pc.waiting = false ∧ (s1.th i).pc.gated = false ∧
      (s1.th i).pc.admitted = false ∧ (s1.th i).pc.clearing = true ∧
      (s1.th i).pc.handedOver = false ∧ (s1.th i).pc.writing = false := by
    rcases hc with ⟨a, b⟩ | ⟨a, b⟩ <;> rw [a, b] <;>
      simp [PC.waiting, PC.gated, PC.admitted, PC.clearing, PC.handedOver, PC.counted,
        PC.writing, PC.bearing]
  obtain ⟨a1, a2, a3, g1, g2, g3, g4, g5, g6, g7, g8⟩ := g
  have hti := h.hAd i (Or.inl a1)
  have noclear : ∀ k, (s.th k).pc.clearing = false := by
    intro k
    by_contra hk
    have hk : (s.th k).pc.clearing = true := by simpa using hk
    have e := h.hB k i (bearing_of_ac _ (Or.inr hk)) a3 (by rw [h.hAd k (Or.inr hk), hti])
    subst e; rw [a2] at hk; simp at hk
  have harr : s1.l.arr = List.replicate q 0 := by
    rw [e2, h.hRing1 noclear, hti]; exact ring_clear q _ hq0
  have key : ∀ j, (s1.th j).pc.bearing = true →
      (s.th j).pc.bearing = true ∧ (s1.th j).ticket = (s.th j).ticket := by
    intro j hj
    by_cases e : j = i
    · subst e; exact ⟨a3, c2⟩
    · rw [hth j e] at hj ⊢; exact ⟨hj, rfl⟩
  constructor
  · rw [e1]; exact h.hq
  · rw [harr]; simp
  · intro j
    by_cases e : j = i
    · subst e; rw [g1]; exact h.hP j
    · rw [hth j e]; exact h.hP j
  · intro j
    by_cases e : j = i
    · subst e; rw [g2]; exact h.hR j
    · rw [hth j e]; exact h.hR j
  · rw [e3, e6]; exact h.hE
  · rw [e4, e6]; exact h.hH
  · intro j hj
    obtain ⟨a, b⟩ := key j hj
    rw [b, e6]; exact h.hA j a
  · intro j k hj hk e
    obtain ⟨a, b⟩ := key j hj
    obtain ⟨c, d⟩ := key k hk
    exact h.hB j k a c (by rw [← b, ← d, e])
  · intro j hj
    rw [e4]
    by_cases e : j = i
    · subst e; rw [g3] at hj; simp at hj
    · rw [hth j e] at hj ⊢; exact h.hW j hj
  · intro j hj
    rw [e4]
    by_cases e : j = i
    · subst e; rw [c2]; exact h.hG j (Or.inr (Or.inl a1))
    · rw [hth j e] at hj ⊢; exact h.hG j hj
  · intro j hj
    rw [e4]
    by_cases e : j = i
    · subst e; rw [c2]; exact hti
    · rw [hth j e] at hj ⊢; exact h.hAd j hj
  · intro j hj
    rw [e4]
    by_cases e : j = i
    · subst e; rw [g7] at hj; simp at hj
    · rw [hth j e] at hj ⊢; exact h.hBv j hj
  · intro hall
    have := hall i
    rw [g6] at this; simp at this
  · intro j _; exact harr
  · rw [e5]; exact h.hN
  · intro j hj
    by_cases e : j = i
    · subst e; rw [g8] at hj; simp at hj
    · rw [hth j e] at hj; exact h.hX j hj

/-- Setting the flag of the next slot (abrwpql.go 64, 123) keeps the
invariant, the stepping caller joining the callers that handed over. -/
theorem ab_inv_set (q : Nat) (s s1 : Sys) (P R : Finset Nat) (i : Nat)
    (h : s.Inv q P R) (h32 : s.drawn < 4294967296)
    (e1 : s1.l.queue_sz = s.l.queue_sz)
    (e2 : s1.l.arr = s.l.arr.set (inc32 (s.th i).ticket % q) 1)
    (e3 : s1.l.ticket = s.l.ticket) (e4 : s1.l.dequeueCount = s.l.dequeueCount)
    (e5 : s1.l.nReaders = s.l.nReaders) (e6 : s1.drawn = s.drawn)
    (hth : ∀ j, j ≠ i → s1.th j = s.th j)
    (hc : ((s.th i).pc = .rl_set ∧ (s1.th i).pc = .rl_dq) ∨
      ((s.th i).pc = .ul_set ∧ (s1.th i).pc = .ul_store))
    (c2 : (s1.th i).ticket = (s.th i).ticket) :
    s1.Inv q (insert i P) R := by
  have g : (s.th i).pc.clearing = true ∧ (s.th i).pc.handedOver = false ∧
      (s.th i).pc.bearing = true ∧
      (s1.th i).pc.counted = (s.th i).pc.counted ∧
      (s1.th i).pc.waiting = false ∧ (s1.th i).pc.gated = false ∧
      (s1.th i).pc.admitted = false ∧ (s1.th i).pc.clearing = false ∧
      (s1.th i).pc.handedOver = true ∧ (s1.th i).pc.writing = false := by
    rcases hc with ⟨a, b⟩ | ⟨a, b⟩ <;> rw [a, b] <;>
      simp [PC.waiting, PC.gated, PC.admitted, PC.clearing, PC.handedOver, PC.counted,
        PC.writing, PC.bearing]
  obtain ⟨a1, a2, a3, g2, g3, g4, g5, g6, g7, g8⟩ := g
  have hti := h.hAd i (Or.inr a1)
  have hAi := h.hA i a3
  have hnotin : i ∉ P := fun hi => by have := (h.hP i).1 hi; rw [a2] at this; simp at this
  have hcard : (insert i P).card = P.card + 1 := Finset.card_insert_of_not_mem hnotin
  have only : ∀ k, ((s.th k).pc.admitted = true ∨ (s.th k).pc.clearing = true) → k = i :=
    fun k hk => h.hB k i (bearing_of_ac _ hk) a3 (by rw [h.hAd k hk, hti])
  have hinc : inc32 (s.th i).ticket = (s.th i).ticket + 1 := inc32_of_lt (by omega)
  have harr : s1.l.arr = ring q (s.l.dequeueCount + (P.card + 1)) := by
    rw [e2, h.hRing0 i a1, hinc, hti]; rfl
  have key : ∀ j, (s1.th j).pc.bearing = true →
      (s.th j).pc.bearing = true ∧ (s1.th j).ticket = (s.th j).ticket := by
    intro j hj
    by_cases e : j = i
    · subst e; exact ⟨a3, c2⟩
    · rw [hth j e] at hj ⊢; exact ⟨hj, rfl⟩
  constructor
  · rw [e1]; exact h.hq
  · rw [harr]; exact ring_length _ _
  · intro j
    by_cases e : j = i
    · subst e; simp [g7]
    · rw [hth j e, Finset.mem_insert]; simp [e, h.hP j]
  · intro j
    by_cases e : j = i
    · subst e; rw [g2]; exact h.hR j
    · rw [hth j e]; exact h.hR j
  · rw [e3, e6]; exact h.hE
  · rw [e4, e6, hcard]; omega
  · intro j hj
    obtain ⟨a, b⟩ := key j hj
    rw [b, e6]; exact h.hA j a
  · intro j k hj hk e
    obtain ⟨a, b⟩ := key j hj
    obtain ⟨c, d⟩ := key k hk
    exact h.hB j k a c (by rw [← b, ← d, e])
  · intro j hj
    rw [e4, hcard]
    by_cases e : j = i
    · subst e; rw [g3] at hj; simp at hj
    · rw [hth j e] at hj ⊢
      have := h.hW j hj
      have hne : (s.th j).ticket ≠ (s.th i).ticket :=
        fun e2 => e (h.hB j i (bearing_of _ (Or.inl hj)) a3 e2)
      omega
  · intro j hj
    rw [e4]
    by_cases e : j = i
    · subst e; rw [g4, g5, g6] at hj; simp at hj
    · rw [hth j e] at hj ⊢; exact h.hG j hj
  · intro j hj
    by_cases e : j = i
    · subst e; rw [g5, g6] at hj; simp at hj
    · rw [hth j e] at hj; exact absurd (only j hj) e
  · intro j hj
    rw [e4, hcard]
    by_cases e : j = i
    · subst e; rw [c2]; omega
    · rw [hth j e] at hj ⊢; have := h.hBv j hj; omega
  · intro _; rw [harr, e4, hcard]
  · intro j hj
    by_cases e : j = i
    · subst e; rw [g6] at hj; simp at hj
    · rw [hth j e] at hj; exact absurd (only j (Or.inr hj)) e
  · rw [e5]; exact h.hN
  · intro j hj
    by_cases e : j = i
    · subst e; rw [g8] at hj; simp at hj
    · rw [hth j e] at hj; exact h.hX j hj

end ABRWPQL

namespace ABRWPQL

/-- Incrementing `dequeueCount` (abrwpql.go 65, 126) keeps the invariant, the
stepping caller leaving the callers that handed over. -/
theorem ab_inv_inc (q : Nat) (s s1 : Sys) (P R : Finset Nat) (i : Nat)
    (h : s.Inv q P R) (h32 : s.drawn < 4294967296)
    (e1 : s1.l.queue_sz = s.l.queue_sz) (e2 : s1.l.arr = s.l.arr)
    (e3 : s1.l.ticket = s.l.ticket) (e4 : s1.l.dequeueCount = inc32 s.l.dequeueCount)
    (e5 : s1.l.nReaders = s.l.nReaders) (e6 : s1.drawn = s.drawn)
    (hth : ∀ j, j ≠ i → s1.th j = s.th j)
    (hc : ((s.th i).pc = .rl_dq ∧ (s1.th i).pc = .holdR) ∨
      ((s.th i).pc = .ul_inc ∧ (s1.th i).pc = .idle))
    (c2 : (s1.th i).ticket = (s.th i).ticket) :
    s1.Inv q (P.erase i) R := by
  have g : (s.th i).pc.handedOver = true ∧ (s.th i).pc.clearing = false ∧
      (s.th i).pc.bearing = true ∧
      (s1.th i).pc.counted = (s.th i).pc.counted ∧
      (s1.th i).pc.waiting = false ∧ (s1.th i).pc.gated = false ∧
      (s1.th i).pc.admitted = false ∧ (s1.th i).pc.clearing = false ∧
      (s1.th i).pc.handedOver = false ∧ (s1.th i).pc.writing = false := by
    rcases hc with ⟨a, b⟩ | ⟨a, b⟩ <;> rw [a, b] <;>
      simp [PC.waiting, PC.gated, PC.admitted, PC.clearing, PC.handedOver, PC.counted,
        PC.writing, PC.bearing]
  obtain ⟨a1, a2, a3, g2, g3, g4, g5, g6, g7, g8⟩ := g
  have hin : i ∈ P := (h.hP i).2 a1
  have hpos : 0 < P.card := Finset.card_pos.2 ⟨i, hin⟩
  have hcard : (P.erase i).card = P.card - 1 := Finset.card_erase_of_mem hin
  have hH := h.hH
  have hinc : inc32 s.l.dequeueCount = s.l.dequeueCount + 1 := inc32_of_lt (by omega)
  have hsum : s1.l.dequeueCount + (P.erase i).card = s.l.dequeueCount + P.card := by
    rw [e4, hinc, hcard]; omega
  have key : ∀ j, (s1.th j).pc.bearing = true →
      (s.th j).pc.bearing = true ∧ (s1.th j).ticket = (s.th j).ticket := by
    intro j hj
    by_cases e : j = i
    · subst e; exact ⟨a3, c2⟩
    · rw [hth j e] at hj ⊢; exact ⟨hj, rfl⟩
  constructor
  · rw [e1]; exact h.hq
  · rw [e2]; exact h.hlen
  · intro j
    by_cases e : j = i
    · subst e; simp [g7]
    · rw [hth j e, Finset.mem_erase]; simp [e, h.hP j]
  · intro j
    by_cases e : j = i
    · subst e; rw [g2]; exact h.hR j
    · rw [hth j e]; exact h.hR j
  · rw [e3, e6]; exact h.hE
  · rw [hsum, e6]; exact hH
  · intro j hj
    obtain ⟨a, b⟩ := key j hj
    rw [b, e6]; exact h.hA j a
  · intro j k hj hk e
    obtain ⟨a, b⟩ := key j hj
    obtain ⟨c, d⟩ := key k hk
    exact h.hB j k a c (by rw [← b, ← d, e])
  · intro j hj
    rw [hsum]
    by_cases e : j = i
    · subst e; rw [g3] at hj; simp at hj
    · rw [hth j e] at hj ⊢; exact h.hW j hj
  · intro j hj
    rw [e4, hinc]
    by_cases e : j = i
    · subst e; rw [g4, g5, g6] at hj; simp at hj
    · rw [hth j e] at hj ⊢; have := h.hG j hj; omega
  · intro j hj
    rw [hsum]
    by_cases e : j = i
    · subst e; rw [g5, g6] at hj; simp at hj
    · rw [hth j e] at hj ⊢; exact h.hAd j hj
  · intro j hj
    rw [hsum]
    by_cases e : j = i
    · subst e; rw [g7] at hj; simp at hj
    · rw [hth j e] at hj ⊢; exact h.hBv j hj
  · intro hall
    rw [e2, hsum]
    apply h.hRing1
    intro j
    by_cases e : j = i
    · subst e; exact a2
    · rw [← hth j e]; exact hall j
  · intro j hj
    rw [e2]
    by_cases e : j = i
    · subst e; rw [g6] at hj; simp at hj
    · rw [hth j e] at hj; exact h.hRing0 j hj
  · rw [e5]; exact h.hN
  · intro j hj
    by_cases e : j = i
    · subst e; rw [g8] at hj; simp at hj
    · rw [hth j e] at hj; exact h.hX j hj

/-- `l.nReaders.Inc()` of `RLock` (abrwpql.go 59) keeps the invariant, the
stepping caller joining the counted readers. -/
theorem ab_inv_nr (q : Nat) (s s1 : Sys) (P R : Finset Nat) (i : Nat)
    (h : s.Inv q P R) (h32 : s.drawn < 4294967296)
    (e1 : s1.l.queue_sz = s.l.queue_sz) (e2 : s1.l.arr = s.l.arr)
    (e3 : s1.l.ticket = s.l.ticket) (e4 : s1.l.dequeueCount = s.l.dequeueCount)
    (e5 : s1.l.nReaders = inc32 s.l.nReaders) (e6 : s1.drawn = s.drawn)
    (hth : ∀ j, j ≠ i → s1.th j = s.th j)
    (hc : (s.th i).pc = .rl_nr ∧ (s1.th i).pc = .rl_clear)
    (c2 : (s1.th i).ticket = (s.th i).ticket) :
    s1.Inv q P (insert i R) := by
  obtain ⟨ha, hb⟩ := hc
  have a1 : (s.th i).pc.admitted = true := by rw [ha]; rfl
  have a3 : (s.th i).pc.bearing = true := by rw [ha]; rfl
  have hti := h.hAd i (Or.inl a1)
  have hnotin : i ∉ R := fun hi => by have := (h.hR i).1 hi; rw [ha] at this; simp [PC.counted] at this
  have hcard : (insert i R).card = R.card + 1 := Finset.card_insert_of_not_mem hnotin
  have hbound : (insert i R).card ≤ s.drawn :=
    card_le_of_bearing q s P R _ h (fun j hj => by
      rcases Finset.mem_insert.1 hj with e | e
      · rw [e]; exact a3
      · exact bearing_of _ (by simp [(h.hR j).1 e]))
  have hinc : inc32 s.l.nReaders = R.card + 1 := by
    rw [h.hN]; exact inc32_of_lt (by omega)
  have only : ∀ k, ((s.th k).pc.admitted = true ∨ (s.th k).pc.clearing = true) → k = i :=
    fun k hk => h.hB k i (bearing_of_ac _ hk) a3 (by rw [h.hAd k hk, hti])
  have writing_admitted : ∀ pc : PC, pc.writing = true → pc.admitted = true := by
    intro pc hp; cases pc <;> simp [PC.writing] at hp <;> rfl
  have key : ∀ j, (s1.th j).pc.bearing = true →
      (s.th j).pc.bearing = true ∧ (s1.th j).ticket = (s.th j).ticket := by
    intro j hj
    by_cases e : j = i
    · subst e; exact ⟨a3, c2⟩
    · rw [hth j e] at hj ⊢; exact ⟨hj, rfl⟩
  constructor
  · rw [e1]; exact h.hq
  · rw [e2]; exact h.hlen
  · intro j
    by_cases e : j = i
    · subst e; rw [hb]; rw [h.hP j, ha]; simp [PC.handedOver]
    · rw [hth j e]; exact h.hP j
  · intro j
    by_cases e : j = i
    · subst e; simp [hb, PC.counted]
    · rw [hth j e, Finset.mem_insert]; simp [e, h.hR j]
  · rw [e3, e6]; exact h.hE
  · rw [e4, e6]; exact h.hH
  · intro j hj
    obtain ⟨a, b⟩ := key j hj
    rw [b, e6]; exact h.hA j a
  · intro j k hj hk e
    obtain ⟨a, b⟩ := key j hj
    obtain ⟨c, d⟩ := key k hk
    exact h.hB j k a c (by rw [← b, ← d, e])
  · intro j hj
    rw [e4]
    by_cases e : j = i
    · subst e; rw [hb] at hj; simp [PC.waiting] at hj
    · rw [hth j e] at hj ⊢; exact h.hW j hj
  · intro j hj
    rw [e4]
    by_cases e : j = i
    · subst e; rw [c2]; exact h.hG j (Or.inr (Or.inl a1))
    · rw [hth j e] at hj ⊢; exact h.hG j hj
  · intro j hj
    rw [e4]
    by_cases e : j = i
    · subst e; rw [c2]; exact hti
    · rw [hth j e] at hj ⊢; exact h.hAd j hj
  · intro j hj
    rw [e4]
    by_cases e : j = i
    · subst e; rw [hb] at hj; simp [PC.handedOver] at hj
    · rw [hth j e] at hj ⊢; exact h.hBv j hj
  · intro hall
    rw [e2, e4]
    apply h.hRing1
    intro j
    by_cases e : j = i
    · subst e; rw [ha]; rfl
    · rw [← hth j e]; exact hall j
  · intro j hj
    rw [e2]
    by_cases e : j = i
    · subst e; rw [hb] at hj; simp [PC.clearing] at hj
    · rw [hth j e] at hj; exact h.hRing0 j hj
  · rw [e5, hinc, hcard]
  · intro j hj
    by_cases e : j = i
    · subst e; rw [hb] at hj; simp [PC.writing] at hj
    · rw [hth j e] at hj
      exact absurd (only j (Or.inl (writing_admitted _ hj))) e

/-- `l.nReaders.Dec()` of `RUnlock` (abrwpql.go 112) keeps the invariant, the
stepping caller leaving the counted readers. -/
theorem ab_inv_dec (q : Nat) (s s1 : Sys) (P R : Finset Nat) (i : Nat)
    (h : s.Inv q P R) (h32 : s.drawn < 4294967296)
    (e1 : s1.l.queue_sz = s.l.queue_sz) (e2 : s1.l.arr = s.l.arr)
    (e3 : s1.l.ticket = s.l.ticket) (e4 : s1.l.dequeueCount = s.l.dequeueCount)
    (e5 : s1.l.nReaders = dec32 s.l.nReaders) (e6 : s1.drawn = s.drawn)
    (hth : ∀ j, j ≠ i → s1.th j = s.th j)
    (ha : (s.th i).pc = .ru_dec)
    (hb : (s1.th i).pc = .ru_store ∨ (s1.th i).pc = .idle) :
    s1.Inv q P (R.erase i) := by
  have hin : i ∈ R := (h.hR i).2 (by rw [ha]; rfl)
  have hpos : 0 < R.card := Finset.card_pos.2 ⟨i, hin⟩
  have hcard : (R.erase i).card = R.card - 1 := Finset.card_erase_of_mem hin
  have hbound : R.card ≤ s.drawn := card_counted_le q s P R h
  have hdec : dec32 s.l.nReaders = R.card - 1 := by
    rw [h.hN]; exact dec32_of_pos hpos (by omega)
  have g : (s1.th i).pc.bearing = false := by
    rcases hb with e | e <;> rw [e] <;> rfl
  obtain ⟨g1, g2, g3, g4, g5, g6, g7⟩ := flags_of_not_bearing _ g
  have nowriter : ∀ j, (s.th j).pc.writing = true → False := by
    intro j hj
    have := h.hX j hj
    rw [this] at hin; simp at hin
  have key : ∀ j, (s1.th j).pc.bearing = true →
      (s.th j).pc.bearing = true ∧ (s1.th j).ticket = (s.th j).ticket := by
    intro j hj
    by_cases e : j = i
    · subst e; rw [g] at hj; simp at hj
    · rw [hth j e] at hj ⊢; exact ⟨hj, rfl⟩
  constructor
  · rw [e1]; exact h.hq
  · rw [e2]; exact h.hlen
  · intro j
    by_cases e : j = i
    · subst e; rw [g5, h.hP j, ha]; simp [PC.handedOver]
    · rw [hth j e]; exact h.hP j
  · intro j
    by_cases e : j = i
    · subst e; simp [g6]
    · rw [hth j e, Finset.mem_erase]; simp [e, h.hR j]
  · rw [e3, e6]; exact h.hE
  · rw [e4, e6]; exact h.hH
  · intro j hj
    obtain ⟨a, b⟩ := key j hj
    rw [b, e6]; exact h.hA j a
  · intro j k hj hk e
    obtain ⟨a, b⟩ := key j hj
    obtain ⟨c, d⟩ := key k hk
    exact h.hB j k a c (by rw [← b, ← d, e])
  · intro j hj
    rw [e4]
    by_cases e : j = i
    · subst e; rw [g1] at hj; simp at hj
    · rw [hth j e] at hj ⊢; exact h.hW j hj
  · intro j hj
    rw [e4]
    by_cases e : j = i
    · subst e; rw [g2, g3, g4] at hj; simp at hj
    · rw [hth j e] at hj ⊢; exact h.hG j hj
  · intro j hj
    rw [e4]
    by_cases e : j = i
    · subst e; rw [g3, g4] at hj; simp at hj
    · rw [hth j e] at hj ⊢; exact h.hAd j hj
  · intro j hj
    rw [e4]
    by_cases e : j = i
    · subst e; rw [g5] at hj; simp at hj
    · rw [hth j e] at hj ⊢; exact h.hBv j hj
  · intro hall
    rw [e2, e4]
    apply h.hRing1
    intro j
    by_cases e : j = i
    · subst e; rw [ha]; rfl
    · rw [← hth j e]; exact hall j
  · intro j hj
    rw [e2]
    by_cases e : j = i
    · subst e; rw [g4] at hj; simp at hj
    · rw [hth j e] at hj; exact h.hRing0 j hj
  · rw [e5, hdec, hcard]
  · intro j hj
    by_cases e : j = i
    · subst e; rw [g7] at hj; simp at hj
    · rw [hth j e] at hj; exact absurd (nowriter j hj) id

end ABRWPQL

namespace ABRWPQL

set_option maxHeartbeats 1000000 in
/-- What a step outside the six kinds treated separately does. -/
theorem ab_tstep_frame (op : Op) (l : ABRWPQL) (c : Local)
    (n1 : c.pc ≠ .rl_draw) (n2 : c.pc ≠ .lk_draw) (n3 : c.pc ≠ .rl_clear)
    (n4 : c.pc ≠ .ul_clear) (n5 : c.pc ≠ .rl_set) (n6 : c.pc ≠ .ul_set)
    (n7 : c.pc ≠ .rl_dq) (n8 : c.pc ≠ .ul_inc) (n9 : c.pc ≠ .rl_nr) (n10 : c.pc ≠ .ru_dec) :
    (tstep op l c).1.queue_sz = l.queue_sz ∧ (tstep op l c).1.arr = l.arr ∧
    (tstep op l c).1.ticket = l.ticket ∧
    (tstep op l c).1.dequeueCount = l.dequeueCount ∧
    (tstep op l c).1.nReaders = l.nReaders ∧
    (tstep op l c).2.pc.handedOver = c.pc.handedOver ∧
    (tstep op l c).2.pc.counted = c.pc.counted ∧
    (tstep op l c).2.pc.clearing = c.pc.clearing ∧
    ((tstep op l c).2.pc.bearing = true →
      c.pc.bearing = true ∧ (tstep op l c).2.ticket = c.ticket) ∧
    ((tstep op l c).2.pc.waiting = true → c.pc.waiting = true) ∧
    (((tstep op l c).2.pc.gated = true ∨ (tstep op l c).2.pc.admitted = true ∨
        (tstep op l c).2.pc.clearing = true) →
      (c.pc.gated = true ∨ c.pc.admitted = true ∨ c.pc.clearing = true) ∨
      (c.pc.waiting = true ∧ sub32 c.ticket l.dequeueCount < l.qsz32)) ∧
    (((tstep op l c).2.pc.admitted = true ∨ (tstep op l c).2.pc.clearing = true) →
      (c.pc.admitted = true ∨ c.pc.clearing = true) ∨
      (c.pc.gated = true ∧ l.readSlot c.ticket = some 1)) ∧
    ((tstep op l c).2.pc.writing = true →
      c.pc.writing = true ∨ (c.pc.admitted = true ∧ l.nReaders = 0)) := by
  rcases c with ⟨pc, tk, pw⟩
  cases pc <;> simp at n1 n2 n3 n4 n5 n6 n7 n8 n9 n10 <;>
    simp only [tstep, RLock, Lock, PLock, RUnlock, Unlock, PUnlock, yieldToPriorityLock] <;>
    (repeat' split) <;>
    first
      | (simp_all [PC.waiting, PC.gated, PC.admitted, PC.clearing, PC.handedOver,
          PC.counted, PC.writing, PC.bearing]; done)
      | (simp_all [PC.waiting, PC.gated, PC.admitted, PC.clearing, PC.handedOver,
          PC.counted, PC.writing, PC.bearing]; omega)
      | (cases op <;> simp [entry, PC.waiting, PC.gated, PC.admitted, PC.clearing,
          PC.handedOver, PC.counted, PC.writing, PC.bearing])

end ABRWPQL

namespace ABRWPQL

theorem ab_step_drawn_mono (s : Sys) (i : Nat) (op : Op) : s.drawn ≤ (s.step i op).drawn := by
  simp only [Sys.step]; split_ifs <;> omega

/-- Every step keeps the invariant of the bounded lock (for suitable sets of
handed-over and counted callers). -/
theorem ab_step_inv (q : Nat) (hq0 : 0 < q) (s : Sys) (P R : Finset Nat) (i : Nat) (op : Op)
    (h : s.Inv q P R) (h32 : (s.step i op).drawn < 4294967296) :
    ∃ P1 R1, (s.step i op).Inv q P1 R1 := by
  have hth : ∀ j, j ≠ i → (s.step i op).th j = s.th j := fun j hj => by
    simp [Sys.step, Function.update_noteq hj]
  have hself : (s.step i op).th i = (tstep op s.l (s.th i)).2 := by simp [Sys.step]
  have hl : (s.step i op).l = (tstep op s.l (s.th i)).1 := rfl
  have hlen : s.l.arr.length = s.l.queue_sz := by rw [h.hlen, h.hq]
  have hqs : 0 < s.l.queue_sz := by rw [h.hq]; exact hq0
  by_cases hdraw : (s.th i).pc = .rl_draw ∨ (s.th i).pc = .lk_draw
  · have hdr : (s.step i op).drawn = s.drawn + 1 := by simp [Sys.step, hdraw]
    rw [hdr] at h32
    refine ⟨P, R, ab_inv_draw q s _ P R i h h32 ?_ ?_ ?_ ?_ ?_ hdr hth ?_ ?_ ?_⟩
    · rw [hl]; rcases hdraw with e | e <;> simp [tstep, e, RLock, Lock]
    · rw [hl]; rcases hdraw with e | e <;> simp [tstep, e, RLock, Lock]
    · rw [hl]; rcases hdraw with e | e <;> simp [tstep, e, RLock, Lock]
    · rw [hl]; rcases hdraw with e | e <;> simp [tstep, e, RLock, Lock]
    · rw [hl]; rcases hdraw with e | e <;> simp [tstep, e, RLock, Lock]
    · rcases hdraw with e | e <;> rw [e] <;> rfl
    · rw [hself]; rcases hdraw with e | e <;> simp [tstep, e, RLock, Lock]
    · rw [hself]; rcases hdraw with e | e <;> simp [tstep, e, RLock, Lock]
  have hdr : (s.step i op).drawn = s.drawn := by simp [Sys.step, hdraw]
  rw [hdr] at h32
  by_cases hclear : (s.th i).pc = .rl_clear ∨ (s.th i).pc = .ul_clear
  · have hw := writeSlot_eq s.l (s.th i).ticket 0 hlen hqs
    refine ⟨P, R, ab_inv_clear q hq0 s _ P R i h ?_ ?_ ?_ ?_ ?_ hdr hth ?_ ?_⟩
    · rw [hl]; rcases hclear with e | e <;> simp [tstep, e, RLock, Unlock, hw]
    · rw [hl]; rcases hclear with e | e <;> simp [tstep, e, RLock, Unlock, hw, h.hq]
    · rw [hl]; rcases hclear with e | e <;> simp [tstep, e, RLock, Unlock, hw]
    · rw [hl]; rcases hclear with e | e <;> simp [tstep, e, RLock, Unlock, hw]
    · rw [hl]; rcases hclear with e | e <;> simp [tstep, e, RLock, Unlock, hw]
    · rw [hself]; rcases hclear with e | e <;> simp [tstep, e, RLock, Unlock, hw]
    · rw [hself]; rcases hclear with e | e <;> simp [tstep, e, RLock, Unlock, hw]
  by_cases hset : (s.th i).pc = .rl_set ∨ (s.th i).pc = .ul_set
  · have hw := writeSlot_eq s.l (inc32 (s.th i).ticket) 1 hlen hqs
    refine ⟨insert i P, R, ab_inv_set q s _ P R i h h32 ?_ ?_ ?_ ?_ ?_ hdr hth ?_ ?_⟩
    · rw [hl]; rcases hset with e | e <;> simp [tstep, e, RLock, Unlock, hw]
    · rw [hl]; rcases hset with e | e <;> simp [tstep, e, RLock, Unlock, hw, h.hq]
    · rw [hl]; rcases hset with e | e <;> simp [tstep, e, RLock, Unlock, hw]
    · rw [hl]; rcases hset with e | e <;> simp [tstep, e, RLock, Unlock, hw]
    · rw [hl]; rcases hset with e | e <;> simp [tstep, e, RLock, Unlock, hw]
    · rw [hself]; rcases hset with e | e <;> simp [tstep, e, RLock, Unlock, hw]
    · rw [hself]; rcases hset with e | e <;> simp [tstep, e, RLock, Unlock, hw]
  by_cases hinc : (s.th i).pc = .rl_dq ∨ (s.th i).pc = .ul_inc
  · refine ⟨P.erase i, R, ab_inv_inc q s _ P R i h h32 ?_ ?_ ?_ ?_ ?_ hdr hth ?_ ?_⟩
    · rw [hl]; rcases hinc with e | e <;> simp [tstep, e, RLock, Unlock]
    · rw [hl]; rcases hinc with e | e <;> simp [tstep, e, RLock, Unlock]
    · rw [hl]; rcases hinc with e | e <;> simp [tstep, e, RLock, Unlock]
    · rw [hl]; rcases hinc with e | e <;> simp [tstep, e, RLock, Unlock]
    · rw [hl]; rcases hinc with e | e <;> simp [tstep, e, RLock, Unlock]
    · rw [hself]; rcases hinc with e | e <;> simp [tstep, e, RLock, Unlock]
    · rw [hself]; rcases hinc with e | e <;> simp [tstep, e, RLock, Unlock]
  by_cases hnr : (s.th i).pc = .rl_nr
  · refine ⟨P, insert i R, ab_inv_nr q s _ P R i h h32 ?_ ?_ ?_ ?_ ?_ hdr hth ?_ ?_⟩
    · rw [hl]; simp [tstep, hnr, RLock]
    · rw [hl]; simp [tstep, hnr, RLock]
    · rw [hl]; simp [tstep, hnr, RLock]
    · rw [hl]; simp [tstep, hnr, RLock]
    · rw [hl]; simp [tstep, hnr, RLock]
    · rw [hself]; simp [tstep, hnr, RLock]
    · rw [hself]; simp [tstep, hnr, RLock]
  by_cases hdec : (s.th i).pc = .ru_dec
  · refine ⟨P, R.erase i, ab_inv_dec q s _ P R i h h32 ?_ ?_ ?_ ?_ ?_ hdr hth hdec ?_⟩
    · rw [hl]; simp only [tstep, hdec, RUnlock]; split_ifs <;> rfl
    · rw [hl]; simp only [tstep, hdec, RUnlock]; split_ifs <;> rfl
    · rw [hl]; simp only [tstep, hdec, RUnlock]; split_ifs <;> rfl
    · rw [hl]; simp only [tstep, hdec, RUnlock]; split_ifs <;> rfl
    · rw [hl]; simp only [tstep, hdec, RUnlock]; split_ifs <;> rfl
    · rw [hself]; simp only [tstep, hdec, RUnlock]; split_ifs <;> simp
  obtain ⟨f1, f2, f3, f4, f5, f6, f7, f8, f9, f10, f11, f12, f13⟩ :=
    ab_tstep_frame op s.l (s.th i) (fun e => hdraw (Or.inl e)) (fun e => hdraw (Or.inr e))
      (fun e => hclear (Or.inl e)) (fun e => hclear (Or.inr e)) (fun e => hset (Or.inl e))
      (fun e => hset (Or.inr e)) (fun e => hinc (Or.inl e)) (fun e => hinc (Or.inr e)) hnr hdec
  refine ⟨P, R, ab_inv_frame q s _ P R i h (by rw [hl]; exact f1) (by rw [hl]; exact f2)
    (by rw [hl]; exact f3) (by rw [hl]; exact f4) (by rw [hl]; exact f5) hdr hth
    (by rw [hself]; exact f6) (by rw [hself]; exact f7) (by rw [hself]; exact f8)
    (by rw [hself]; exact f9) (by rw [hself]; exact f10) ?_ ?_ ?_⟩
  · rw [hself]
    intro hg
    rcases f11 hg with h1 | ⟨hw, hs⟩
    · exact Or.inl h1
    · right
      have hW := h.hW i hw
      have hA := h.hA i (bearing_of _ (Or.inl hw))
      have hsub : sub32 (s.th i).ticket s.l.dequeueCount =
          (s.th i).ticket - s.l.dequeueCount := sub32_of_le _ _ (by omega) (by omega)
      rw [hsub] at hs
      simp only [qsz32, h.hq] at hs
      omega
  · rw [hself]
    intro hg
    rcases f12 hg with h1 | ⟨hgt, hs⟩
    · exact Or.inl h1
    · right
      have hwait : (s.th i).pc.waiting = true := by
        revert hgt; cases (s.th i).pc <;> simp [PC.gated, PC.waiting]
      have hW := h.hW i hwait
      have hA := h.hA i (bearing_of _ (Or.inl hwait))
      have hG := h.hG i (Or.inl hgt)
      have hH := h.hH
      unfold readSlot at hs
      simp only [qsz32, h.hq] at hs
      by_cases hm : q % 4294967296 = 0
      · simp [hm] at hs
      · rw [if_neg hm] at hs
        have noclear : ∀ k, (s.th k).pc.clearing = false := by
          intro k
          by_contra hk
          have hk : (s.th k).pc.clearing = true := by simpa using hk
          rw [h.hRing0 k hk, List.getElem?_replicate] at hs
          split_ifs at hs
          simp at hs
        rw [h.hRing1 noclear, ring_getElem? q _ _ hq0] at hs
        have hidx : (s.th i).ticket % (q % 4294967296) =
            (s.l.dequeueCount + P.card) % q := by
          by_contra hne
          simp [hne] at hs
        exact ticket_eq_of_slot q _ _ hq0 hm (by omega) hW (by omega) hidx
  · rw [hself]
    intro hg
    rcases f13 hg with h1 | ⟨_, hz⟩
    · exact Or.inl h1
    · right
      rw [h.hN] at hz
      exact Finset.card_eq_zero.1 hz

end ABRWPQL

namespace ABRWPQL

theorem ab_init_inv (q : Nat) (sleep_ns : Int) :
    (Sys.ofLock { arr := ring q 0, queue_sz := q, sleep_ns := sleep_ns, lockState := .OPEN,
                  ticket := 0, dequeueCount := 0, nReaders := 0,
                  priorityWaiting := 0 }).Inv q ∅ ∅ := by
  constructor <;>
    simp [Sys.ofLock, ring_length, PC.handedOver, PC.counted, PC.bearing, PC.waiting,
      PC.gated, PC.admitted, PC.clearing, PC.writing]

theorem ab_reachable_inv (q : Nat) (hq0 : 0 < q) (s : Sys) (hs : Reachable q s)
    (h32 : s.drawn < 4294967296) : ∃ P R, s.Inv q P R := by
  obtain ⟨sl, l, sched, hl, rfl⟩ := hs
  rw [NewABRWPQL_eq q sl hq0] at hl
  cases hl
  have h := ab_run_invariant (fun s => s.drawn < 4294967296 → ∃ P R, s.Inv q P R)
    (fun s i op ih h32 => by
      obtain ⟨P, R, hi⟩ := ih (by have := ab_step_drawn_mono s i op; omega)
      exact ab_step_inv q hq0 s P R i op hi h32)
    sched _ (fun _ => ⟨∅, ∅, ab_init_inv q sl⟩)
  exact h h32

/-- Reading one's slot flag as 1 at the second gate happens only to the caller
whose turn it is, and only while nobody is between clearing and setting. -/
theorem slot_read_one (q : Nat) (hq0 : 0 < q) (s : Sys) (P R : Finset Nat) (i : Nat)
    (h : s.Inv q P R) (h32 : s.drawn < 4294967296) (hgt : (s.th i).pc.gated = true)
    (hs : s.l.readSlot (s.th i).ticket = some 1) :
    (s.th i).ticket = s.l.dequeueCount + P.card ∧ q % 4294967296 ≠ 0 ∧
    s.l.arr = ring q (s.th i).ticket ∧
    (s.th i).ticket % s.l.qsz32 = (s.th i).ticket % q := by
  have hwait : (s.th i).pc.waiting = true := by
    revert hgt; cases (s.th i).pc <;> simp [PC.gated, PC.waiting]
  have hW := h.hW i hwait
  have hA := h.hA i (bearing_of _ (Or.inl hwait))
  have hG := h.hG i (Or.inl hgt)
  have hH := h.hH
  unfold readSlot at hs
  simp only [qsz32, h.hq] at hs ⊢
  by_cases hm : q % 4294967296 = 0
  · simp [hm] at hs
  · rw [if_neg hm] at hs
    have noclear : ∀ k, (s.th k).pc.clearing = false := by
      intro k
      by_contra hk
      have hk : (s.th k).pc.clearing = true := by simpa using hk
      rw [h.hRing0 k hk, List.getElem?_replicate] at hs
      split_ifs at hs
      simp at hs
    have harr := h.hRing1 noclear
    rw [harr, ring_getElem? q _ _ hq0] at hs
    have hidx : (s.th i).ticket % (q % 4294967296) =
        (s.l.dequeueCount + P.card) % q := by
      by_contra hne
      simp [hne] at hs
    have ht := ticket_eq_of_slot q _ _ hq0 hm (by omega) hW (by omega) hidx
    refine ⟨ht, hm, by rw [harr, ht], by rw [hidx, ht]⟩

end ABRWPQL
namespace ABRWPQL

set_option maxHeartbeats 1000000 in
/-- How a step can move a caller through the two gates, and what it can do to
`dequeueCount` and to a caller past its hand-over. -/
theorem ab_tstep_gates (op : Op) (l : ABRWPQL) (c : Local) :
    ((tstep op l c).2.pc.gated = true →
      c.pc.gated = true ∨
      (c.pc.waiting = true ∧ sub32 c.ticket l.dequeueCount < l.qsz32)) ∧
    ((tstep op l c).2.pc.admitted = true →
      c.pc.admitted = true ∨ (c.pc.gated = true ∧ l.readSlot c.ticket = some 1)) ∧
    ((tstep op l c).2.pc.handedOver = true →
      (tstep op l c).2.ticket = c.ticket ∧
      (tstep op l c).1.dequeueCount = l.dequeueCount ∧
      (c.pc.handedOver = true ∨ c.pc.clearing = true)) ∧
    ((tstep op l c).1.dequeueCount = l.dequeueCount ∨
      (c.pc.handedOver = true ∧ (tstep op l c).1.dequeueCount = inc32 l.dequeueCount)) := by
  rcases c with ⟨pc, tk, pw⟩
  cases pc <;>
    simp only [tstep, RLock, Lock, PLock, RUnlock, Unlock, PUnlock, yieldToPriorityLock,
      writeSlot] <;>
    (repeat' split) <;>
    first
      | (simp_all [PC.waiting, PC.gated, PC.admitted, PC.clearing, PC.handedOver]; done)
      | (simp_all [PC.waiting, PC.gated, PC.admitted, PC.clearing, PC.handedOver]; omega)
      | (cases op <;> simp [entry, PC.waiting, PC.gated, PC.admitted, PC.clearing,
          PC.handedOver]; done)
      | (split_ifs at * <;>
          simp_all [PC.waiting, PC.gated, PC.admitted, PC.clearing, PC.handedOver] <;>
          subst_vars <;> simp)

end ABRWPQL
namespace ABRWPQL

/-- A caller past its hand-over keeps its ticket below `dequeueCount + q`. -/
theorem ab_step_handed (q : Nat) (s : Sys) (P R : Finset Nat) (i : Nat) (op : Op)
    (h : s.Inv q P R) (h32 : (s.step i op).drawn < 4294967296)
    (hh : ∀ k, (s.th k).pc.handedOver = true →
      (s.th k).ticket < s.l.dequeueCount + q % 4294967296) :
    ∀ k, ((s.step i op).th k).pc.handedOver = true →
      ((s.step i op).th k).ticket < (s.step i op).l.dequeueCount + q % 4294967296 := by
  have hth : ∀ j, j ≠ i → (s.step i op).th j = s.th j := fun j hj => by
    simp [Sys.step, Function.update_noteq hj]
  have hself : (s.step i op).th i = (tstep op s.l (s.th i)).2 := by simp [Sys.step]
  have hl : (s.step i op).l = (tstep op s.l (s.th i)).1 := rfl
  obtain ⟨-, -, g3, g4⟩ := ab_tstep_gates op s.l (s.th i)
  have hmono := ab_step_drawn_mono s i op
  have hdc : s.l.dequeueCount ≤ (s.step i op).l.dequeueCount := by
    rw [hl]
    rcases g4 with e | ⟨hp, e⟩
    · exact le_of_eq e.symm
    · have hi : i ∈ P := (h.hP i).2 hp
      have hc : 0 < P.card := Finset.card_pos.2 ⟨i, hi⟩
      have hH := h.hH
      rw [e, inc32_of_lt (by omega)]
      omega
  intro k hk
  by_cases hki : k = i
  · subst hki
    rw [hself] at hk ⊢
    obtain ⟨e1, e2, e3⟩ := g3 hk
    rw [e1, hl, e2]
    rcases e3 with e | e
    · exact hh _ e
    · exact h.hG _ (Or.inr (Or.inr e))
  · rw [hth k hki] at hk ⊢
    have := hh k hk
    omega

theorem ab_reachable_handed (q : Nat) (hq0 : 0 < q) (s : Sys) (hs : Reachable q s)
    (h32 : s.drawn < 4294967296) :
    ∀ k, (s.th k).pc.handedOver = true →
      (s.th k).ticket < s.l.dequeueCount + q % 4294967296 := by
  obtain ⟨sl, l, sched, hl, rfl⟩ := hs
  rw [NewABRWPQL_eq q sl hq0] at hl
  cases hl
  have h := ab_run_invariant
    (fun s => s.drawn < 4294967296 → (∃ P R, s.Inv q P R) ∧
      ∀ k, (s.th k).pc.handedOver = true →
        (s.th k).ticket < s.l.dequeueCount + q % 4294967296)
    (fun s i op ih h32 => by
      obtain ⟨⟨P, R, hi⟩, hh⟩ := ih (by have := ab_step_drawn_mono s i op; omega)
      exact ⟨ab_step_inv q hq0 s P R i op hi h32, ab_step_handed q s P R i op hi h32 hh⟩)
    sched _ (fun _ => ⟨⟨∅, ∅, ab_init_inv q sl⟩, by simp [Sys.ofLock, PC.handedOver]⟩)
  exact (h h32).2

/-- C4 (admission bound of the bounded lock).  In every state `s` reachable from
`NewABRWPQL q` with `1 ≤ q` and fewer than `2^32` tickets drawn:
(1) a step takes a caller past the first gate only if the `dequeueCount` it loads
satisfies `dequeueCount ≤ t` and `t - dequeueCount < q` for its ticket `t` (and the
32-bit difference the code computes is that difference);
(2) a step takes a caller past the second gate only if it reads its slot flag as
1, the slot read being `t mod q`, and then `dequeueCount ≤ t < dequeueCount + q`;
(3) there is no other way in: a caller gets past the second gate only from behind
it, and behind the second gate only from the first;
(4) from passing the second gate until the caller's own write of the next slot
flag (the ring is advanced past `t`), `dequeueCount ≤ t` and `t - dequeueCount < q`;
(5) after that write and until the caller's own `dequeueCount.Inc()` the upper
bound `t < dequeueCount + q` still holds;
(6) a waiting caller whose ticket is at least `dequeueCount + q` stands before the
first gate and its next step passes neither gate. -/
theorem admission_bound (q : Nat) (s : Sys) (hq : 1 ≤ q) (hs : Reachable q s)
    (h32 : s.drawn < 4294967296) :
    (∀ i op, (s.th i).pc.gated = false → ((s.step i op).th i).pc.gated = true →
      (s.th i).pc.waiting = true ∧ s.l.dequeueCount ≤ (s.th i).ticket ∧
      (s.th i).ticket - s.l.dequeueCount < q ∧
      sub32 (s.th i).ticket s.l.dequeueCount = (s.th i).ticket - s.l.dequeueCount) ∧
    (∀ i op, (s.th i).pc.admitted = false → ((s.step i op).th i).pc.admitted = true →
      (s.th i).pc.gated = true ∧ s.l.readSlot (s.th i).ticket = some 1 ∧
      (s.th i).ticket % s.l.qsz32 = (s.th i).ticket % q ∧
      s.l.arr[(s.th i).ticket % q]? = some 1 ∧
      s.l.dequeueCount ≤ (s.th i).ticket ∧ (s.th i).ticket - s.l.dequeueCount < q) ∧
    (∀ i, (s.th i).pc.admitted = true ∨ (s.th i).pc.clearing = true →
      s.l.dequeueCount ≤ (s.th i).ticket ∧ (s.th i).ticket - s.l.dequeueCount < q) ∧
    (∀ i, (s.th i).pc.handedOver = true → (s.th i).ticket < s.l.dequeueCount + q) ∧
    (∀ i, (s.th i).pc.waiting = true → s.l.dequeueCount + q ≤ (s.th i).ticket →
      (s.th i).pc.gated = false ∧
      ∀ op, ((s.step i op).th i).pc.gated = false ∧
        ((s.step i op).th i).pc.admitted = false) := by
  have hq0 : 0 < q := hq
  obtain ⟨P, R, h⟩ := ab_reachable_inv q hq0 s hs h32
  have hho := ab_reachable_handed q hq0 s hs h32
  have hself : ∀ i op, (s.step i op).th i = (tstep op s.l (s.th i)).2 := fun i op => by
    simp [Sys.step]
  have hmod : q % 4294967296 ≤ q := Nat.mod_le _ _
  have gate1 : ∀ i op, (s.th i).pc.gated = false → ((s.step i op).th i).pc.gated = true →
      (s.th i).pc.waiting = true ∧ s.l.dequeueCount ≤ (s.th i).ticket ∧
      (s.th i).ticket - s.l.dequeueCount < q ∧
      sub32 (s.th i).ticket s.l.dequeueCount = (s.th i).ticket - s.l.dequeueCount := by
    intro i op hn hg
    rw [hself] at hg
    rcases (ab_tstep_gates op s.l (s.th i)).1 hg with e | ⟨hw, hsub⟩
    · rw [hn] at e; cases e
    · have hW := h.hW i hw
      have hA := h.hA i (bearing_of _ (Or.inl hw))
      have hsub2 : sub32 (s.th i).ticket s.l.dequeueCount =
          (s.th i).ticket - s.l.dequeueCount := sub32_of_le _ _ (by omega) (by omega)
      rw [hsub2] at hsub
      simp only [qsz32, h.hq] at hsub
      exact ⟨hw, by omega, by omega, hsub2⟩
  have gate2 : ∀ i op, (s.th i).pc.admitted = false →
      ((s.step i op).th i).pc.admitted = true →
      (s.th i).pc.gated = true ∧ s.l.readSlot (s.th i).ticket = some 1 ∧
      (s.th i).ticket % s.l.qsz32 = (s.th i).ticket % q ∧
      s.l.arr[(s.th i).ticket % q]? = some 1 ∧
      s.l.dequeueCount ≤ (s.th i).ticket ∧ (s.th i).ticket - s.l.dequeueCount < q := by
    intro i op hn hg
    rw [hself] at hg
    rcases (ab_tstep_gates op s.l (s.th i)).2.1 hg with e | ⟨hgt, hr⟩
    · rw [hn] at e; cases e
    · obtain ⟨ht, hm, harr, hidx⟩ := slot_read_one q hq0 s P R i h h32 hgt hr
      have hG := h.hG i (Or.inl hgt)
      refine ⟨hgt, hr, hidx, ?_, by omega, by omega⟩
      rw [harr, ring_getElem? q _ _ hq0]
      simp [Nat.mod_lt _ hq0]
  refine ⟨gate1, gate2, ?_, ?_, ?_⟩
  · intro i hi
    have hAd := h.hAd i hi
    have hG := h.hG i (Or.inr hi)
    omega
  · intro i hi
    have := hho i hi
    omega
  · intro i hw hge
    have hng : (s.th i).pc.gated = false := by
      by_contra hc
      have hc : (s.th i).pc.gated = true := by simpa using hc
      have hG := h.hG i (Or.inl hc)
      omega
    refine ⟨hng, fun op => ⟨?_, ?_⟩⟩
    · by_contra hc
      have hc : ((s.step i op).th i).pc.gated = true := by simpa using hc
      have := gate1 i op hng hc
      omega
    · by_contra hc
      have hc : ((s.step i op).th i).pc.admitted = true := by simpa using hc
      have hna : (s.th i).pc.admitted = false := by
        revert hw; cases (s.th i).pc <;> simp [PC.waiting, PC.admitted]
      have := (gate2 i op hna hc).1
      rw [hng] at this; cases this

/-- Witness for C4: five `Lock` callers on a ring of 4 slots; the caller with
ticket 4 cannot pass while `dequeueCount` is 0. -/
theorem admission_bound_witness :
    ((Sys.ofLock fresh4).run fiveLockers).drawn = 5 ∧
    ((Sys.ofLock fresh4).run fiveLockers).l.dequeueCount = 0 ∧
    (((Sys.ofLock fresh4).run fiveLockers).th 0).pc = .holdW ∧
    (((Sys.ofLock fresh4).run fiveLockers).th 4).pc = .lk_gate1 ∧
    (((Sys.ofLock fresh4).run fiveLockers).th 4).ticket = 4 ∧
    ((((Sys.ofLock fresh4).run fiveLockers).step 4 .Lock).th 4).pc.gated = false :=
  ⟨by decide, by decide, by decide, by decide, by decide,
    ((admission_bound 4 ((Sys.ofLock fresh4).run fiveLockers) (by decide)
      ⟨1000, fresh4, fiveLockers, by decide, rfl⟩ (by decide)).2.2.2.2 4 (by decide)
      (by decide)).2 .Lock |>.1⟩

end ABRWPQL

namespace ABRWPQL

/-- Counterexample for C4: between a caller's write of the next slot flag and
its own `l.dequeueCount.Inc()` the lower bound `0 ≤ t - dequeueCount` can fail.
On the ring of 4 slots caller 0 (ticket 0) stands before its
`l.dequeueCount.Inc()` (abrwpql.go 65) after callers 1 and 2, admitted through
the flags handed on, have completed `RLock` and incremented `dequeueCount` to 2:
`dequeueCount > t`, and the `uint32` difference `t - dequeueCount` is
`2^32 - 2`, not below `queue_sz`. -/
theorem lower_bound_fails_before_own_increment :
    Reachable 4 ((Sys.ofLock fresh4).run overtakeSchedule) ∧
    ((Sys.ofLock fresh4).run overtakeSchedule).drawn = 3 ∧
    (((Sys.ofLock fresh4).run overtakeSchedule).th 0).pc = .rl_dq ∧
    (((Sys.ofLock fresh4).run overtakeSchedule).th 0).ticket = 0 ∧
    (((Sys.ofLock fresh4).run overtakeSchedule).th 1).pc = .holdR ∧
    (((Sys.ofLock fresh4).run overtakeSchedule).th 2).pc = .holdR ∧
    ((Sys.ofLock fresh4).run overtakeSchedule).l.dequeueCount = 2 ∧
    ¬ ((Sys.ofLock fresh4).run overtakeSchedule).l.dequeueCount ≤
        (((Sys.ofLock fresh4).run overtakeSchedule).th 0).ticket ∧
    sub32 (((Sys.ofLock fresh4).run overtakeSchedule).th 0).ticket
        ((Sys.ofLock fresh4).run overtakeSchedule).l.dequeueCount = 4294967294 :=
  ⟨⟨1000, fresh4, overtakeSchedule, by decide, rfl⟩, by decide, by decide, by decide,
    by decide, by decide, by decide, by decide, by decide⟩

end ABRWPQL
namespace ABRWPQL

/-- C12 (the writer waits out pipelined readers).  In every state reachable from
`NewABRWPQL q` with `1 ≤ q` and fewer than `2^32` tickets drawn, callers of
`RLock`, `Lock` and `PLock` taking atomic steps in any order:
(1) no caller for which `Lock` has returned and that has not yet called `Unlock`
coexists with a caller for which `RLock` has returned and that has not yet called
`RUnlock`;
(2) `nReaders` is exactly the number of callers between `l.nReaders.Inc()` of
`RLock` and `l.nReaders.Dec()` of `RUnlock`;
(3) a writer leaves its wait for the readers only on loading `nReaders = 0`;
(4) while a writer is past that wait and has not called `Unlock`, `nReaders` is 0
and no caller is counted in it. -/
theorem writer_excludes_readers (q : Nat) (s : Sys) (hq : 1 ≤ q) (hs : Reachable q s)
    (h32 : s.drawn < 4294967296) :
    (∀ i j, (s.th i).pc = .holdW → (s.th j).pc ≠ .holdR) ∧
    (∃ R : Finset Nat, (∀ i, i ∈ R ↔ (s.th i).pc.counted = true) ∧
      s.l.nReaders = R.card) ∧
    (∀ i op, (s.th i).pc.writing = false → ((s.step i op).th i).pc.writing = true →
      ((s.th i).pc = .lk_nr ∨ (s.th i).pc = .lk_nr_sleep) ∧ s.l.nReaders = 0) ∧
    (∀ i, (s.th i).pc.writing = true →
      s.l.nReaders = 0 ∧ ∀ j, (s.th j).pc.counted = false) := by
  obtain ⟨P, R, h⟩ := ab_reachable_inv q hq s hs h32
  have hwr : ∀ i, (s.th i).pc.writing = true →
      s.l.nReaders = 0 ∧ ∀ j, (s.th j).pc.counted = false := by
    intro i hi
    have hR := h.hX i hi
    refine ⟨by rw [h.hN, hR]; rfl, fun j => ?_⟩
    by_contra hc
    have hc : (s.th j).pc.counted = true := by simpa using hc
    have := (h.hR j).2 hc
    rw [hR] at this
    exact absurd this (Finset.not_mem_empty j)
  refine ⟨?_, ⟨R, h.hR, h.hN⟩, ?_, hwr⟩
  · intro i j hi hj
    have h1 := (hwr i (by rw [hi]; rfl)).2 j
    rw [hj] at h1
    cases h1
  · intro i op hn hw
    have hself : (s.step i op).th i = (tstep op s.l (s.th i)).2 := by simp [Sys.step]
    rw [hself] at hw
    revert hn hw
    rcases s.th i with ⟨pc, tk, pw⟩
    cases pc <;>
      simp only [tstep, RLock, Lock, PLock, RUnlock, Unlock, PUnlock, yieldToPriorityLock] <;>
      (repeat' split) <;>
      first
        | (simp_all [PC.writing]; done)
        | (simp_all [PC.writing]; omega)
        | (cases op <;> simp [entry, PC.writing])

/-- Witness for C12: a reader holds and the writer with the next ticket is
waiting for `nReaders = 0`; no caller holds write access. -/
theorem writer_excludes_readers_witness :
    (((Sys.ofLock fresh4).run readerThenWriter).th 0).pc = .holdR ∧
    (((Sys.ofLock fresh4).run readerThenWriter).th 1).pc = .lk_nr_sleep ∧
    ((Sys.ofLock fresh4).run readerThenWriter).l.nReaders = 1 ∧
    ∀ i, (((Sys.ofLock fresh4).run readerThenWriter).th i).pc ≠ .holdW :=
  ⟨by decide, by decide, by decide, fun i hi =>
    (writer_excludes_readers 4 ((Sys.ofLock fresh4).run readerThenWriter) (by decide)
      ⟨1000, fresh4, readerThenWriter, by decide, rfl⟩ (by decide)).1 i 0 hi (by decide)⟩

end ABRWPQL
namespace RWPQL

theorem call_mono (op : Op) : ∀ (n : Nat) (l : RWPQL) (c : Local) (r : Outcome RWPQL Local),
    call op n l c = r → r ≠ .unfinished → ∀ k, call op (n + k) l c = r := by
  intro n
  induction n with
  | zero => intro l c r h hr; simp [call] at h; exact absurd h.symm hr
  | succ n ih =>
    intro l c r h hr k
    have e : n + 1 + k = (n + k) + 1 := by omega
    rw [e]
    simp only [call] at h ⊢
    split_ifs at h ⊢ with h1 h2
    · exact h
    · exact h
    · exact ih _ _ _ h hr k

end RWPQL

namespace ABRWPQL

theorem ab_call_mono (op : Op) :
    ∀ (n : Nat) (l : ABRWPQL) (c : Local) (r : Outcome ABRWPQL Local),
    call op n l c = r → r ≠ .unfinished → ∀ k, call op (n + k) l c = r := by
  intro n
  induction n with
  | zero => intro l c r h hr; simp [call] at h; exact absurd h.symm hr
  | succ n ih =>
    intro l c r h hr k
    have e : n + 1 + k = (n + k) + 1 := by omega
    rw [e]
    simp only [call] at h ⊢
    split_ifs at h ⊢ with h1 h2 h3
    · exact h
    · exact h
    · exact h
    · exact ih _ _ _ h hr k

/-- A call that returns within some number of steps returns the same within 12,
provided 12 steps are enough to decide the call. -/
theorem ab_returned_at (op : Op) (fuel : Nat) (l : ABRWPQL) (c : Local) (l2 : ABRWPQL)
    (c2 : Local) (h12 : call op 12 l c ≠ .unfinished)
    (h : call op fuel l c = .returned l2 c2) : call op 12 l c = .returned l2 c2 := by
  by_cases hf : fuel ≤ 12
  · have := ab_call_mono op fuel l c _ h (by simp) (12 - fuel)
    rwa [show fuel + (12 - fuel) = 12 by omega] at this
  · have := ab_call_mono op 12 l c _ rfl h12 (fuel - 12)
    rw [show 12 + (fuel - 12) = fuel by omega] at this
    rw [← this]; exact h

end ABRWPQL
namespace RWPQL

theorem call_succ (op : Op) (n : Nat) (l : RWPQL) (c : Local) :
    call op (n + 1) l c =
      if (tstep op l c).2.pc.sleeping then .blocked
      else if (tstep op l c).2.pc.between then .returned (tstep op l c).1 (tstep op l c).2
      else call op n (tstep op l c).1 (tstep op l c).2 := rfl

end RWPQL

namespace ABRWPQL

theorem ab_call_succ (op : Op) (n : Nat) (l : ABRWPQL) (c : Local) :
    call op (n + 1) l c =
      if (tstep op l c).2.pc.sleeping then .blocked
      else if (tstep op l c).2.pc = .panicked then .panicked
      else if (tstep op l c).2.pc.between then .returned (tstep op l c).1 (tstep op l c).2
      else call op n (tstep op l c).1 (tstep op l c).2 := rfl

theorem sub32_self (t : Nat) : sub32 t t = 0 := by unfold sub32; simp

theorem sub32_inc32 (t : Nat) (ht : t < 4294967296) : sub32 (inc32 t) t = 1 := by
  by_cases h : t + 1 < 4294967296
  · rw [inc32_of_lt h, sub32_of_le _ _ h (by omega)]; omega
  · have e2 : t = 4294967295 := by omega
    subst e2
    decide

theorem inc32_lt (t : Nat) : inc32 t < 4294967296 := by
  unfold inc32; exact Nat.mod_lt _ (by decide)

/-- The slot read of the second gate on a ring whose flag is at `h`. -/
theorem readSlot_ring (l : ABRWPQL) (q h t : Nat) (hq : 0 < q) (hqs : l.queue_sz = q)
    (ha : l.arr = ring q h) (hm : q % 4294967296 ≠ 0) :
    l.readSlot t = some (if t % (q % 4294967296) = h % q then 1 else 0) := by
  have h1 : t % (q % 4294967296) < q % 4294967296 := Nat.mod_lt _ (Nat.pos_of_ne_zero hm)
  have h2 : q % 4294967296 ≤ q := Nat.mod_le _ _
  simp only [readSlot, qsz32, hqs, if_neg hm, ha]
  rw [ring_getElem? q h _ hq, if_pos (by omega)]

/-- `RLock` run alone while nothing but read access is held. -/
theorem ab_seq_RLock (l : ABRWPQL) (q t : Nat) (hq : 0 < q) (hqs : l.queue_sz = q)
    (ha : l.arr = ring q t) (hs : l.lockState = .OPEN ∨ l.lockState = .RLOCKED)
    (hp : l.priorityWaiting = 0) (hd : l.dequeueCount = t) (ht : l.ticket = t)
    (h32 : t < 4294967296) :
    call .RLock 12 l idleCaller =
      if gatesAgree q t then
        .returned { l with arr := ring q (inc32 t), lockState := .RLOCKED, ticket := inc32 t,
                           dequeueCount := inc32 t, nReaders := inc32 l.nReaders }
          { pc := .holdR, ticket := t, pw := 0 }
      else .blocked := by
  obtain ⟨arr, qs, sl, ls, tk, dc, nr, pw⟩ := l
  simp only at hqs ha hs hp hd ht
  subst hqs ha hp ht hd
  have h2 : dec32 (inc32 dc) = dc := dec32_inc32 h32
  have h4 := sub32_self dc
  have h7 : dc % qs < qs := Nat.mod_lt _ hq
  have h8 : inc32 dc % qs < qs := Nat.mod_lt _ hq
  have h9 : qs ≠ 0 := by omega
  rw [ab_call_succ]; simp [tstep, entry, idleCaller, PC.sleeping, PC.between]
  rw [ab_call_succ]; simp [tstep, RLock, PC.sleeping, PC.between, h2]
  by_cases hm : qs % 4294967296 = 0
  · have hg : ¬ gatesAgree qs dc := fun h => h.1 hm
    rw [if_neg hg]
    rw [ab_call_succ]; simp [tstep, RLock, PC.sleeping, PC.between, h4, qsz32, hm]
  · have hmpos : 0 < qs % 4294967296 := Nat.pos_of_ne_zero hm
    rw [ab_call_succ]; simp [tstep, RLock, PC.sleeping, PC.between, h4, qsz32, hm]
    rw [ab_call_succ]
    simp only [tstep, RLock]
    rw [readSlot_ring _ qs dc dc hq rfl rfl hm]
    by_cases hi : dc % (qs % 4294967296) = dc % qs
    · have hg : gatesAgree qs dc := ⟨hm, hi⟩
      rw [if_pos hg]
      simp [PC.sleeping, PC.between, hi]
      rcases hs with hs | hs <;> subst hs
      · rw [ab_call_succ]; simp [tstep, RLock, PC.sleeping, PC.between]
        rw [ab_call_succ]; simp [tstep, RLock, PC.sleeping, PC.between]
        rw [ab_call_succ]; simp [tstep, RLock, PC.sleeping, PC.between]
        rw [ab_call_succ]; simp [tstep, RLock, PC.sleeping, PC.between]
        rw [ab_call_succ]
        simp [tstep, RLock, PC.sleeping, PC.between, writeSlot, h9, h7, ring_length,
          ring_clear qs dc hq]
        rw [ab_call_succ]
        simp [tstep, RLock, PC.sleeping, PC.between, writeSlot, h9, h8, ring_of_zeros]
        rw [ab_call_succ]; simp [tstep, RLock, PC.sleeping, PC.between]
      · rw [ab_call_succ]; simp [tstep, RLock, PC.sleeping, PC.between]
        rw [ab_call_succ]; simp [tstep, RLock, PC.sleeping, PC.between]
        rw [ab_call_succ]; simp [tstep, RLock, PC.sleeping, PC.between]
        rw [ab_call_succ]
        simp [tstep, RLock, PC.sleeping, PC.between, writeSlot, h9, h7, ring_length,
          ring_clear qs dc hq]
        rw [ab_call_succ]
        simp [tstep, RLock, PC.sleeping, PC.between, writeSlot, h9, h8, ring_of_zeros]
        rw [ab_call_succ]; simp [tstep, RLock, PC.sleeping, PC.between]
    · have hg : ¬ gatesAgree qs dc := fun h => hi h.2
      rw [if_neg hg]
      simp [PC.sleeping, PC.between, hi]

end ABRWPQL
namespace ABRWPQL

/-- `Lock` run alone while nothing is held. -/
theorem ab_seq_Lock (l : ABRWPQL) (q t : Nat) (hq : 0 < q) (hqs : l.queue_sz = q)
    (ha : l.arr = ring q t) (hs : l.lockState = .OPEN) (hn : l.nReaders = 0)
    (hp : l.priorityWaiting = 0) (hd : l.dequeueCount = t) (ht : l.ticket = t)
    (h32 : t < 4294967296) :
    call .Lock 12 l idleCaller =
      if gatesAgree q t then
        .returned { l with lockState := .LOCKED, ticket := inc32 t }
          { pc := .holdW, ticket := t, pw := 0 }
      else .blocked := by
  obtain ⟨arr, qs, sl, ls, tk, dc, nr, pw⟩ := l
  simp only at hqs ha hs hp hd ht hn
  subst hqs ha hp ht hd hs hn
  have h2 : dec32 (inc32 dc) = dc := dec32_inc32 h32
  have h4 := sub32_self dc
  rw [ab_call_succ]; simp [tstep, entry, idleCaller, PC.sleeping, PC.between]
  rw [ab_call_succ]; simp [tstep, Lock, PC.sleeping, PC.between, h2]
  by_cases hm : qs % 4294967296 = 0
  · have hg : ¬ gatesAgree qs dc := fun h => h.1 hm
    rw [if_neg hg]
    rw [ab_call_succ]; simp [tstep, Lock, PC.sleeping, PC.between, h4, qsz32, hm]
  · rw [ab_call_succ]; simp [tstep, Lock, PC.sleeping, PC.between, h4, qsz32, hm]
    rw [ab_call_succ]
    simp only [tstep, Lock]
    rw [readSlot_ring _ qs dc dc hq rfl rfl hm]
    by_cases hi : dc % (qs % 4294967296) = dc % qs
    · have hg : gatesAgree qs dc := ⟨hm, hi⟩
      rw [if_pos hg]
      simp [PC.sleeping, PC.between, hi]
      rw [ab_call_succ]; simp [tstep, Lock, PC.sleeping, PC.between]
      rw [ab_call_succ]; simp [tstep, Lock, PC.sleeping, PC.between]
      rw [ab_call_succ]; simp [tstep, Lock, PC.sleeping, PC.between]
    · have hg : ¬ gatesAgree qs dc := fun h => hi h.2
      rw [if_neg hg]
      simp [PC.sleeping, PC.between, hi]

/-- `PLock` run alone while nothing is held. -/
theorem ab_seq_PLock (l : ABRWPQL) (hs : l.lockState = .OPEN) (hp : l.priorityWaiting = 0) :
    call .PLock 12 l idleCaller =
      .returned { l with lockState := .PRIORITY_LOCKED } { pc := .holdP, ticket := 0, pw := 0 } := by
  obtain ⟨arr, qs, sl, ls, tk, dc, nr, pw⟩ := l
  simp only at hs hp
  subst hs hp
  have h2 : dec32 (inc32 0) = 0 := dec32_inc32 (by decide)
  rw [ab_call_succ]; simp [tstep, entry, idleCaller, PC.sleeping, PC.between]
  rw [ab_call_succ]; simp [tstep, PLock, PC.sleeping, PC.between]
  rw [ab_call_succ]; simp [tstep, PLock, PC.sleeping, PC.between]
  rw [ab_call_succ]; simp [tstep, PLock, PC.sleeping, PC.between, h2]

/-- `RLock` run alone while a writer or a priority caller holds. -/
theorem ab_seq_RLock_blocked (l : ABRWPQL) (hl : l.arr.length = l.queue_sz)
    (h1 : l.lockState ≠ .OPEN) (h2 : l.lockState ≠ .RLOCKED) :
    call .RLock 12 l idleCaller = .blocked := by
  rw [ab_call_succ]; simp [tstep, entry, idleCaller, PC.sleeping, PC.between]
  rw [ab_call_succ]; simp [tstep, RLock, PC.sleeping, PC.between]
  rw [ab_call_succ]
  by_cases hg : l.queue_sz % 4294967296 ≤ sub32 (dec32 (inc32 l.ticket)) l.dequeueCount
  · simp [tstep, RLock, PC.sleeping, PC.between, qsz32, hg]
  · simp [tstep, RLock, PC.sleeping, PC.between, qsz32, hg]
    have hm : ({ l with ticket := inc32 l.ticket } : ABRWPQL).qsz32 ≠ 0 := by
      intro h0; apply hg; simp only [qsz32] at h0; rw [h0]; exact Nat.zero_le _
    obtain ⟨v, hv⟩ := readSlot_isSome { l with ticket := inc32 l.ticket }
      (dec32 (inc32 l.ticket)) hl hm
    rw [ab_call_succ]; simp only [tstep, RLock, hv]
    by_cases hv1 : v = 1
    · simp [hv1, PC.sleeping, PC.between]
      rw [ab_call_succ]; simp [tstep, RLock, PC.sleeping, PC.between, h2]
      rw [ab_call_succ]; simp [tstep, RLock, PC.sleeping, PC.between, h1]
    · simp [hv1, PC.sleeping, PC.between]

/-- `Lock` run alone while anything is held. -/
theorem ab_seq_Lock_blocked (l : ABRWPQL) (hl : l.arr.length = l.queue_sz)
    (h1 : 0 < l.nReaders ∨ l.lockState ≠ .OPEN) :
    call .Lock 12 l idleCaller = .blocked := by
  rw [ab_call_succ]; simp [tstep, entry, idleCaller, PC.sleeping, PC.between]
  rw [ab_call_succ]; simp [tstep, Lock, PC.sleeping, PC.between]
  rw [ab_call_succ]
  by_cases hg : l.queue_sz % 4294967296 ≤ sub32 (dec32 (inc32 l.ticket)) l.dequeueCount
  · simp [tstep, Lock, PC.sleeping, PC.between, qsz32, hg]
  · simp [tstep, Lock, PC.sleeping, PC.between, qsz32, hg]
    have hm : ({ l with ticket := inc32 l.ticket } : ABRWPQL).qsz32 ≠ 0 := by
      intro h0; apply hg; simp only [qsz32] at h0; rw [h0]; exact Nat.zero_le _
    obtain ⟨v, hv⟩ := readSlot_isSome { l with ticket := inc32 l.ticket }
      (dec32 (inc32 l.ticket)) hl hm
    rw [ab_call_succ]; simp only [tstep, Lock, hv]
    by_cases hv1 : v = 1
    · simp [hv1, PC.sleeping, PC.between]
      rw [ab_call_succ]; simp only [tstep, Lock]
      by_cases hn : l.nReaders > 0
      · simp [hn, PC.sleeping]
      · have h0 : l.lockState ≠ .OPEN := by
          rcases h1 with h | h
          · exact absurd h hn
          · exact h
        simp [hn, PC.sleeping, PC.between]
        rw [ab_call_succ]; simp [tstep, Lock, PC.sleeping, PC.between, h0]
    · simp [hv1, PC.sleeping, PC.between]

/-- `PLock` run alone while anything is held. -/
theorem ab_seq_PLock_blocked (l : ABRWPQL) (h1 : l.lockState ≠ .OPEN)
    (h2 : l.lockState ≠ .PRIORITY_LOCK_RESERVED) :
    call .PLock 12 l idleCaller = .blocked := by
  rw [ab_call_succ]; simp [tstep, entry, idleCaller, PC.sleeping, PC.between]
  rw [ab_call_succ]; simp [tstep, PLock, PC.sleeping, PC.between]
  rw [ab_call_succ]; simp [tstep, PLock, PC.sleeping, PC.between, h1]
  rw [ab_call_succ]; simp [tstep, PLock, PC.sleeping, PC.between, h2]

/-- `RUnlock` run alone. -/
theorem ab_seq_RUnlock (l : ABRWPQL) (op : Op) :
    call op 12 l { pc := .holdR, ticket := 0, pw := 0 } =
      .returned { l with nReaders := dec32 l.nReaders
                         lockState := if dec32 l.nReaders = 0 then .OPEN else l.lockState }
        { pc := .idle, ticket := 0, pw := 0 } :=
  ab_call_mono op 3 l _ _ (ab_call_RUnlock l _ op rfl) (by simp) 9

/-- `Unlock` run alone by the writer whose flag is set. -/
theorem ab_seq_Unlock (l : ABRWPQL) (op : Op) (q t : Nat) (hq : 0 < q) (hqs : l.queue_sz = q)
    (ha : l.arr = ring q t) :
    call op 12 l { pc := .holdW, ticket := t, pw := 0 } =
      .returned { l with arr := ring q (inc32 t), lockState := .OPEN,
                         dequeueCount := inc32 l.dequeueCount }
        { pc := .idle, ticket := t, pw := 0 } := by
  obtain ⟨arr, qs, sl, ls, tk, dc, nr, pw⟩ := l
  simp only at hqs ha
  subst hqs ha
  have h7 : t % qs < qs := Nat.mod_lt _ hq
  have h8 : inc32 t % qs < qs := Nat.mod_lt _ hq
  have h9 : qs ≠ 0 := by omega
  rw [ab_call_succ]; simp [tstep, PC.sleeping, PC.between]
  rw [ab_call_succ]
  simp [tstep, Unlock, PC.sleeping, PC.between, writeSlot, h9, h7, ring_length,
    ring_clear qs t hq]
  rw [ab_call_succ]
  simp [tstep, Unlock, PC.sleeping, PC.between, writeSlot, h9, h8, ring_of_zeros]
  rw [ab_call_succ]; simp [tstep, Unlock, PC.sleeping, PC.between]
  rw [ab_call_succ]; simp [tstep, Unlock, PC.sleeping, PC.between]

/-- `PUnlock` run alone. -/
theorem ab_seq_PUnlock (l : ABRWPQL) (op : Op) :
    call op 12 l { pc := .holdP, ticket := 0, pw := 0 } =
      .returned { l with lockState := .OPEN } { pc := .idle, ticket := 0, pw := 0 } := by
  rw [ab_call_succ]; simp [tstep, PC.sleeping, PC.between]
  rw [ab_call_succ]; simp [tstep, PUnlock, PC.sleeping, PC.between]

end ABRWPQL
namespace ABRWPQL

/-- Consecutive tickets have different slots, as the second gate computes them,
unless the ring size divides `2^32 - 1` (or the first gate admits only the
ticket whose turn it is). -/
theorem next_slot_ne (q t : Nat) (hq : 0 < q) (ht : t < 4294967296)
    (hc : q = 1 ∨ ¬ q ∣ 4294967295) (hm : 1 < q % 4294967296) :
    inc32 t % (q % 4294967296) ≠ t % q := by
  intro heq
  have hmlt : q % 4294967296 < 4294967296 := Nat.mod_lt _ (by decide)
  by_cases hq32 : q < 4294967296
  · rw [Nat.mod_eq_of_lt hq32] at heq hm
    have hq1 : ¬ q = 1 := by omega
    have hnd : ¬ q ∣ 4294967295 := by
      rcases hc with h | h
      · exact absurd h hq1
      · exact h
    by_cases h1 : t + 1 < 4294967296
    · rw [inc32_of_lt h1] at heq
      have h2 := Nat.sub_mod_eq_zero_of_mod_eq heq
      rw [Nat.add_sub_cancel_left, Nat.mod_eq_of_lt hm] at h2
      exact absurd h2 (by decide)
    · have e : t = 4294967295 := by omega
      subst e
      have e0 : inc32 4294967295 = 0 := by decide
      rw [e0, Nat.zero_mod] at heq
      exact hnd (Nat.dvd_of_mod_eq_zero heq.symm)
  · have htq : t % q = t := Nat.mod_eq_of_lt (by omega)
    rw [htq] at heq
    have hlt : inc32 t % (q % 4294967296) < q % 4294967296 := Nat.mod_lt _ (by omega)
    by_cases h1 : t + 1 < 4294967296
    · rw [inc32_of_lt h1] at heq hlt
      by_cases h2 : t + 1 < q % 4294967296
      · rw [Nat.mod_eq_of_lt h2] at heq; omega
      · have e : t + 1 = q % 4294967296 := by omega
        rw [e, Nat.mod_self] at heq
        omega
    · omega

/-- `RLock` run alone while a `Lock` is outstanding, on a ring on which the next
ticket does not meet the flag. -/
theorem ab_seq_RLock_behind (l : ABRWPQL) (q t : Nat) (hq : 0 < q) (hqs : l.queue_sz = q)
    (ha : l.arr = ring q t) (hd : l.dequeueCount = t) (ht : l.ticket = inc32 t)
    (h32 : t < 4294967296) (hc : q = 1 ∨ ¬ q ∣ 4294967295) :
    call .RLock 12 l idleCaller = .blocked := by
  obtain ⟨arr, qs, sl, ls, tk, dc, nr, pw⟩ := l
  simp only at hqs ha hd ht
  subst hqs ha ht hd
  have h2 : dec32 (inc32 (inc32 dc)) = inc32 dc := dec32_inc32 (inc32_lt dc)
  have h4 := sub32_inc32 dc h32
  rw [ab_call_succ]; simp [tstep, entry, idleCaller, PC.sleeping, PC.between]
  rw [ab_call_succ]; simp [tstep, RLock, PC.sleeping, PC.between, h2]
  rw [ab_call_succ]
  by_cases hm : qs % 4294967296 ≤ 1
  · simp [tstep, RLock, PC.sleeping, PC.between, h4, qsz32, hm]
  · simp [tstep, RLock, PC.sleeping, PC.between, h4, qsz32, hm]
    have hm0 : qs % 4294967296 ≠ 0 := by omega
    have hne := next_slot_ne qs dc hq h32 hc (by omega)
    rw [ab_call_succ]
    simp only [tstep, RLock]
    rw [readSlot_ring _ qs dc (inc32 dc) hq rfl rfl hm0]
    simp [PC.sleeping, PC.between, hne]

/-- `Lock` run alone while a `Lock` is outstanding, on a ring on which the next
ticket does not meet the flag. -/
theorem ab_seq_Lock_behind (l : ABRWPQL) (q t : Nat) (hq : 0 < q) (hqs : l.queue_sz = q)
    (ha : l.arr = ring q t) (hd : l.dequeueCount = t) (ht : l.ticket = inc32 t)
    (h32 : t < 4294967296) (hc : q = 1 ∨ ¬ q ∣ 4294967295) :
    call .Lock 12 l idleCaller = .blocked := by
  obtain ⟨arr, qs, sl, ls, tk, dc, nr, pw⟩ := l
  simp only at hqs ha hd ht
  subst hqs ha ht hd
  have h2 : dec32 (inc32 (inc32 dc)) = inc32 dc := dec32_inc32 (inc32_lt dc)
  have h4 := sub32_inc32 dc h32
  rw [ab_call_succ]; simp [tstep, entry, idleCaller, PC.sleeping, PC.between]
  rw [ab_call_succ]; simp [tstep, Lock, PC.sleeping, PC.between, h2]
  rw [ab_call_succ]
  by_cases hm : qs % 4294967296 ≤ 1
  · simp [tstep, Lock, PC.sleeping, PC.between, h4, qsz32, hm]
  · simp [tstep, Lock, PC.sleeping, PC.between, h4, qsz32, hm]
    have hm0 : qs % 4294967296 ≠ 0 := by omega
    have hne := next_slot_ne qs dc hq h32 hc (by omega)
    rw [ab_call_succ]
    simp only [tstep, Lock]
    rw [readSlot_ring _ qs dc (inc32 dc) hq rfl rfl hm0]
    simp [PC.sleeping, PC.between, hne]

end ABRWPQL
namespace ABRWPQL

/-- One call executed alone keeps the state of the bounded lock between calls,
as long as no more than `2^32` read holds are outstanding. -/
theorem ab_perform_inv (q fuel : Nat) (l l2 : ABRWPQL) (h h2 : Held) (c : Call) (hq : 0 < q)
    (hI : SeqInv q l h) (hb : c = .RLock → h.readers + 1 ≤ 4294967296)
    (hp : perform fuel (l, h) c = some (l2, h2)) : SeqInv q l2 h2 := by
  obtain ⟨hqs, hpw, ht, hmode⟩ := hI
  have hlen : ∀ t, l.arr = ring q t → l.arr.length = l.queue_sz := fun t e => by
    rw [e, ring_length, hqs]
  cases c with
  | RLock =>
    have hb := hb rfl
    simp only [perform] at hp
    cases hcall : call .RLock fuel l idleCaller with
    | blocked => rw [hcall] at hp; simp at hp
    | panicked => rw [hcall] at hp; simp at hp
    | unfinished => rw [hcall] at hp; simp at hp
    | returned a b =>
      rw [hcall] at hp
      simp only [Option.some.injEq, Prod.mk.injEq] at hp
      obtain ⟨rfl, rfl⟩ := hp
      rcases hmode with ⟨hw, hpl, ha, hd, hn, hr, hs⟩ | ⟨t, hw, hpl, hr, ht2, ha, hd, htk, hn, hs⟩ |
          ⟨hw, hpl, hr, ha, hd, hn, hs⟩
      · have hs2 : l.lockState = .OPEN ∨ l.lockState = .RLOCKED := by
          rw [hs]; split_ifs <;> simp
        have ev := ab_seq_RLock l q l.dequeueCount hq hqs ha hs2 hpw rfl hd.symm (by omega)
        have h12 : call .RLock 12 l idleCaller ≠ .unfinished := by
          rw [ev]; split_ifs <;> simp
        have hret := ab_returned_at _ _ _ _ _ _ h12 hcall
        rw [ev] at hret
        split_ifs at hret with hg
        simp only [Outcome.returned.injEq] at hret
        obtain ⟨rfl, -⟩ := hret
        refine ⟨hqs, hpw, inc32_lt _, Or.inl ⟨hw, hpl, rfl, rfl, ?_, hb, ?_⟩⟩
        · simp only [hn]; unfold inc32; omega
        · simp
      · have ev := ab_seq_RLock_blocked l (hlen t ha) (by rw [hs]; simp) (by rw [hs]; simp)
        have hret := ab_returned_at _ _ _ _ _ _ (by rw [ev]; simp) hcall
        rw [ev] at hret; cases hret
      · have ev := ab_seq_RLock_blocked l (hlen _ ha) (by rw [hs]; simp) (by rw [hs]; simp)
        have hret := ab_returned_at _ _ _ _ _ _ (by rw [ev]; simp) hcall
        rw [ev] at hret; cases hret
  | Lock =>
    simp only [perform] at hp
    cases hcall : call .Lock fuel l idleCaller with
    | blocked => rw [hcall] at hp; simp at hp
    | panicked => rw [hcall] at hp; simp at hp
    | unfinished => rw [hcall] at hp; simp at hp
    | returned a b =>
      rw [hcall] at hp
      simp only [Option.some.injEq, Prod.mk.injEq] at hp
      obtain ⟨rfl, rfl⟩ := hp
      rcases hmode with ⟨hw, hpl, ha, hd, hn, hr, hs⟩ | ⟨t, hw, hpl, hr, ht2, ha, hd, htk, hn, hs⟩ |
          ⟨hw, hpl, hr, ha, hd, hn, hs⟩
      · by_cases hr0 : h.readers = 0
        · rw [if_pos hr0] at hs
          have ev := ab_seq_Lock l q l.dequeueCount hq hqs ha hs (by rw [hn, hr0]) hpw rfl
            hd.symm (by omega)
          have h12 : call .Lock 12 l idleCaller ≠ .unfinished := by
            rw [ev]; split_ifs <;> simp
          have hret := ab_returned_at _ _ _ _ _ _ h12 hcall
          rw [ev] at hret
          split_ifs at hret with hg
          simp only [Outcome.returned.injEq] at hret
          obtain ⟨rfl, rfl⟩ := hret
          refine ⟨hqs, hpw, inc32_lt _, Or.inr (Or.inl ⟨l.dequeueCount, ?_, hpl, hr0, by omega,
            ha, rfl, ?_, ?_, rfl⟩)⟩
          · simp [hw]
          · simp only [hd]
          · simp only [hn, hr0]
        · rw [if_neg hr0] at hs
          have ev := ab_seq_Lock_blocked l (hlen _ ha) (Or.inr (by rw [hs]; simp))
          have hret := ab_returned_at _ _ _ _ _ _ (by rw [ev]; simp) hcall
          rw [ev] at hret; cases hret
      · have ev := ab_seq_Lock_blocked l (hlen t ha) (Or.inr (by rw [hs]; simp))
        have hret := ab_returned_at _ _ _ _ _ _ (by rw [ev]; simp) hcall
        rw [ev] at hret; cases hret
      · have ev := ab_seq_Lock_blocked l (hlen _ ha) (Or.inr (by rw [hs]; simp))
        have hret := ab_returned_at _ _ _ _ _ _ (by rw [ev]; simp) hcall
        rw [ev] at hret; cases hret
  | PLock =>
    simp only [perform] at hp
    cases hcall : call .PLock fuel l idleCaller with
    | blocked => rw [hcall] at hp; simp at hp
    | panicked => rw [hcall] at hp; simp at hp
    | unfinished => rw [hcall] at hp; simp at hp
    | returned a b =>
      rw [hcall] at hp
      simp only [Option.some.injEq, Prod.mk.injEq] at hp
      obtain ⟨rfl, rfl⟩ := hp
      rcases hmode with ⟨hw, hpl, ha, hd, hn, hr, hs⟩ | ⟨t, hw, hpl, hr, ht2, ha, hd, htk, hn, hs⟩ |
          ⟨hw, hpl, hr, ha, hd, hn, hs⟩
      · by_cases hr0 : h.readers = 0
        · rw [if_pos hr0] at hs
          have ev := ab_seq_PLock l hs hpw
          have hret := ab_returned_at _ _ _ _ _ _ (by rw [ev]; simp) hcall
          rw [ev] at hret
          simp only [Outcome.returned.injEq] at hret
          obtain ⟨rfl, -⟩ := hret
          refine ⟨hqs, hpw, ht, Or.inr (Or.inr ⟨hw, ?_, hr0, ha, hd, ?_, rfl⟩)⟩
          · simp [hpl]
          · simp only [hn, hr0]
        · rw [if_neg hr0] at hs
          have ev := ab_seq_PLock_blocked l (by rw [hs]; simp) (by rw [hs]; simp)
          have hret := ab_returned_at _ _ _ _ _ _ (by rw [ev]; simp) hcall
          rw [ev] at hret; cases hret
      · have ev := ab_seq_PLock_blocked l (by rw [hs]; simp) (by rw [hs]; simp)
        have hret := ab_returned_at _ _ _ _ _ _ (by rw [ev]; simp) hcall
        rw [ev] at hret; cases hret
      · have ev := ab_seq_PLock_blocked l (by rw [hs]; simp) (by rw [hs]; simp)
        have hret := ab_returned_at _ _ _ _ _ _ (by rw [ev]; simp) hcall
        rw [ev] at hret; cases hret
  | RUnlock =>
    simp only [perform] at hp
    split_ifs at hp with hr0
    cases hcall : call .RLock fuel l { pc := .holdR, ticket := 0, pw := 0 } with
    | blocked => rw [hcall] at hp; simp at hp
    | panicked => rw [hcall] at hp; simp at hp
    | unfinished => rw [hcall] at hp; simp at hp
    | returned a b =>
      rw [hcall] at hp
      simp only [Option.some.injEq, Prod.mk.injEq] at hp
      obtain ⟨rfl, rfl⟩ := hp
      have ev := ab_seq_RUnlock l .RLock
      have hret := ab_returned_at _ _ _ _ _ _ (by rw [ev]; simp) hcall
      rw [ev] at hret
      simp only [Outcome.returned.injEq] at hret
      obtain ⟨rfl, -⟩ := hret
      rcases hmode with ⟨hw, hpl, ha, hd, hn, hr, hs⟩ | ⟨t, hw, hpl, hr, ht2, ha, hd, htk, hn, hs⟩ |
          ⟨hw, hpl, hr, ha, hd, hn, hs⟩
      · have hdec : dec32 l.nReaders = (h.readers - 1) % 4294967296 := by
          rw [hn]; unfold dec32; split_ifs <;> omega
        have hz : (h.readers - 1) % 4294967296 = 0 ↔ h.readers - 1 = 0 := by omega
        refine ⟨hqs, hpw, ht, Or.inl ⟨hw, hpl, ha, hd, hdec, by simp only; omega, ?_⟩⟩
        simp only [hdec, hs, if_neg hr0, hz]
      · exact absurd hr hr0
      · exact absurd hr hr0
  | Unlock t =>
    simp only [perform] at hp
    split_ifs at hp with hmem
    cases hcall : call .Lock fuel l { pc := .holdW, ticket := t, pw := 0 } with
    | blocked => rw [hcall] at hp; simp at hp
    | panicked => rw [hcall] at hp; simp at hp
    | unfinished => rw [hcall] at hp; simp at hp
    | returned a b =>
      rw [hcall] at hp
      simp only [Option.some.injEq, Prod.mk.injEq] at hp
      obtain ⟨rfl, rfl⟩ := hp
      rcases hmode with ⟨hw, hpl, ha, hd, hn, hr, hs⟩ |
          ⟨t0, hw, hpl, hr, ht2, ha, hd, htk, hn, hs⟩ | ⟨hw, hpl, hr, ha, hd, hn, hs⟩
      · rw [hw] at hmem; simp at hmem
      · rw [hw] at hmem
        have e : t = t0 := by simpa using hmem
        subst e
        have ev := ab_seq_Unlock l .Lock q t hq hqs ha
        have hret := ab_returned_at _ _ _ _ _ _ (by rw [ev]; simp) hcall
        rw [ev] at hret
        simp only [Outcome.returned.injEq] at hret
        obtain ⟨rfl, -⟩ := hret
        refine ⟨hqs, hpw, ht, Or.inl ⟨by simp [hw], hpl, ?_, ?_, ?_, ?_, ?_⟩⟩
        · simp only [hd]
        · simp only [hd, htk]
        · simp only [hn, hr]
        · simp only [hr]; omega
        · simp [hr]
      · rw [hw] at hmem; simp at hmem
  | PUnlock =>
    simp only [perform] at hp
    split_ifs at hp with hp0
    cases hcall : call .PLock fuel l { pc := .holdP, ticket := 0, pw := 0 } with
    | blocked => rw [hcall] at hp; simp at hp
    | panicked => rw [hcall] at hp; simp at hp
    | unfinished => rw [hcall] at hp; simp at hp
    | returned a b =>
      rw [hcall] at hp
      simp only [Option.some.injEq, Prod.mk.injEq] at hp
      obtain ⟨rfl, rfl⟩ := hp
      have ev := ab_seq_PUnlock l .PLock
      have hret := ab_returned_at _ _ _ _ _ _ (by rw [ev]; simp) hcall
      rw [ev] at hret
      simp only [Outcome.returned.injEq] at hret
      obtain ⟨rfl, -⟩ := hret
      rcases hmode with ⟨hw, hpl, ha, hd, hn, hr, hs⟩ | ⟨t, hw, hpl, hr, ht2, ha, hd, htk, hn, hs⟩ |
          ⟨hw, hpl, hr, ha, hd, hn, hs⟩
      · exact absurd hpl hp0
      · exact absurd hpl hp0
      · refine ⟨hqs, hpw, ht, Or.inl ⟨hw, by simp [hpl], ha, hd, ?_, ?_, ?_⟩⟩
        · simp only [hn, hr]
        · simp only [hr]; omega
        · simp [hr]

end ABRWPQL
namespace ABRWPQL

/-- One call executed alone keeps the ring and the counters in step, on a ring
on which the ticket after a writer's does not meet the writer's flag. -/
theorem ab_perform_ring (q fuel : Nat) (l l2 : ABRWPQL) (h h2 : Held) (c : Call) (hq : 0 < q)
    (hc : q = 1 ∨ ¬ q ∣ 4294967295) (hI : RingInv q l h)
    (hp : perform fuel (l, h) c = some (l2, h2)) : RingInv q l2 h2 := by
  obtain ⟨hqs, hpw, ht, hres, hring⟩ := hI
  have hlen : ∀ t, l.arr = ring q t → l.arr.length = l.queue_sz := fun t e => by
    rw [e, ring_length, hqs]
  cases c with
  | RLock =>
    simp only [perform] at hp
    cases hcall : call .RLock fuel l idleCaller with
    | blocked => rw [hcall] at hp; simp at hp
    | panicked => rw [hcall] at hp; simp at hp
    | unfinished => rw [hcall] at hp; simp at hp
    | returned a b =>
      rw [hcall] at hp
      simp only [Option.some.injEq, Prod.mk.injEq] at hp
      obtain ⟨rfl, rfl⟩ := hp
      rcases hring with ⟨hw, ha, hd⟩ | ⟨t, hw, ht2, ha, hd, htk⟩
      · by_cases hs : l.lockState = .OPEN ∨ l.lockState = .RLOCKED
        · have ev := ab_seq_RLock l q l.dequeueCount hq hqs ha hs hpw rfl hd.symm (by omega)
          have h12 : call .RLock 12 l idleCaller ≠ .unfinished := by
            rw [ev]; split_ifs <;> simp
          have hret := ab_returned_at _ _ _ _ _ _ h12 hcall
          rw [ev] at hret
          split_ifs at hret with hg
          simp only [Outcome.returned.injEq] at hret
          obtain ⟨rfl, -⟩ := hret
          exact ⟨hqs, hpw, inc32_lt _, by simp, Or.inl ⟨hw, rfl, rfl⟩⟩
        · have ev := ab_seq_RLock_blocked l (hlen _ ha) (fun e => hs (Or.inl e))
            (fun e => hs (Or.inr e))
          have hret := ab_returned_at _ _ _ _ _ _ (by rw [ev]; simp) hcall
          rw [ev] at hret; cases hret
      · have ev := ab_seq_RLock_behind l q t hq hqs ha hd htk ht2 hc
        have hret := ab_returned_at _ _ _ _ _ _ (by rw [ev]; simp) hcall
        rw [ev] at hret; cases hret
  | Lock =>
    simp only [perform] at hp
    cases hcall : call .Lock fuel l idleCaller with
    | blocked => rw [hcall] at hp; simp at hp
    | panicked => rw [hcall] at hp; simp at hp
    | unfinished => rw [hcall] at hp; simp at hp
    | returned a b =>
      rw [hcall] at hp
      simp only [Option.some.injEq, Prod.mk.injEq] at hp
      obtain ⟨rfl, rfl⟩ := hp
      rcases hring with ⟨hw, ha, hd⟩ | ⟨t, hw, ht2, ha, hd, htk⟩
      · by_cases hs : l.nReaders = 0 ∧ l.lockState = .OPEN
        · have ev := ab_seq_Lock l q l.dequeueCount hq hqs ha hs.2 hs.1 hpw rfl hd.symm
            (by omega)
          have h12 : call .Lock 12 l idleCaller ≠ .unfinished := by
            rw [ev]; split_ifs <;> simp
          have hret := ab_returned_at _ _ _ _ _ _ h12 hcall
          rw [ev] at hret
          split_ifs at hret with hg
          simp only [Outcome.returned.injEq] at hret
          obtain ⟨rfl, rfl⟩ := hret
          refine ⟨hqs, hpw, inc32_lt _, by simp, Or.inr ⟨l.dequeueCount, ?_, by omega, ha, rfl,
            ?_⟩⟩
          · simp [hw]
          · simp only [hd]
        · have hs2 : 0 < l.nReaders ∨ l.lockState ≠ .OPEN := by
            by_cases hn : l.nReaders = 0
            · exact Or.inr (fun e => hs ⟨hn, e⟩)
            · exact Or.inl (by omega)
          have ev := ab_seq_Lock_blocked l (hlen _ ha) hs2
          have hret := ab_returned_at _ _ _ _ _ _ (by rw [ev]; simp) hcall
          rw [ev] at hret; cases hret
      · have ev := ab_seq_Lock_behind l q t hq hqs ha hd htk ht2 hc
        have hret := ab_returned_at _ _ _ _ _ _ (by rw [ev]; simp) hcall
        rw [ev] at hret; cases hret
  | PLock =>
    simp only [perform] at hp
    cases hcall : call .PLock fuel l idleCaller with
    | blocked => rw [hcall] at hp; simp at hp
    | panicked => rw [hcall] at hp; simp at hp
    | unfinished => rw [hcall] at hp; simp at hp
    | returned a b =>
      rw [hcall] at hp
      simp only [Option.some.injEq, Prod.mk.injEq] at hp
      obtain ⟨rfl, rfl⟩ := hp
      by_cases hs : l.lockState = .OPEN
      · have ev := ab_seq_PLock l hs hpw
        have hret := ab_returned_at _ _ _ _ _ _ (by rw [ev]; simp) hcall
        rw [ev] at hret
        simp only [Outcome.returned.injEq] at hret
        obtain ⟨rfl, -⟩ := hret
        exact ⟨hqs, hpw, ht, by simp, hring⟩
      · have ev := ab_seq_PLock_blocked l hs hres
        have hret := ab_returned_at _ _ _ _ _ _ (by rw [ev]; simp) hcall
        rw [ev] at hret; cases hret
  | RUnlock =>
    simp only [perform] at hp
    split_ifs at hp with hr0
    cases hcall : call .RLock fuel l { pc := .holdR, ticket := 0, pw := 0 } with
    | blocked => rw [hcall] at hp; simp at hp
    | panicked => rw [hcall] at hp; simp at hp
    | unfinished => rw [hcall] at hp; simp at hp
    | returned a b =>
      rw [hcall] at hp
      simp only [Option.some.injEq, Prod.mk.injEq] at hp
      obtain ⟨rfl, rfl⟩ := hp
      have ev := ab_seq_RUnlock l .RLock
      have hret := ab_returned_at _ _ _ _ _ _ (by rw [ev]; simp) hcall
      rw [ev] at hret
      simp only [Outcome.returned.injEq] at hret
      obtain ⟨rfl, -⟩ := hret
      refine ⟨hqs, hpw, ht, ?_, hring⟩
      simp only
      split_ifs
      · simp
      · exact hres
  | Unlock t =>
    simp only [perform] at hp
    split_ifs at hp with hmem
    cases hcall : call .Lock fuel l { pc := .holdW, ticket := t, pw := 0 } with
    | blocked => rw [hcall] at hp; simp at hp
    | panicked => rw [hcall] at hp; simp at hp
    | unfinished => rw [hcall] at hp; simp at hp
    | returned a b =>
      rw [hcall] at hp
      simp only [Option.some.injEq, Prod.mk.injEq] at hp
      obtain ⟨rfl, rfl⟩ := hp
      rcases hring with ⟨hw, ha, hd⟩ | ⟨t0, hw, ht2, ha, hd, htk⟩
      · rw [hw] at hmem; simp at hmem
      · rw [hw] at hmem
        have e : t = t0 := by simpa using hmem
        subst e
        have ev := ab_seq_Unlock l .Lock q t hq hqs ha
        have hret := ab_returned_at _ _ _ _ _ _ (by rw [ev]; simp) hcall
        rw [ev] at hret
        simp only [Outcome.returned.injEq] at hret
        obtain ⟨rfl, -⟩ := hret
        refine ⟨hqs, hpw, ht, by simp, Or.inl ⟨by simp [hw], ?_, ?_⟩⟩
        · simp only [hd]
        · simp only [hd, htk]
  | PUnlock =>
    simp only [perform] at hp
    split_ifs at hp with hp0
    cases hcall : call .PLock fuel l { pc := .holdP, ticket := 0, pw := 0 } with
    | blocked => rw [hcall] at hp; simp at hp
    | panicked => rw [hcall] at hp; simp at hp
    | unfinished => rw [hcall] at hp; simp at hp
    | returned a b =>
      rw [hcall] at hp
      simp only [Option.some.injEq, Prod.mk.injEq] at hp
      obtain ⟨rfl, rfl⟩ := hp
      have ev := ab_seq_PUnlock l .PLock
      have hret := ab_returned_at _ _ _ _ _ _ (by rw [ev]; simp) hcall
      rw [ev] at hret
      simp only [Outcome.returned.injEq] at hret
      obtain ⟨rfl, -⟩ := hret
      exact ⟨hqs, hpw, ht, by simp, hring⟩

theorem ab_performAll_ring (q fuel : Nat) (hq : 0 < q) (hc : q = 1 ∨ ¬ q ∣ 4294967295) :
    ∀ (cs : List Call) (l l2 : ABRWPQL) (h h2 : Held), RingInv q l h →
      performAll fuel cs (l, h) = some (l2, h2) → RingInv q l2 h2 := by
  intro cs
  induction cs with
  | nil =>
    intro l l2 h h2 hI hp
    simp only [performAll, Option.some.injEq, Prod.mk.injEq] at hp
    obtain ⟨rfl, rfl⟩ := hp
    exact hI
  | cons c cs ih =>
    intro l l2 h h2 hI hp
    simp only [performAll] at hp
    cases hperf : perform fuel (l, h) c with
    | none => rw [hperf] at hp; simp at hp
    | some st1 =>
      obtain ⟨l1, h1⟩ := st1
      rw [hperf] at hp
      exact ih l1 l2 h1 h2 (ab_perform_ring q fuel l l1 h h1 c hq hc hI hperf) hp

/-- The state between calls, while no more than `2^32` read holds are
outstanding, has the ring and the counters in step. -/
theorem RingInv_of_SeqInv (q : Nat) (l : ABRWPQL) (h : Held) (hI : SeqInv q l h) :
    RingInv q l h := by
  obtain ⟨hqs, hpw, ht, hmode⟩ := hI
  rcases hmode with ⟨hw, hpl, ha, hd, hn, hr, hs⟩ | ⟨t, hw, hpl, hr, ht2, ha, hd, htk, hn, hs⟩ |
      ⟨hw, hpl, hr, ha, hd, hn, hs⟩
  · exact ⟨hqs, hpw, ht, by rw [hs]; split_ifs <;> simp, Or.inl ⟨hw, ha, hd⟩⟩
  · exact ⟨hqs, hpw, ht, by rw [hs]; simp, Or.inr ⟨t, hw, ht2, ha, hd, htk⟩⟩
  · exact ⟨hqs, hpw, ht, by rw [hs]; simp, Or.inl ⟨hw, ha, hd⟩⟩

end ABRWPQL
namespace ABRWPQL

theorem ab_performAll_append (fuel : Nat) (a b : List Call) :
    ∀ st, performAll fuel (a ++ b) st = (performAll fuel a st).bind (performAll fuel b) := by
  induction a with
  | nil => intro st; rfl
  | cons c a ih =>
    intro st
    simp only [List.cons_append, performAll]
    cases perform fuel st c with
    | none => rfl
    | some st1 => exact ih st1

theorem le_peakReaders (r : Nat) (cs : List Call) : r ≤ peakReaders r cs := by
  cases cs with
  | nil => exact le_refl _
  | cons c cs => exact le_max_left _ _

theorem peakReaders_cons_le (r : Nat) (c : Call) (cs : List Call) :
    peakReaders (readersAfter r c) cs ≤ peakReaders r (c :: cs) := le_max_right _ _

theorem ab_perform_readers (fuel : Nat) (l l2 : ABRWPQL) (h h2 : Held) (c : Call)
    (hp : perform fuel (l, h) c = some (l2, h2)) :
    h2.readers = readersAfter h.readers c := by
  cases c <;> simp only [perform] at hp <;> (try split_ifs at hp) <;>
    split at hp <;> simp at hp <;> obtain ⟨-, rfl⟩ := hp <;> simp [readersAfter]

theorem ab_performAll_inv (q fuel : Nat) (hq : 0 < q) :
    ∀ (cs : List Call) (l l2 : ABRWPQL) (h h2 : Held), SeqInv q l h →
      peakReaders h.readers cs ≤ 4294967296 →
      performAll fuel cs (l, h) = some (l2, h2) → SeqInv q l2 h2 := by
  intro cs
  induction cs with
  | nil =>
    intro l l2 h h2 hI _ hp
    simp only [performAll, Option.some.injEq, Prod.mk.injEq] at hp
    obtain ⟨rfl, rfl⟩ := hp
    exact hI
  | cons c cs ih =>
    intro l l2 h h2 hI hb hp
    simp only [performAll] at hp
    cases hperf : perform fuel (l, h) c with
    | none => rw [hperf] at hp; simp at hp
    | some st1 =>
      obtain ⟨l1, h1⟩ := st1
      rw [hperf] at hp
      have hr := ab_perform_readers fuel l l1 h h1 c hperf
      have hb1 : peakReaders h1.readers cs ≤ 4294967296 := by
        rw [hr]; exact le_trans (peakReaders_cons_le _ _ _) hb
      have hI1 := ab_perform_inv q fuel l l1 h h1 c hq hI
        (fun e => by
          subst e
          have h3 := le_peakReaders (readersAfter h.readers .RLock) cs
          have h4 := peakReaders_cons_le h.readers .RLock cs
          simp only [readersAfter] at h3 h4
          omega) hperf
      exact ih l1 l2 h1 h2 hI1 hb1 hp

/-- C15 (ring invariant of the bounded lock, calls executed one at a time;
amended).  For every ring size `q ≥ 1`, every number of steps allowed per call and
every sequence of calls that follows the protocol and in which every call
returns, provided that at no time more than `2^32` read holds are outstanding, or
that `q = 1`, or that `q` does not divide `2^32 - 1`: at the end at most one
`Lock` is outstanding; if none is, slot `dequeueCount mod q` holds 1, every
other slot holds 0 and `dequeueCount` equals the ticket counter; if a writer
holds, the flag is at the writer's own slot `ticket mod q`, every other slot
holds 0 and `dequeueCount` equals its ticket. -/
theorem ring_invariant_between_calls (q : Nat) (sleep_ns : Int) (fuel : Nat) (cs : List Call)
    (l0 l : ABRWPQL) (h : Held) (hq : 1 ≤ q) (h0 : NewABRWPQL q sleep_ns = some l0)
    (hc : peakReaders 0 cs ≤ 4294967296 ∨ q = 1 ∨ ¬ q ∣ 4294967295)
    (hrun : performAll fuel cs (l0, Held.nothing) = some (l, h)) :
    h.writers.length ≤ 1 ∧ l.arr.length = q ∧
    (h.writers = [] →
      (∀ j, j < q → l.arr[j]? = some (if j = l.dequeueCount % q then 1 else 0)) ∧
      l.dequeueCount = l.ticket) ∧
    (∀ t ∈ h.writers,
      (∀ j, j < q → l.arr[j]? = some (if j = t % q then 1 else 0)) ∧
      l.dequeueCount = t) := by
  have hq0 : 0 < q := hq
  rw [NewABRWPQL_eq q sleep_ns hq0] at h0
  cases h0
  have hI0 : SeqInv q (lockAt q sleep_ns .OPEN 0 0 0) Held.nothing :=
    ⟨rfl, rfl, by simp [lockAt], Or.inl ⟨rfl, rfl, rfl, rfl, rfl, by simp [Held.nothing], rfl⟩⟩
  have hI : RingInv q l h := by
    rcases hc with hc | hc
    · exact RingInv_of_SeqInv q l h (ab_performAll_inv q fuel hq0 cs _ l _ h hI0 hc hrun)
    · exact ab_performAll_ring q fuel hq0 hc cs _ l _ h (RingInv_of_SeqInv q _ _ hI0) hrun
  obtain ⟨hqs, hpw, ht, hres, hring⟩ := hI
  have hslots : ∀ d, l.arr = ring q d →
      ∀ j, j < q → l.arr[j]? = some (if j = d % q then 1 else 0) := by
    intro d e j hj
    rw [e, ring_getElem? q d j hq0, if_pos hj]
  rcases hring with ⟨hw, ha, hd⟩ | ⟨t, hw, ht2, ha, hd, htk⟩
  · refine ⟨by simp [hw], by rw [ha, ring_length], fun _ => ⟨hslots _ ha, hd⟩, ?_⟩
    intro t ht; rw [hw] at ht; simp at ht
  · refine ⟨by simp [hw], by rw [ha, ring_length], fun e => ?_, ?_⟩
    · rw [hw] at e; simp at e
    · intro t1 ht1
      rw [hw] at ht1
      have e : t1 = t := by simpa using ht1
      subst e
      exact ⟨hslots _ ha, hd⟩

/-- Witness for C15: on a ring of 4 slots, two readers together, a writer, a
priority caller and a writer that is left holding with ticket 3. -/
theorem ring_invariant_between_calls_witness :
    performAll 12 mixedCalls (fresh4, Held.nothing) =
      some ({ fresh4 with arr := [0, 0, 0, 1], lockState := .LOCKED, ticket := 4,
                          dequeueCount := 3 },
            { readers := 0, writers := [3], plocks := 0 }) ∧
    ∀ t ∈ ({ readers := 0, writers := [3], plocks := 0 } : Held).writers,
      (∀ j, j < 4 →
        ({ fresh4 with arr := [0, 0, 0, 1], lockState := .LOCKED, ticket := 4,
                       dequeueCount := 3 } : ABRWPQL).arr[j]? =
          some (if j = t % 4 then 1 else 0)) ∧
      ({ fresh4 with arr := [0, 0, 0, 1], lockState := .LOCKED, ticket := 4,
                     dequeueCount := 3 } : ABRWPQL).dequeueCount = t :=
  ⟨by decide,
    (ring_invariant_between_calls 4 1000 12 mixedCalls fresh4 _ _ (by decide) (by decide)
      (Or.inl (by decide)) (by decide)).2.2.2⟩

end ABRWPQL
namespace ABRWPQL

/-- `N` calls of `RLock` one after another on a ring that fits `uint32`. -/
theorem ab_RLocks (q : Nat) (sl : Int) (hq : 0 < q) (hq32 : q < 4294967296) :
    ∀ (N d n r : Nat) (ls : LockState) (w : List Nat) (p : Nat), d < 4294967296 →
      n < 4294967296 → (ls = .OPEN ∨ ls = .RLOCKED) →
      performAll 12 (List.replicate N .RLock)
          (lockAt q sl ls d d n, { readers := r, writers := w, plocks := p }) =
        some (lockAt q sl (if N = 0 then ls else .RLOCKED) ((d + N) % 4294967296)
                ((d + N) % 4294967296) ((n + N) % 4294967296),
              { readers := r + N, writers := w, plocks := p }) := by
  intro N
  induction N with
  | zero =>
    intro d n r ls w p hd hn _
    simp only [List.replicate, performAll, Nat.add_zero, Nat.mod_eq_of_lt hd,
      Nat.mod_eq_of_lt hn, if_true]
  | succ N ih =>
    intro d n r ls w p hd hn hs
    have hg : gatesAgree q d := ⟨by rw [Nat.mod_eq_of_lt hq32]; omega,
      by rw [Nat.mod_eq_of_lt hq32]⟩
    have ev := ab_seq_RLock (lockAt q sl ls d d n) q d hq rfl rfl hs rfl rfl rfl hd
    rw [if_pos hg] at ev
    have e1 : (d + (N + 1)) % 4294967296 = (inc32 d + N) % 4294967296 := by
      unfold inc32; omega
    have e2 : (n + (N + 1)) % 4294967296 = (inc32 n + N) % 4294967296 := by
      unfold inc32; omega
    have e3 : r + (N + 1) = r + 1 + N := by omega
    have hih := ih (inc32 d) (inc32 n) (r + 1) .RLOCKED w p (inc32_lt d) (inc32_lt n)
      (Or.inr rfl)
    rw [List.replicate_succ]
    simp only [performAll, perform, ev]
    rw [e1, e2, e3, if_neg (Nat.succ_ne_zero N)]
    have e4 : (if N = 0 then LockState.RLOCKED else LockState.RLOCKED) = .RLOCKED := by
      split_ifs <;> rfl
    rw [e4] at hih
    exact hih

/-- `N` calls of `RUnlock` one after another while at least `N` readers are
counted and at least `N` read holds are outstanding. -/
theorem ab_RUnlocks (q : Nat) (sl : Int) :
    ∀ (N n r : Nat) (ls : LockState) (d tk : Nat) (w : List Nat) (p : Nat), N ≤ n →
      n < 4294967296 → N ≤ r →
      performAll 12 (List.replicate N .RUnlock)
          (lockAt q sl ls d tk n, { readers := r, writers := w, plocks := p }) =
        some (lockAt q sl (if N ≠ 0 ∧ n = N then .OPEN else ls) d tk (n - N),
              { readers := r - N, writers := w, plocks := p }) := by
  intro N
  induction N with
  | zero =>
    intro n r ls d tk w p _ _ _
    simp [performAll]
  | succ N ih =>
    intro n r ls d tk w p hn hn32 hr
    have hr0 : r ≠ 0 := by omega
    have ev := ab_seq_RUnlock (lockAt q sl ls d tk n) .RLock
    have hdec : dec32 n = n - 1 := dec32_of_pos (by omega) hn32
    have hih := ih (n - 1) (r - 1) (if n - 1 = 0 then .OPEN else ls) d tk w p (by omega)
      (by omega) (by omega)
    rw [List.replicate_succ]
    simp only [performAll, perform, if_neg hr0, ev]
    have e0 : ({ lockAt q sl ls d tk n with
          nReaders := dec32 (lockAt q sl ls d tk n).nReaders
          lockState := if dec32 (lockAt q sl ls d tk n).nReaders = 0 then .OPEN
            else (lockAt q sl ls d tk n).lockState } : ABRWPQL) =
        lockAt q sl (if n - 1 = 0 then .OPEN else ls) d tk (n - 1) := by
      simp only [lockAt, hdec]
    rw [e0, hih]
    have e1 : n - 1 - N = n - (N + 1) := by omega
    have e2 : r - 1 - N = r - (N + 1) := by omega
    have e3 : (if N ≠ 0 ∧ n - 1 = N then LockState.OPEN
        else if n - 1 = 0 then LockState.OPEN else ls) =
        (if N + 1 ≠ 0 ∧ n = N + 1 then LockState.OPEN else ls) := by
      by_cases h1 : n = N + 1
      · have h2 : n - 1 = N := by omega
        by_cases h3 : N = 0
        · subst h3; simp [h1]
        · simp [h1, h3]
      · have h2 : ¬ n - 1 = N := by omega
        have h3 : ¬ n - 1 = 0 := by omega
        simp [h1, h2, h3]
    rw [e1, e2, e3]

end ABRWPQL
namespace ABRWPQL

theorem ab_performAll_cons (fuel : Nat) (c : Call) (cs : List Call) (st : ABRWPQL × Held) :
    performAll fuel (c :: cs) st = (perform fuel st c).bind (performAll fuel cs) := by
  simp only [performAll]
  cases perform fuel st c <;> rfl

/-- The pairs `Lock`, `Unlock` for `k` tickets from `d` on, on a ring that fits
`uint32` and without wrap-around of the ticket counter. -/
theorem ab_lockUnlocks (q : Nat) (sl : Int) (hq : 0 < q) (hq32 : q < 4294967296) :
    ∀ (k d r : Nat) (w : List Nat) (p : Nat), d + k < 4294967296 →
      performAll 12 (lockUnlockFrom d k)
          (lockAt q sl .OPEN d d 0, { readers := r, writers := w, plocks := p }) =
        some (lockAt q sl .OPEN (d + k) (d + k) 0,
              { readers := r, writers := w, plocks := p }) := by
  intro k
  induction k with
  | zero => intro d r w p _; rfl
  | succ k ih =>
    intro d r w p hd
    have hg : gatesAgree q d := ⟨by rw [Nat.mod_eq_of_lt hq32]; omega,
      by rw [Nat.mod_eq_of_lt hq32]⟩
    have ev := ab_seq_Lock (lockAt q sl .OPEN d d 0) q d hq rfl rfl rfl rfl rfl rfl rfl
      (by omega)
    rw [if_pos hg] at ev
    have h1 : inc32 d = d + 1 := inc32_of_lt (by omega)
    have ev2 := ab_seq_Unlock (lockAt q sl .LOCKED d (d + 1) 0) .Lock q d hq rfl rfl
    have hih := ih (d + 1) r w p (by omega)
    have e1 : d + 1 + k = d + (k + 1) := by omega
    rw [e1] at hih
    have hL : perform 12 (lockAt q sl .OPEN d d 0, { readers := r, writers := w, plocks := p })
        .Lock =
        some (lockAt q sl .LOCKED d (d + 1) 0,
              { readers := r, writers := d :: w, plocks := p }) := by
      simp only [perform, ev]
      simp only [lockAt, h1]
    have hU : perform 12 (lockAt q sl .LOCKED d (d + 1) 0,
          { readers := r, writers := d :: w, plocks := p }) (.Unlock d) =
        some (lockAt q sl .OPEN (d + 1) (d + 1) 0,
              { readers := r, writers := w, plocks := p }) := by
      simp only [perform, List.mem_cons, true_or, if_true, ev2, List.erase_cons_head]
      simp only [lockAt, h1]
    simp only [lockUnlockFrom]
    rw [ab_performAll_cons, hL, Option.some_bind, ab_performAll_cons, hU, Option.some_bind, hih]

theorem peakReaders_RLocks : ∀ (N r : Nat) (cs : List Call),
    peakReaders r (List.replicate N .RLock ++ cs) = peakReaders (r + N) cs := by
  intro N
  induction N with
  | zero => intro r cs; rfl
  | succ N ih =>
    intro r cs
    have e0 : peakReaders r (List.replicate (N + 1) .RLock ++ cs) =
        max r (peakReaders (r + 1) (List.replicate N .RLock ++ cs)) := rfl
    rw [e0, ih (r + 1) cs]
    have e : r + 1 + N = r + (N + 1) := by omega
    rw [e]
    have := le_peakReaders (r + (N + 1)) cs
    exact max_eq_right (by omega)

theorem peakReaders_lockUnlocks : ∀ (k d r : Nat) (cs : List Call),
    peakReaders r (lockUnlockFrom d k ++ cs) = peakReaders r cs := by
  intro k
  induction k with
  | zero => intro d r cs; rfl
  | succ k ih =>
    intro d r cs
    have e : lockUnlockFrom d (k + 1) ++ cs =
        .Lock :: .Unlock d :: (lockUnlockFrom (d + 1) k ++ cs) := rfl
    have e1 : peakReaders r (.Lock :: .Unlock d :: (lockUnlockFrom (d + 1) k ++ cs)) =
        max r (max r (peakReaders r (lockUnlockFrom (d + 1) k ++ cs))) := rfl
    rw [e, e1, ih (d + 1) r cs]
    have := le_peakReaders r cs
    rw [max_eq_right this, max_eq_right this]

theorem peakReaders_of_no_RLock : ∀ (cs : List Call) (r : Nat), (∀ c ∈ cs, c ≠ .RLock) →
    peakReaders r cs = r := by
  intro cs
  induction cs with
  | nil => intro r _; rfl
  | cons c cs ih =>
    intro r h
    simp only [peakReaders]
    rw [ih _ (fun x hx => h x (List.mem_cons_of_mem _ hx))]
    have hc : c ≠ .RLock := h c (List.mem_cons_self _ _)
    have : readersAfter r c ≤ r := by
      cases c <;> simp [readersAfter] at hc ⊢
    exact max_eq_left this

end ABRWPQL

namespace ABRWPQL

/-- Counterexample for C15: a sequence of calls that follows the protocol, every
call returning, with at most `2^32 + 1` read holds outstanding at any time,
after which two `Lock`s are outstanding and the writer holding ticket 0 finds
`dequeueCount = 2^32 - 1`.  On the ring of 3 slots, after `2^32 - 2` pairs of
`Lock` and `Unlock`, `2^32 + 1` calls of `RLock` leave `nReaders = 1`; an
`RUnlock` stores `OPEN` although `2^32` read holds are still outstanding; a
writer acquires with ticket `2^32 - 1`; the `2^32` calls of `RUnlock` bring
`nReaders` back to 0 and the last one stores `OPEN` while the writer holds; the
next `Lock` draws ticket 0, whose slot `0 mod 3` is the slot
`(2^32 - 1) mod 3` of the flag, and acquires. -/
theorem ring_invariant_fails_after_reader_count_wraps :
    NewABRWPQL 3 1000 = some (lockAt 3 1000 .OPEN 0 0 0) ∧
    peakReaders 0 wrapCalls = 4294967297 ∧
    performAll 12 wrapCalls (lockAt 3 1000 .OPEN 0 0 0, Held.nothing) =
      some (lockAt 3 1000 .LOCKED 4294967295 1 0,
            { readers := 0, writers := [0, 4294967295], plocks := 0 }) ∧
    (lockAt 3 1000 .LOCKED 4294967295 1 0).dequeueCount ≠ 0 := by
  refine ⟨by decide, ?_, ?_, by decide⟩
  · have hno : ∀ c ∈ (Call.RUnlock :: Call.Lock :: Call.RUnlock ::
        (List.replicate 4294967295 Call.RUnlock ++ [Call.Lock])), c ≠ Call.RLock := by
      intro c hc
      simp only [List.mem_cons, List.mem_append, List.mem_replicate, List.mem_singleton,
        List.not_mem_nil, or_false] at hc
      rcases hc with e | e | e | ⟨-, e⟩ | e <;> subst e <;> decide
    unfold wrapCalls
    rw [peakReaders_lockUnlocks, peakReaders_RLocks, peakReaders_of_no_RLock _ _ hno]
  have hP : performAll 12 (lockUnlockFrom 0 4294967294)
      (lockAt 3 1000 .OPEN 0 0 0, Held.nothing) =
      some (lockAt 3 1000 .OPEN 4294967294 4294967294 0,
            { readers := 0, writers := [], plocks := 0 }) :=
    (ab_lockUnlocks 3 1000 (by decide) (by decide) 4294967294 0 0 [] 0 (by decide)).trans
      (by norm_num)
  have hA : performAll 12 (List.replicate 4294967297 .RLock)
      (lockAt 3 1000 .OPEN 4294967294 4294967294 0,
        { readers := 0, writers := [], plocks := 0 }) =
      some (lockAt 3 1000 .RLOCKED 4294967295 4294967295 1,
            { readers := 4294967297, writers := [], plocks := 0 }) :=
    (ab_RLocks 3 1000 (by decide) (by decide) 4294967297 4294967294 0 0 .OPEN [] 0 (by decide)
      (by decide) (Or.inl rfl)).trans (by norm_num)
  have hB : perform 12 (lockAt 3 1000 .RLOCKED 4294967295 4294967295 1,
        { readers := 4294967297, writers := [], plocks := 0 }) .RUnlock =
      some (lockAt 3 1000 .OPEN 4294967295 4294967295 0,
            { readers := 4294967296, writers := [], plocks := 0 }) := by
    have ev := ab_seq_RUnlock (lockAt 3 1000 .RLOCKED 4294967295 4294967295 1) .RLock
    simp only [perform, ev]
    rfl
  have hC : perform 12 (lockAt 3 1000 .OPEN 4294967295 4294967295 0,
        { readers := 4294967296, writers := [], plocks := 0 }) .Lock =
      some (lockAt 3 1000 .LOCKED 4294967295 0 0,
            { readers := 4294967296, writers := [4294967295], plocks := 0 }) := by
    have ev := ab_seq_Lock (lockAt 3 1000 .OPEN 4294967295 4294967295 0) 3 4294967295
      (by decide) rfl rfl rfl rfl rfl rfl rfl (by decide)
    rw [if_pos (by decide)] at ev
    simp only [perform, ev]
    rfl
  have hD1 : perform 12 (lockAt 3 1000 .LOCKED 4294967295 0 0,
        { readers := 4294967296, writers := [4294967295], plocks := 0 }) .RUnlock =
      some (lockAt 3 1000 .LOCKED 4294967295 0 4294967295,
            { readers := 4294967295, writers := [4294967295], plocks := 0 }) := by
    have ev := ab_seq_RUnlock (lockAt 3 1000 .LOCKED 4294967295 0 0) .RLock
    simp only [perform, ev]
    rfl
  have hD : performAll 12 (List.replicate 4294967295 .RUnlock)
      (lockAt 3 1000 .LOCKED 4294967295 0 4294967295,
        { readers := 4294967295, writers := [4294967295], plocks := 0 }) =
      some (lockAt 3 1000 .OPEN 4294967295 0 0,
            { readers := 0, writers := [4294967295], plocks := 0 }) :=
    (ab_RUnlocks 3 1000 4294967295 4294967295 4294967295 .LOCKED 4294967295 0 [4294967295] 0
      (by decide) (by decide) (by decide)).trans (by norm_num)
  have hE : perform 12 (lockAt 3 1000 .OPEN 4294967295 0 0,
        { readers := 0, writers := [4294967295], plocks := 0 }) .Lock =
      some (lockAt 3 1000 .LOCKED 4294967295 1 0,
            { readers := 0, writers := [0, 4294967295], plocks := 0 }) := by
    rfl
  unfold wrapCalls
  rw [ab_performAll_append, hP, Option.some_bind, ab_performAll_append, hA, Option.some_bind]
  rw [ab_performAll_cons, hB, Option.some_bind, ab_performAll_cons, hC, Option.some_bind,
    ab_performAll_cons, hD1, Option.some_bind]
  rw [ab_performAll_append, hD, Option.some_bind, ab_performAll_cons, hE, Option.some_bind]
  rfl

end ABRWPQL
namespace RWPQL

theorem returned_ge (op : Op) (fuel : Nat) (l : RWPQL) (c : Local) (r : Outcome RWPQL Local)
    (h12 : call op 12 l c = r) (hr : r ≠ .unfinished) (hf : 12 ≤ fuel) :
    call op fuel l c = r := by
  have := call_mono op 12 l c r h12 hr (fuel - 12)
  rwa [show 12 + (fuel - 12) = fuel by omega] at this

/-- `RLock` run alone while nothing but read access is held. -/
theorem seq_RLock (l : RWPQL) (t : Nat) (hs : l.lockState = .OPEN ∨ l.lockState = .RLOCKED)
    (hp : l.priorityWaiting = 0) (hd : l.dequeueCount = t) (ht : l.ticket = t)
    (h32 : t < 4294967296) :
    call .RLock 12 l idleCaller =
      .returned { l with lockState := .RLOCKED, ticket := inc32 t, dequeueCount := inc32 t,
                         nReaders := inc32 l.nReaders }
        { pc := .holdR, ticket := t, pw := 0 } := by
  obtain ⟨sl, ls, tk, dc, nr, pw⟩ := l
  simp only at hs hp hd ht
  subst hp ht hd
  have h2 : dec32 (inc32 dc) = dc := dec32_inc32 h32
  rw [call_succ]; simp [tstep, entry, idleCaller, PC.sleeping, PC.between]
  rw [call_succ]; simp [tstep, RLock, PC.sleeping, PC.between, h2]
  rw [call_succ]; simp [tstep, RLock, PC.sleeping, PC.between]
  rcases hs with hs | hs <;> subst hs
  · rw [call_succ]; simp [tstep, RLock, PC.sleeping, PC.between]
    rw [call_succ]; simp [tstep, RLock, PC.sleeping, PC.between]
    rw [call_succ]; simp [tstep, RLock, PC.sleeping, PC.between]
    rw [call_succ]; simp [tstep, RLock, PC.sleeping, PC.between]
  · rw [call_succ]; simp [tstep, RLock, PC.sleeping, PC.between]
    rw [call_succ]; simp [tstep, RLock, PC.sleeping, PC.between]
    rw [call_succ]; simp [tstep, RLock, PC.sleeping, PC.between]
    rw [call_succ]; simp [tstep, RLock, PC.sleeping, PC.between]
    rw [call_succ]; simp [tstep, RLock, PC.sleeping, PC.between]

/-- `Lock` run alone while nothing is held. -/
theorem seq_Lock (l : RWPQL) (t : Nat) (hs : l.lockState = .OPEN)
    (hp : l.priorityWaiting = 0) (hd : l.dequeueCount = t) (ht : l.ticket = t)
    (h32 : t < 4294967296) :
    call .Lock 12 l idleCaller =
      .returned { l with lockState := .LOCKED, ticket := inc32 t }
        { pc := .holdW, ticket := t, pw := 0 } := by
  obtain ⟨sl, ls, tk, dc, nr, pw⟩ := l
  simp only at hs hp hd ht
  subst hp ht hd hs
  have h2 : dec32 (inc32 dc) = dc := dec32_inc32 h32
  rw [call_succ]; simp [tstep, entry, idleCaller, PC.sleeping, PC.between]
  rw [call_succ]; simp [tstep, Lock, PC.sleeping, PC.between, h2]
  rw [call_succ]; simp [tstep, Lock, PC.sleeping, PC.between]
  rw [call_succ]; simp [tstep, Lock, PC.sleeping, PC.between]
  rw [call_succ]; simp [tstep, Lock, PC.sleeping, PC.between]

/-- `PLock` run alone while nothing is held. -/
theorem seq_PLock (l : RWPQL) (hs : l.lockState = .OPEN) (hp : l.priorityWaiting = 0) :
    call .PLock 12 l idleCaller =
      .returned { l with lockState := .LOCKED } { pc := .holdP, ticket := 0, pw := 0 } := by
  obtain ⟨sl, ls, tk, dc, nr, pw⟩ := l
  simp only at hs hp
  subst hs hp
  have h2 : dec32 (inc32 0) = 0 := dec32_inc32 (by decide)
  rw [call_succ]; simp [tstep, entry, idleCaller, PC.sleeping, PC.between]
  rw [call_succ]; simp [tstep, PLock, PC.sleeping, PC.between]
  rw [call_succ]; simp [tstep, PLock, PC.sleeping, PC.between]
  rw [call_succ]; simp [tstep, PLock, PC.sleeping, PC.between, h2]

/-- `RLock` run alone while a writer or a priority caller holds. -/
theorem seq_RLock_blocked (l : RWPQL) (h1 : l.lockState ≠ .OPEN) (h2 : l.lockState ≠ .RLOCKED) :
    call .RLock 12 l idleCaller = .blocked := by
  rw [call_succ]; simp [tstep, entry, idleCaller, PC.sleeping, PC.between]
  rw [call_succ]; simp [tstep, RLock, PC.sleeping, PC.between]
  rw [call_succ]
  by_cases hg : l.dequeueCount = dec32 (inc32 l.ticket)
  · simp [tstep, RLock, PC.sleeping, PC.between, hg]
    rw [call_succ]; simp [tstep, RLock, PC.sleeping, PC.between, h1]
    rw [call_succ]; simp [tstep, RLock, PC.sleeping, PC.between, h2]
  · simp [tstep, RLock, PC.sleeping, PC.between, hg]

/-- `Lock` run alone while anything is held. -/
theorem seq_Lock_blocked (l : RWPQL) (h1 : l.lockState ≠ .OPEN) :
    call .Lock 12 l idleCaller = .blocked := by
  rw [call_succ]; simp [tstep, entry, idleCaller, PC.sleeping, PC.between]
  rw [call_succ]; simp [tstep, Lock, PC.sleeping, PC.between]
  rw [call_succ]
  by_cases hg : l.dequeueCount = dec32 (inc32 l.ticket)
  · simp [tstep, Lock, PC.sleeping, PC.between, hg]
    rw [call_succ]; simp [tstep, Lock, PC.sleeping, PC.between, h1]
  · simp [tstep, Lock, PC.sleeping, PC.between, hg]

/-- `PLock` run alone while anything is held. -/
theorem seq_PLock_blocked (l : RWPQL) (h1 : l.lockState ≠ .OPEN)
    (h2 : l.lockState ≠ .PRIORITY_LOCK_RESERVED) :
    call .PLock 12 l idleCaller = .blocked := by
  rw [call_succ]; simp [tstep, entry, idleCaller, PC.sleeping, PC.between]
  rw [call_succ]; simp [tstep, PLock, PC.sleeping, PC.between]
  rw [call_succ]; simp [tstep, PLock, PC.sleeping, PC.between, h1]
  rw [call_succ]; simp [tstep, PLock, PC.sleeping, PC.between, h2]

/-- `RUnlock` run alone. -/
theorem seq_RUnlock (l : RWPQL) (op : Op) :
    call op 12 l { pc := .holdR, ticket := 0, pw := 0 } =
      .returned { l with nReaders := dec32 l.nReaders
                         lockState := if dec32 l.nReaders = 0 then .OPEN else l.lockState }
        { pc := .idle, ticket := 0, pw := 0 } :=
  call_mono op 3 l _ _ (call_RUnlock l _ op rfl) (by simp) 9

/-- `Unlock` run alone. -/
theorem seq_Unlock (l : RWPQL) (op : Op) (t : Nat) :
    call op 12 l { pc := .holdW, ticket := t, pw := 0 } =
      .returned { l with lockState := .OPEN, dequeueCount := inc32 l.dequeueCount }
        { pc := .idle, ticket := t, pw := 0 } := by
  rw [call_succ]; simp [tstep, PC.sleeping, PC.between]
  rw [call_succ]; simp [tstep, Unlock, PC.sleeping, PC.between]
  rw [call_succ]; simp [tstep, Unlock, PC.sleeping, PC.between]

/-- `PUnlock` run alone. -/
theorem seq_PUnlock (l : RWPQL) (op : Op) :
    call op 12 l { pc := .holdP, ticket := 0, pw := 0 } =
      .returned { l with lockState := .OPEN } { pc := .idle, ticket := 0, pw := 0 } := by
  rw [call_succ]; simp [tstep, PC.sleeping, PC.between]
  rw [call_succ]; simp [tstep, PUnlock, PC.sleeping, PC.between]

end RWPQL

namespace ABRWPQL

theorem ab_returned_ge (op : Op) (fuel : Nat) (l : ABRWPQL) (c : Local)
    (r : Outcome ABRWPQL Local) (h12 : call op 12 l c = r) (hr : r ≠ .unfinished)
    (hf : 12 ≤ fuel) : call op fuel l c = r := by
  have := ab_call_mono op 12 l c r h12 hr (fuel - 12)
  rwa [show 12 + (fuel - 12) = fuel by omega] at this

end ABRWPQL
namespace ABRWPQL

/-- One call executed alone ends the same way on both locks. -/
theorem joint_step (q fuel : Nat) (hq : 0 < q) (hq32 : q < 4294967296) (hf : 12 ≤ fuel)
    (r : RWPQL) (a : ABRWPQL) (h : Held) (c : Call) (hI : SeqInv q a h) (hag : agree r a)
    (hb : c = .RLock → h.readers + 1 ≤ 4294967296) :
    sameOutcome (RWPQL.perform fuel (r, h) c) (perform fuel (a, h) c) := by
  obtain ⟨hqs, hpw, ht, hmode⟩ := hI
  obtain ⟨gt, gd, gn, gp, gs⟩ := hag
  have hlen : ∀ t, a.arr = ring q t → a.arr.length = a.queue_sz := fun t e => by
    rw [e, ring_length, hqs]
  have hgate : ∀ t, gatesAgree q t := fun t =>
    ⟨by rw [Nat.mod_eq_of_lt hq32]; omega, by rw [Nat.mod_eq_of_lt hq32]⟩
  have hpwR : r.priorityWaiting = 0 := by rw [gp, hpw]
  rcases hmode with ⟨hw, hpl, ha, hd, hn, hr, hs⟩ | ⟨t, hw, hpl, hr, ht2, ha, hd, htk, hn, hs⟩ |
      ⟨hw, hpl, hr, ha, hd, hn, hs⟩
  · -- nothing but read access is held
    have hsA : a.lockState = .OPEN ∨ a.lockState = .RLOCKED := by
      rw [hs]; split_ifs <;> simp
    have hsR : r.lockState = a.lockState := by
      rw [gs]; rcases hsA with e | e <;> simp [e]
    have hsR2 : r.lockState = .OPEN ∨ r.lockState = .RLOCKED := by rw [hsR]; exact hsA
    have hdR : r.dequeueCount = a.dequeueCount := gd
    have htR : r.ticket = a.dequeueCount := by rw [gt, hd]
    have h32 : a.dequeueCount < 4294967296 := by omega
    cases c with
    | RLock =>
      have evA := ab_returned_ge _ fuel _ _ _
        ((ab_seq_RLock a q a.dequeueCount hq hqs ha hsA hpw rfl hd.symm h32).trans
          (if_pos (hgate _))) (by simp) hf
      have evR := RWPQL.returned_ge _ fuel _ _ _
        (RWPQL.seq_RLock r a.dequeueCount hsR2 hpwR hdR htR h32) (by simp) hf
      simp [RWPQL.perform, perform, evA, evR, sameOutcome, agree, gt, gd, gn, gp, hs]
    | Lock =>
      by_cases hr0 : h.readers = 0
      · rw [if_pos hr0] at hs
        have evA := ab_returned_ge _ fuel _ _ _
          ((ab_seq_Lock a q a.dequeueCount hq hqs ha hs (by rw [hn, hr0]) hpw rfl hd.symm
            h32).trans (if_pos (hgate _))) (by simp) hf
        have evR := RWPQL.returned_ge _ fuel _ _ _
          (RWPQL.seq_Lock r a.dequeueCount (by rw [hsR, hs]) hpwR hdR htR h32) (by simp) hf
        simp [RWPQL.perform, perform, evA, evR, sameOutcome, agree, gt, gd, gn, gp, hs]
      · rw [if_neg hr0] at hs
        have evA := ab_returned_ge _ fuel _ _ _
          (ab_seq_Lock_blocked a (hlen _ ha) (Or.inr (by rw [hs]; simp))) (by simp) hf
        have evR := RWPQL.returned_ge _ fuel _ _ _
          (RWPQL.seq_Lock_blocked r (by rw [hsR, hs]; simp)) (by simp) hf
        simp only [RWPQL.perform, perform, evA, evR, sameOutcome]
    | PLock =>
      by_cases hr0 : h.readers = 0
      · rw [if_pos hr0] at hs
        have evA := ab_returned_ge _ fuel _ _ _ (ab_seq_PLock a hs hpw) (by simp) hf
        have evR := RWPQL.returned_ge _ fuel _ _ _
          (RWPQL.seq_PLock r (by rw [hsR, hs]) hpwR) (by simp) hf
        simp [RWPQL.perform, perform, evA, evR, sameOutcome, agree, gt, gd, gn, gp, hs]
      · rw [if_neg hr0] at hs
        have evA := ab_returned_ge _ fuel _ _ _
          (ab_seq_PLock_blocked a (by rw [hs]; simp) (by rw [hs]; simp)) (by simp) hf
        have evR := RWPQL.returned_ge _ fuel _ _ _
          (RWPQL.seq_PLock_blocked r (by rw [hsR, hs]; simp) (by rw [hsR, hs]; simp))
          (by simp) hf
        simp only [RWPQL.perform, perform, evA, evR, sameOutcome]
    | RUnlock =>
      by_cases hr0 : h.readers = 0
      · simp only [RWPQL.perform, perform, if_pos hr0, sameOutcome]
      · have evA := ab_returned_ge _ fuel _ _ _ (ab_seq_RUnlock a .RLock) (by simp) hf
        have evR := RWPQL.returned_ge _ fuel _ _ _ (RWPQL.seq_RUnlock r .RLock) (by simp) hf
        by_cases hz : dec32 a.nReaders = 0 <;> rcases hsA with e | e <;>
          simp [RWPQL.perform, perform, hr0, evA, evR, sameOutcome, agree, gt, gd, gn, gp,
            hsR, e, hz]
    | Unlock t =>
      have hmem : t ∉ h.writers := by rw [hw]; simp
      simp only [RWPQL.perform, perform, if_neg hmem, sameOutcome]
    | PUnlock =>
      simp only [RWPQL.perform, perform, if_pos hpl, sameOutcome]
  · -- a writer holds
    have hsR : r.lockState = .LOCKED := by rw [gs, hs]; simp
    cases c with
    | RLock =>
      have evA := ab_returned_ge _ fuel _ _ _
        (ab_seq_RLock_blocked a (hlen _ ha) (by rw [hs]; simp) (by rw [hs]; simp))
        (by simp) hf
      have evR := RWPQL.returned_ge _ fuel _ _ _
        (RWPQL.seq_RLock_blocked r (by rw [hsR]; simp) (by rw [hsR]; simp)) (by simp) hf
      simp only [RWPQL.perform, perform, evA, evR, sameOutcome]
    | Lock =>
      have evA := ab_returned_ge _ fuel _ _ _
        (ab_seq_Lock_blocked a (hlen _ ha) (Or.inr (by rw [hs]; simp))) (by simp) hf
      have evR := RWPQL.returned_ge _ fuel _ _ _
        (RWPQL.seq_Lock_blocked r (by rw [hsR]; simp)) (by simp) hf
      simp only [RWPQL.perform, perform, evA, evR, sameOutcome]
    | PLock =>
      have evA := ab_returned_ge _ fuel _ _ _
        (ab_seq_PLock_blocked a (by rw [hs]; simp) (by rw [hs]; simp)) (by simp) hf
      have evR := RWPQL.returned_ge _ fuel _ _ _
        (RWPQL.seq_PLock_blocked r (by rw [hsR]; simp) (by rw [hsR]; simp)) (by simp) hf
      simp only [RWPQL.perform, perform, evA, evR, sameOutcome]
    | RUnlock =>
      simp only [RWPQL.perform, perform, if_pos hr, sameOutcome]
    | Unlock t1 =>
      by_cases hmem : t1 ∈ h.writers
      · have e : t1 = t := by rw [hw] at hmem; simpa using hmem
        subst e
        have evA := ab_returned_ge _ fuel _ _ _ (ab_seq_Unlock a .Lock q t1 hq hqs ha)
          (by simp) hf
        have evR := RWPQL.returned_ge _ fuel _ _ _ (RWPQL.seq_Unlock r .Lock t1) (by simp) hf
        simp [RWPQL.perform, perform, if_pos hmem, evA, evR, sameOutcome, agree, gt, gd, gn, gp, hs]
      · simp only [RWPQL.perform, perform, if_neg hmem, sameOutcome]
    | PUnlock =>
      simp only [RWPQL.perform, perform, if_pos hpl, sameOutcome]
  · -- a priority caller holds
    have hsR : r.lockState = .LOCKED := by rw [gs, hs]; simp
    have hp1 : ¬ h.plocks = 0 := by omega
    cases c with
    | RLock =>
      have evA := ab_returned_ge _ fuel _ _ _
        (ab_seq_RLock_blocked a (hlen _ ha) (by rw [hs]; simp) (by rw [hs]; simp))
        (by simp) hf
      have evR := RWPQL.returned_ge _ fuel _ _ _
        (RWPQL.seq_RLock_blocked r (by rw [hsR]; simp) (by rw [hsR]; simp)) (by simp) hf
      simp only [RWPQL.perform, perform, evA, evR, sameOutcome]
    | Lock =>
      have evA := ab_returned_ge _ fuel _ _ _
        (ab_seq_Lock_blocked a (hlen _ ha) (Or.inr (by rw [hs]; simp))) (by simp) hf
      have evR := RWPQL.returned_ge _ fuel _ _ _
        (RWPQL.seq_Lock_blocked r (by rw [hsR]; simp)) (by simp) hf
      simp only [RWPQL.perform, perform, evA, evR, sameOutcome]
    | PLock =>
      have evA := ab_returned_ge _ fuel _ _ _
        (ab_seq_PLock_blocked a (by rw [hs]; simp) (by rw [hs]; simp)) (by simp) hf
      have evR := RWPQL.returned_ge _ fuel _ _ _
        (RWPQL.seq_PLock_blocked r (by rw [hsR]; simp) (by rw [hsR]; simp)) (by simp) hf
      simp only [RWPQL.perform, perform, evA, evR, sameOutcome]
    | RUnlock =>
      simp only [RWPQL.perform, perform, if_pos hr, sameOutcome]
    | Unlock t =>
      have hmem : t ∉ h.writers := by rw [hw]; simp
      simp only [RWPQL.perform, perform, if_neg hmem, sameOutcome]
    | PUnlock =>
      have evA := ab_returned_ge _ fuel _ _ _ (ab_seq_PUnlock a .PLock) (by simp) hf
      have evR := RWPQL.returned_ge _ fuel _ _ _ (RWPQL.seq_PUnlock r .PLock) (by simp) hf
      simp [RWPQL.perform, perform, if_neg hp1, evA, evR, sameOutcome, agree, gt, gd, gn, gp, hs]

end ABRWPQL
namespace RWPQL

theorem performAll_append (fuel : Nat) (a b : List Call) :
    ∀ st, performAll fuel (a ++ b) st = (performAll fuel a st).bind (performAll fuel b) := by
  induction a with
  | nil => intro st; rfl
  | cons c a ih =>
    intro st
    simp only [List.cons_append, performAll]
    cases perform fuel st c with
    | none => rfl
    | some st1 => exact ih st1

/-- `N` calls of `RLock` one after another. -/
theorem RLocks (sl : Int) :
    ∀ (N d n r : Nat) (ls : LockState) (w : List Nat) (p : Nat), d < 4294967296 →
      n < 4294967296 → (ls = .OPEN ∨ ls = .RLOCKED) →
      performAll 12 (List.replicate N .RLock)
          ({ sleep_ns := sl, lockState := ls, ticket := d, dequeueCount := d, nReaders := n,
             priorityWaiting := 0 }, { readers := r, writers := w, plocks := p }) =
        some ({ sleep_ns := sl, lockState := if N = 0 then ls else .RLOCKED,
                ticket := (d + N) % 4294967296, dequeueCount := (d + N) % 4294967296,
                nReaders := (n + N) % 4294967296, priorityWaiting := 0 },
              { readers := r + N, writers := w, plocks := p }) := by
  intro N
  induction N with
  | zero =>
    intro d n r ls w p hd hn _
    simp only [List.replicate, performAll, Nat.add_zero, Nat.mod_eq_of_lt hd,
      Nat.mod_eq_of_lt hn, if_true]
  | succ N ih =>
    intro d n r ls w p hd hn hs
    have ev := seq_RLock
      { sleep_ns := sl, lockState := ls, ticket := d, dequeueCount := d, nReaders := n,
        priorityWaiting := 0 } d hs rfl rfl rfl hd
    have e1 : (d + (N + 1)) % 4294967296 = (inc32 d + N) % 4294967296 := by
      unfold inc32; omega
    have e2 : (n + (N + 1)) % 4294967296 = (inc32 n + N) % 4294967296 := by
      unfold inc32; omega
    have e3 : r + (N + 1) = r + 1 + N := by omega
    have hih := ih (inc32 d) (inc32 n) (r + 1) .RLOCKED w p
      (by unfold inc32; omega) (by unfold inc32; omega) (Or.inr rfl)
    rw [List.replicate_succ]
    simp only [performAll, perform, ev]
    rw [e1, e2, e3, if_neg (Nat.succ_ne_zero N)]
    have e4 : (if N = 0 then LockState.RLOCKED else LockState.RLOCKED) = .RLOCKED := by
      split_ifs <;> rfl
    rw [e4] at hih
    exact hih

end RWPQL

namespace ABRWPQL

/-- A sequence of calls executed one at a time ends the same way on both locks,
from any pair of states between calls that agree. -/
theorem joint_all (q fuel : Nat) (hq : 0 < q) (hq32 : q < 4294967296) (hf : 12 ≤ fuel) :
    ∀ (cs : List Call) (r : RWPQL) (a : ABRWPQL) (h : Held), SeqInv q a h → agree r a →
      peakReaders h.readers cs ≤ 4294967296 →
      sameOutcome (RWPQL.performAll fuel cs (r, h)) (performAll fuel cs (a, h)) := by
  intro cs
  induction cs with
  | nil =>
    intro r a h _ hag _
    exact ⟨rfl, hag⟩
  | cons c cs ih =>
    intro r a h hI hag hb
    have hbc : c = .RLock → h.readers + 1 ≤ 4294967296 := fun e => by
      subst e
      have h3 := le_peakReaders (readersAfter h.readers .RLock) cs
      have h4 := peakReaders_cons_le h.readers .RLock cs
      simp only [readersAfter] at h3 h4
      omega
    have hj := joint_step q fuel hq hq32 hf r a h c hI hag hbc
    simp only [RWPQL.performAll, performAll]
    cases hR : RWPQL.perform fuel (r, h) c with
    | none =>
      cases hA : perform fuel (a, h) c with
      | none => trivial
      | some y => rw [hR, hA] at hj; obtain ⟨a1, h2⟩ := y; exact hj.elim
    | some x =>
      obtain ⟨r1, h1⟩ := x
      cases hA : perform fuel (a, h) c with
      | none => rw [hR, hA] at hj; exact hj.elim
      | some y =>
        obtain ⟨a1, h2⟩ := y
        rw [hR, hA] at hj
        obtain ⟨e, hag1⟩ := hj
        subst e
        have hI1 := ab_perform_inv q fuel a a1 h h1 c hq hI hbc hA
        have hr := ab_perform_readers fuel a a1 h h1 c hA
        refine ih r1 a1 h1 hI1 hag1 ?_
        rw [hr]
        exact le_trans (peakReaders_cons_le _ _ _) hb

/-- Counterexample for C17.  (1) On a ring of `2^32` slots the first `RLock` of
the bounded lock goes to `time.Sleep` at the first gate (`uint32(queue_sz) = 0`),
while the first `RLock` of the unbounded lock returns.  (2) On the ring of 4
slots, with `2^32 + 1` read holds outstanding at one time, `nReaders` wraps
around; two calls of `RUnlock` later the state is `OPEN` with
`nReaders = 2^32 - 1`, and `Lock` returns on the unbounded lock (it does not look
at `nReaders`) and goes to `time.Sleep` on the bounded lock. -/
theorem variants_not_sequentially_equivalent :
    (∃ a, NewABRWPQL 4294967296 1000 = some a ∧
      RWPQL.perform 12 (NewRWPQL 1000, Held.nothing) .RLock =
        some ({ sleep_ns := 1000, lockState := .RLOCKED, ticket := 1, dequeueCount := 1,
                nReaders := 1, priorityWaiting := 0 },
              { readers := 1, writers := [], plocks := 0 }) ∧
      call .RLock 12 a idleCaller = .blocked ∧
      perform 12 (a, Held.nothing) .RLock = none ∧
      ¬ sameOutcome (RWPQL.performAll 12 [.RLock] (NewRWPQL 1000, Held.nothing))
          (performAll 12 [.RLock] (a, Held.nothing))) ∧
    NewABRWPQL 4 1000 = some fresh4 ∧
    peakReaders 0 overflowCalls = 4294967297 ∧
    RWPQL.performAll 12 overflowCalls (NewRWPQL 1000, Held.nothing) =
      some ({ sleep_ns := 1000, lockState := .LOCKED, ticket := 2, dequeueCount := 1,
              nReaders := 4294967295, priorityWaiting := 0 },
            { readers := 4294967295, writers := [1], plocks := 0 }) ∧
    performAll 12 overflowCalls (fresh4, Held.nothing) = none := by
  have hb : call .RLock 12 (lockAt 4294967296 1000 .OPEN 0 0 0) idleCaller = .blocked := by
    rw [ab_call_succ]; simp [tstep, entry, idleCaller, PC.sleeping, PC.between]
    rw [ab_call_succ]; simp [tstep, RLock, PC.sleeping, PC.between]
    rw [ab_call_succ]; simp [tstep, RLock, PC.sleeping, PC.between, qsz32, lockAt]
  have hR : RWPQL.perform 12 (NewRWPQL 1000, Held.nothing) .RLock =
      some ({ sleep_ns := 1000, lockState := .RLOCKED, ticket := 1, dequeueCount := 1,
              nReaders := 1, priorityWaiting := 0 },
            { readers := 1, writers := [], plocks := 0 }) := by decide
  have hA : perform 12 (lockAt 4294967296 1000 .OPEN 0 0 0, Held.nothing) .RLock = none := by
    simp only [perform, hb]
  have hRA : RWPQL.performAll 12 (List.replicate 4294967297 .RLock)
      (NewRWPQL 1000, Held.nothing) =
      some ({ sleep_ns := 1000, lockState := .RLOCKED, ticket := 1, dequeueCount := 1,
              nReaders := 1, priorityWaiting := 0 },
            { readers := 4294967297, writers := [], plocks := 0 }) :=
    (RWPQL.RLocks 1000 4294967297 0 0 0 .OPEN [] 0 (by decide) (by decide)
      (Or.inl rfl)).trans (by norm_num)
  have hRT : RWPQL.performAll 12 [.RUnlock, .RUnlock, .Lock]
      ({ sleep_ns := 1000, lockState := .RLOCKED, ticket := 1, dequeueCount := 1,
         nReaders := 1, priorityWaiting := 0 },
        { readers := 4294967297, writers := [], plocks := 0 }) =
      some ({ sleep_ns := 1000, lockState := .LOCKED, ticket := 2, dequeueCount := 1,
              nReaders := 4294967295, priorityWaiting := 0 },
            { readers := 4294967295, writers := [1], plocks := 0 }) := by decide
  have hAA : performAll 12 (List.replicate 4294967297 .RLock) (fresh4, Held.nothing) =
      some (lockAt 4 1000 .RLOCKED 1 1 1,
            { readers := 4294967297, writers := [], plocks := 0 }) :=
    (ab_RLocks 4 1000 (by decide) (by decide) 4294967297 0 0 0 .OPEN [] 0 (by decide)
      (by decide) (Or.inl rfl)).trans (by norm_num)
  have hAT : performAll 12 [.RUnlock, .RUnlock, .Lock]
      (lockAt 4 1000 .RLOCKED 1 1 1,
        { readers := 4294967297, writers := [], plocks := 0 }) = none := by decide
  refine ⟨⟨lockAt 4294967296 1000 .OPEN 0 0 0, NewABRWPQL_eq 4294967296 1000 (by decide), hR,
    hb, hA, ?_⟩, by decide, ?_, ?_, ?_⟩
  · simp only [RWPQL.performAll, performAll, hR, hA, sameOutcome, not_false_eq_true]
  · have hno : ∀ c ∈ [Call.RUnlock, Call.RUnlock, Call.Lock], c ≠ Call.RLock := by decide
    unfold overflowCalls
    rw [peakReaders_RLocks, peakReaders_of_no_RLock _ _ hno]
  · unfold overflowCalls
    rw [RWPQL.performAll_append, hRA, Option.some_bind, hRT]
  · unfold overflowCalls
    rw [ab_performAll_append, hAA, Option.some_bind, hAT]

/-- C17 (the two variants are sequentially equivalent; amended: ring sizes
`1 ≤ q < 2^32`, at no time more than `2^32` read holds outstanding).  For every
sequence of calls executed one at a time from `NewRWPQL` and `NewABRWPQL q`,
each call allowed at least 12 steps: either on both locks some call of the sequence does not return
(or breaks the protocol), or on both every call returns, the callers hold the
same (so `Lock` returned the same tickets) and the locks agree on the ticket
counter, `dequeueCount`, `nReaders`, `priorityWaiting` and, up to `PLock`
leaving `LOCKED` in `RWPQL` and `PRIORITY_LOCKED` in `ABRWPQL`, on `lockState`.
Moreover, after a sequence that returned on both, the next call (if it is an
`RLock`, with fewer than `2^32` read holds outstanding before it) ends the same
way on both. -/
theorem variants_sequentially_equivalent (q fuel : Nat) (sleep_ns : Int) (cs : List Call)
    (a0 : ABRWPQL) (hq : 1 ≤ q) (hq32 : q < 4294967296) (hf : 12 ≤ fuel)
    (h0 : NewABRWPQL q sleep_ns = some a0) (hc : peakReaders 0 cs ≤ 4294967296) :
    sameOutcome (RWPQL.performAll fuel cs (NewRWPQL sleep_ns, Held.nothing))
      (performAll fuel cs (a0, Held.nothing)) ∧
    ∀ (r : RWPQL) (a : ABRWPQL) (h : Held) (c : Call),
      (c = .RLock → h.readers + 1 ≤ 4294967296) →
      RWPQL.performAll fuel cs (NewRWPQL sleep_ns, Held.nothing) = some (r, h) →
      performAll fuel cs (a0, Held.nothing) = some (a, h) →
      sameOutcome (RWPQL.perform fuel (r, h) c) (perform fuel (a, h) c) := by
  have hq0 : 0 < q := hq
  rw [NewABRWPQL_eq q sleep_ns hq0] at h0
  cases h0
  have hI0 : SeqInv q (lockAt q sleep_ns .OPEN 0 0 0) Held.nothing :=
    ⟨rfl, rfl, by simp [lockAt], Or.inl ⟨rfl, rfl, rfl, rfl, rfl, by simp [Held.nothing], rfl⟩⟩
  have hag0 : agree (NewRWPQL sleep_ns) (lockAt q sleep_ns .OPEN 0 0 0) := by
    simp [agree, NewRWPQL, lockAt]
  have hb0 : peakReaders Held.nothing.readers cs ≤ 4294967296 := hc
  have hall := joint_all q fuel hq0 hq32 hf cs (NewRWPQL sleep_ns)
    (lockAt q sleep_ns .OPEN 0 0 0) Held.nothing hI0 hag0 hb0
  refine ⟨hall, ?_⟩
  intro r a h c hcb hR hA
  have hI := ab_performAll_inv q fuel hq0 cs _ a _ h hI0 hb0 hA
  have hag : agree r a := by
    have hA1 : performAll fuel cs (lockAt q sleep_ns .OPEN 0 0 0, Held.nothing) =
        some (a, h) := hA
    have := hall
    rw [hR, hA1] at this
    exact this.2
  exact joint_step q fuel hq0 hq32 hf r a h c hI hag hcb

/-- Witness for C17: the ring of 4 slots and a sequence with two readers, a
writer, a priority caller and a writer left holding with ticket 3. -/
theorem variants_sequentially_equivalent_witness :
    RWPQL.performAll 12 mixedCalls (NewRWPQL 1000, Held.nothing) =
      some ({ sleep_ns := 1000, lockState := .LOCKED, ticket := 4, dequeueCount := 3,
              nReaders := 0, priorityWaiting := 0 },
            { readers := 0, writers := [3], plocks := 0 }) ∧
    sameOutcome (RWPQL.performAll 12 mixedCalls (NewRWPQL 1000, Held.nothing))
      (performAll 12 mixedCalls (fresh4, Held.nothing)) :=
  ⟨by decide,
    (variants_sequentially_equivalent 4 12 1000 mixedCalls fresh4 (by decide) (by decide)
      (by decide) (by decide) (by decide)).1⟩

end ABRWPQL
